import Mathlib

/-!
Tiny-HTTP-Server: the method handlers, embedded and verified.

A shallow embedding of `http_methods.c` (with the helpers of `string_util.c`
and `media_util.c` it uses) over an explicit model of the file system and of
the connection.

* C strings are Lean `String`s, one `Char` per C `char`; file contents and
  bodies are `List Char` (`Bytes`), so a length is a number of bytes.
* The file system is an association list from normalised paths to nodes, with
  the nodes that cannot be read and the order in which directories are
  enumerated.
* A handler is a function from the request and the world it runs in to a
  `Result`: what was written to the connection, the response headers, the
  file system afterwards, the file-system calls it made, in order, and
  whether it ran into a NULL stream instead of returning.
-/

namespace TinyHttp

/-! ## string_util.c -/

/-- The function `strlower` of string_util.c: every character through `tolower`. -/
def strlower (src : String) : String :=
  String.mk (src.data.map Char.toLower)

/-- The function `strendswith` of string_util.c:
`(srclen >= endslen) && strcmp(src+srclen-endslen, endswith) == 0`. -/
def strendswith (src endswith : String) : Bool :=
  decide (endswith.length ≤ src.length) &&
    (src.data.drop (src.length - endswith.length) == endswith.data)

/-! ## libc: decimal output and `atoi` -/

/-- The character of a decimal digit. -/
def digitChar (d : Nat) : Char :=
  Char.ofNat (48 + d)

/-- Decimal digits of `n`, most significant first, pushed in front of `acc`. -/
def decimalAux : Nat → Nat → List Char → List Char
  | 0, _, acc => acc
  | fuel + 1, n, acc =>
    if n < 10 then digitChar n :: acc
    else decimalAux fuel (n / 10) (digitChar (n % 10) :: acc)

/-- What `sprintf(buf, "%lu", n)` leaves in `buf`. -/
def fmtLu (n : Nat) : String :=
  String.mk (decimalAux (n + 1) n [])

/-- The function `isspace` of the C locale. -/
def isspace (c : Char) : Bool :=
  c = ' ' || c = '\t' || c = '\n' || c = '\r' || c.toNat = 11 || c.toNat = 12

/-- Value of the longest run of decimal digits at the head of a string, after `acc`. -/
def digitsValue : List Char → Nat → Nat
  | [], acc => acc
  | c :: cs, acc =>
    if 48 ≤ c.toNat ∧ c.toNat ≤ 57 then digitsValue cs (acc * 10 + (c.toNat - 48)) else acc

/-- The conversion of a `long` to `int`: the low 32 bits, read as signed. -/
def toInt32 (x : Int) : Int :=
  (x + 2 ^ 31) % 2 ^ 32 - 2 ^ 31

/-- The function `strtol(s, NULL, 10)`: white space, a sign, digits; saturating at the
ends of `long`. -/
def strtol (s : String) : Int :=
  match s.data.dropWhile isspace with
  | '-' :: ds => max (-(digitsValue ds 0 : Int)) (-(2 ^ 63))
  | '+' :: ds => min (digitsValue ds 0 : Int) (2 ^ 63 - 1)
  | ds => min (digitsValue ds 0 : Int) (2 ^ 63 - 1)

/-- The function `atoi` as the C library implements it: `(int) strtol(s, NULL, 10)`. -/
def atoi (s : String) : Int :=
  toInt32 (strtol s)

/-! ## Property store (properties.c is not under src/) -/

/-- An ordered sequence of (key, value) pairs; keys may repeat. -/
abbrev Properties := List (String × String)

/-- Modelled from the spec: `putProperty` of properties.c, which is not under src/:
"appends a (key,value) pair, preserving prior pairs with the same key". -/
def putProperty (props : Properties) (key val : String) : Properties :=
  props ++ [(key, val)]

/-- Modelled from the spec: `findProperty` of properties.c, which is not under src/:
"returns the value of the occurrence-th pair whose key matches key case-insensitively,
or a not-found signal" (`SIZE_MAX` in the code, `none` here; the value buffer is only
written when a pair is found). -/
def findProperty (props : Properties) (occurrence : Nat) (name : String) : Option String :=
  ((props.filter (fun kv => strlower kv.1 == strlower name)).get? occurrence).map Prod.snd

/-! ## The file system -/

/-- A normalised path: the names from the working directory down. -/
abbrev Key := List String

/-- File contents and bodies: a sequence of C `char`s. -/
abbrev Bytes := List Char

/-- What a path can name: a regular file, a directory, or something else
(a device, a socket, a fifo). `writable` is the write permission of the server
process on the node. -/
inductive Node where
  | reg (bytes : Bytes) (mtime : Nat) (writable : Bool)
  | dir (size : Nat) (mtime : Nat) (writable : Bool)
  | other (size : Nat) (mtime : Nat)
deriving DecidableEq, Repr

/-- The file system: the nodes by normalised path; `noRead`, the nodes the server process
has no permission to read, on which `fopen(p, "r")` and `opendir` fail; and `order`,
which gives for a directory the names its enumeration returns first. No handler
changes `noRead` or `order`. -/
structure FS where
  nodes : List (Key × Node)
  noRead : List Key := []
  order : List (Key × List String) := []
deriving DecidableEq, Repr

/-- The file type bits of `st_mode`, as `S_ISREG` and `S_ISDIR` read them. -/
inductive Mode where
  | reg
  | dir
  | other
deriving DecidableEq, Repr

/-- The fields of `struct stat` the handlers read. -/
structure Stat where
  st_mode : Mode
  st_size : Nat
  st_mtime : Nat
deriving DecidableEq, Repr

/-- Splitting a path at every slash; `cur` is the component being read, reversed. -/
def splitSlash : List Char → List Char → List String
  | [], cur => [String.mk cur.reverse]
  | c :: cs, cur =>
    if c = '/' then String.mk cur.reverse :: splitSlash cs [] else splitSlash cs (c :: cur)

/-- Path resolution on a file system without symbolic links, the working directory
being the root: empty components and "." are skipped, ".." steps up (and stays at
the root). -/
def walk : List String → Key → Key
  | [], acc => acc
  | c :: cs, acc =>
    if c = "" ∨ c = "." then walk cs acc
    else if c = ".." then walk cs acc.dropLast
    else walk cs (acc ++ [c])

/-- The normalised path a path string resolves to. -/
def pathKey (p : String) : Key :=
  walk (splitSlash p.data []) []

/-- First node stored under a key. -/
def lookupKey (k : Key) : List (Key × Node) → Option Node
  | [] => none
  | e :: rest => if e.1 = k then some e.2 else lookupKey k rest

/-- All nodes stored under a key removed. -/
def eraseKey (k : Key) (l : List (Key × Node)) : List (Key × Node) :=
  l.filter (fun e => decide (e.1 ≠ k))

/-- The node under a key replaced where it stands, or added at the end. -/
def setKey (k : Key) (n : Node) : List (Key × Node) → List (Key × Node)
  | [] => [(k, n)]
  | e :: rest => if e.1 = k then (k, n) :: eraseKey k rest else e :: setKey k n rest

/-- Whether a node is a directory. -/
def Node.isDir : Node → Bool
  | .dir _ _ _ => true
  | _ => false

/-- The directory that holds `k` gets the modification time `now`: what making or
removing the entry `k` does to it (its size as `stat` reports it is taken to stay). -/
def touchParent (now : Nat) (k : Key) (nodes : List (Key × Node)) : List (Key × Node) :=
  match lookupKey k.dropLast nodes with
  | some (.dir size _ w) => setKey k.dropLast (.dir size now w) nodes
  | _ => nodes

/-- What `stat` reports for a node. -/
def Node.toStat : Node → Stat
  | .reg bytes mtime _ => { st_mode := .reg, st_size := bytes.length, st_mtime := mtime }
  | .dir size mtime _ => { st_mode := .dir, st_size := size, st_mtime := mtime }
  | .other size mtime => { st_mode := .other, st_size := size, st_mtime := mtime }

/-- The call `stat(p, &sb)`: `none` when it fails. A path with a trailing slash names
a directory or nothing. -/
def FS.stat (fs : FS) (p : String) : Option Stat :=
  if p = "" then none
  else
    match lookupKey (pathKey p) fs.nodes with
    | none => none
    | some n => if strendswith p "/" && !n.isDir then none else some n.toStat

/-- Names of the nodes directly under a directory, in the order in which they are
stored. -/
def FS.children (fs : FS) (k : Key) : List String :=
  fs.nodes.filterMap (fun e =>
    if e.1 ≠ [] ∧ e.1.dropLast = k then e.1.getLast? else none)

/-- An enumeration of the entries `base`: those that `first` names come first, in the
order of `first`, the others follow as they stand. It is a rearrangement of `base`. -/
def enumerate : List String → List String → List String
  | [], base => base
  | d :: first, base =>
    if d ∈ base then d :: enumerate first (base.erase d) else enumerate first base

/-- The names the enumeration of the directory `k` returns first. -/
def FS.firstNames (fs : FS) (k : Key) : List String :=
  match fs.order.find? (fun e => decide (e.1 = k)) with
  | some e => e.2
  | none => []

/-- The call `opendir(p)` and the names the calls of `readdir` then return, in order:
".", ".." and the names in the directory, in the order the file system enumerates
them; `none` (NULL) when `p` names no directory or the directory cannot be read. -/
def FS.opendir (fs : FS) (p : String) : Option (List String) :=
  if p = "" then none
  else
    match lookupKey (pathKey p) fs.nodes with
    | some (.dir _ _ _) =>
      if pathKey p ∈ fs.noRead then none
      else some (enumerate (fs.firstNames (pathKey p)) ("." :: ".." :: fs.children (pathKey p)))
    | _ => none

/-- Whether the directory holding `k` exists and can be written to. -/
def FS.parentWritable (fs : FS) (k : Key) : Bool :=
  match lookupKey k.dropLast fs.nodes with
  | some (.dir _ _ true) => true
  | _ => false

/-- The call `fopen(p, "r")` on a path that `stat` reported as a regular file: the
bytes the stream gives access to; `none` (NULL) when the file cannot be read. -/
def FS.fopenR (fs : FS) (p : String) : Option Bytes :=
  if p = "" ∨ strendswith p "/" = true then none
  else
    match lookupKey (pathKey p) fs.nodes with
    | some (.reg bytes _ _) => if pathKey p ∈ fs.noRead then none else some bytes
    | _ => none

/-- The call `fopen(p, "w")`: an existing regular file is truncated, a missing one is
created in its directory, whose modification time changes; `none` when the call
fails. -/
def FS.fopenW (fs : FS) (now : Nat) (p : String) : Option FS :=
  if p = "" ∨ strendswith p "/" = true then none
  else
    match lookupKey (pathKey p) fs.nodes with
    | some (.reg _ _ true) =>
      some { fs with nodes := setKey (pathKey p) (.reg [] now true) fs.nodes }
    | some _ => none
    | none =>
      if pathKey p ≠ [] ∧ fs.parentWritable (pathKey p) = true then
        some { fs with
          nodes := (setKey (pathKey p) (.reg [] now true) (touchParent now (pathKey p) fs.nodes)) }
      else none

/-- Bytes written to a file opened for writing. -/
def FS.putBytes (fs : FS) (k : Key) (b : Bytes) : FS :=
  match lookupKey k fs.nodes with
  | some (.reg old mtime w) => { fs with nodes := setKey k (.reg (old ++ b) mtime w) fs.nodes }
  | _ => fs

/-- The call `remove(p)`: `unlink` for a file, `rmdir` for a directory, which has to
be empty; the modification time of the directory that held it changes; `none` when
the call fails. -/
def FS.remove (fs : FS) (now : Nat) (p : String) : Option FS :=
  if p = "" then none
  else
    match lookupKey (pathKey p) fs.nodes with
    | none => none
    | some n =>
      if pathKey p = [] ∨ fs.parentWritable (pathKey p) = false then none
      else if n.isDir then
        if fs.children (pathKey p) = [] then
          some { fs with nodes := touchParent now (pathKey p) (eraseKey (pathKey p) fs.nodes) }
        else none
      else if strendswith p "/" then none
      else some { fs with nodes := touchParent now (pathKey p) (eraseKey (pathKey p) fs.nodes) }

/-- The call `mkdir(k, 0777)`; the modification time of the directory that holds the
new one changes. -/
def FS.mkdir (fs : FS) (now : Nat) (k : Key) : Option FS :=
  if k ≠ [] ∧ lookupKey k fs.nodes = none ∧ fs.parentWritable k = true then
    some { fs with nodes := setKey k (.dir 0 now true) (touchParent now k fs.nodes) }
  else none

/-- Modelled from the spec: `mkdirs` of file_util.c, which is not under src/, over the
components still to visit: "create any missing intermediate directories"; a component
that exists and is no directory, or a directory that cannot be created, makes it
fail, the directories made so far staying. The result is the file system afterwards
and whether the call succeeded. -/
def mkdirsFrom (now : Nat) : List String → Key → FS → FS × Bool
  | [], _, fs => (fs, true)
  | c :: cs, cur, fs =>
    match lookupKey (cur ++ [c]) fs.nodes with
    | some n => if n.isDir then mkdirsFrom now cs (cur ++ [c]) fs else (fs, false)
    | none =>
      match fs.mkdir now (cur ++ [c]) with
      | some fs1 => mkdirsFrom now cs (cur ++ [c]) fs1
      | none => (fs, false)

/-- Modelled from the spec: `mkdirs(path, 0777)` of file_util.c, which is not under
src/: the file system afterwards and whether it returned 0. -/
def mkdirs (fs : FS) (now : Nat) (p : String) : FS × Bool :=
  mkdirsFrom now (pathKey p) [] fs

/-- The text before the last slash of a string, if it has a slash. -/
def beforeLastSlash : List Char → Option (List Char)
  | [] => none
  | c :: cs =>
    match beforeLastSlash cs with
    | some d => some (c :: d)
    | none => if c = '/' then some [] else none

/-- Modelled from the spec: `getPath` of file_util.c, which is not under src/: the
directory part of a file path, the text before its last slash; `none` (NULL) for a
path without a slash. -/
def getPath (filePath : String) : Option String :=
  match beforeLastSlash filePath.data with
  | some d => some (String.mk d)
  | none => none

/-- The attempts of `mkstemps`: the six X are replaced by each candidate in turn
until a name is free; an error other than "exists" ends the attempts. The template
keeps the last name tried. Making the file changes the modification time of its
directory. -/
def mkstempsTry (fs : FS) (now : Nat) (stem suffix : String) (template : String) :
    List String → String × Option FS
  | [] => (template, none)
  | c :: cs =>
    match lookupKey (pathKey (stem ++ c ++ suffix)) fs.nodes with
    | some _ => mkstempsTry fs now stem suffix (stem ++ c ++ suffix) cs
    | none =>
      if pathKey (stem ++ c ++ suffix) ≠ [] ∧ fs.parentWritable (pathKey (stem ++ c ++ suffix)) = true
          ∧ strendswith (stem ++ c ++ suffix) "/" = false then
        (stem ++ c ++ suffix,
          some { fs with
            nodes := (setKey (pathKey (stem ++ c ++ suffix)) (.reg [] now true)
              (touchParent now (pathKey (stem ++ c ++ suffix)) fs.nodes)) })
      else (stem ++ c ++ suffix, none)

/-- The call `mkstemps(template, suffixlen)` of the C library: the template has to end
in six X followed by the suffix; the names tried come from `candidates`. The result is
the template afterwards and the file system when a file was created. -/
def mkstemps (fs : FS) (now : Nat) (candidates : List String) (template : String)
    (suffixlen : Nat) : String × Option FS :=
  if template.length < 6 + suffixlen then (template, none)
  else if (template.data.drop (template.length - 6 - suffixlen)).take 6 ≠ "XXXXXX".data then
    (template, none)
  else
    mkstempsTry fs now (String.mk (template.data.take (template.length - 6 - suffixlen)))
      (String.mk (template.data.drop (template.length - suffixlen))) template candidates

/-! ## The world a handler runs in -/

/-- What the handlers take from their surroundings besides the file system: the clock,
whether `tmpfile` succeeds, the names `mkstemps` draws, and what uninitialised local
buffers happen to hold. -/
structure World where
  fs : FS
  now : Nat
  tmpfileOk : Bool
  candidates : List String
  garbageStat : Stat
  garbageStr : String

/-- Helpers of the repository that are not under src/ and whose results the handlers
only pass on: they are parameters of the embedding. `resolveUri uri` is what the call
`resolveUri(uri, filePath)` leaves in `filePath`; `contentTypes` is the store that
`readMediaTypes` filled. -/
structure Env where
  resolveUri : String → String
  makeFilePath : String → String → String
  getExtension : String → Option String
  contentTypes : Properties
  milliTimeToRFC_1123_Date_Time : Nat → String
  milliTimeToShortHM_Date_Time : Nat → String

/-- A call into the file system. -/
inductive FsOp where
  | stat (p : String)
  | tmpfile
  | opendir (p : String)
  | fopenR (p : String)
  | fopenW (p : String)
  | remove (p : String)
  | mkdirs (p : String)
  | mkstemps (template : String)
deriving DecidableEq, Repr

/-- What is written to the connection: a status line, the header block, body bytes. -/
inductive Out where
  | status (code : Nat)
  | headers (hs : Properties)
  | body (bytes : Bytes)
deriving DecidableEq, Repr

/-- The outcome of a handler. `crashed` says that the handler did not return: it passed
a NULL stream on to the C library (`readdir(NULL)`, `fclose(NULL)`), which ends the
process; `out` is then what it had written to the connection before. -/
structure Result where
  out : List Out
  responseHeaders : Properties
  fs : FS
  ops : List FsOp
  crashed : Bool := false
deriving DecidableEq, Repr

/-- Modelled from the spec: the status codes of http_codes.h, which is not under src/. -/
def Http_OK : Nat := 200

/-- Modelled from the spec: the status codes of http_codes.h, which is not under src/. -/
def Http_Created : Nat := 201

/-- Modelled from the spec: the status codes of http_codes.h, which is not under src/. -/
def Http_NotFound : Nat := 404

/-- Modelled from the spec: the status codes of http_codes.h, which is not under src/. -/
def Http_MethodNotAllowed : Nat := 405

/-- Modelled from the spec: the status codes of http_codes.h, which is not under src/. -/
def Http_LengthRequired : Nat := 411

/-- Modelled from the spec: `sendStatusResponse` of http_util.c, which is not under src/:
the status line and the response headers; "no body bytes follow headers". -/
def sendStatusResponse (status : Nat) (responseHeaders : Properties) : List Out :=
  [.status status, .headers responseHeaders]

/-- Modelled from the spec: `copyFileStreamBytes` of file_util.c, which is not under src/:
"exactly Content-Length bytes" of the source stream, or all of it when it is shorter;
nothing for a count that is not positive. -/
def copyFileStreamBytes (src : Bytes) (nbytes : Int) : Bytes :=
  src.take nbytes.toNat

/-- Modelled from the spec: `fileStat` of file_util.c, which is not under src/: the
`fstat` of an open stream, here of the temporary file that holds a listing. -/
def fileStat (w : World) (content : Bytes) : Stat :=
  { st_mode := .reg, st_size := content.length, st_mtime := w.now }

/-! ## media_util.c -/

/-- The constant `DEFAULT_MEDIA_TYPE` of media_util.c. -/
def DEFAULT_MEDIA_TYPE : String := "application/octet-stream"

/-- The function `getMediaType` of media_util.c. -/
def getMediaType (env : Env) (filename : String) : String :=
  if filename.data.getLast? = some '/' then "text/directory"
  else
    match env.getExtension filename with
    | none => DEFAULT_MEDIA_TYPE
    | some ext =>
      match findProperty env.contentTypes 0 (strlower ext) with
      | some mediaType => mediaType
      | none => DEFAULT_MEDIA_TYPE

/-! ## http_methods.c: the directory listing -/

/-- One `fprintf` to the temporary file of a listing: the header for a URI, the row of
an entry, or the footer. -/
inductive Chunk where
  | htmlFirst (uri : String)
  | htmlEntry (entryLink dirEntName time : String) (size : Nat) (entryMode : String)
  | htmlLast
deriving DecidableEq, Repr

/-- The text a chunk stands for: the format strings `htmlFirst`, `htmlEntry` and
`htmlLast` of `listing_directories`, filled in. -/
def Chunk.render : Chunk → String
  | .htmlFirst uri =>
    "<html>\n" ++
    "<head><title>index of " ++ uri ++ "</title></head>\n" ++
    "<body>\n" ++
    "<h1>Index of " ++ uri ++ "</h1>\n" ++
    "<table>\n" ++
    "<tr>\n" ++
    "<th valign=\"top\"></th>\n" ++
    "<th>Name</th>\n" ++
    "<th>Last modified</th>\n" ++
    "<th>Size</th>\n" ++
    "<th>Description (file type)</th>\n" ++
    "</tr>\n" ++
    "<tr>\n" ++
    "<td colspan=\"5\"><hr></td>\n" ++
    "</tr>\n"
  | .htmlEntry entryLink dirEntName time size entryMode =>
    "<tr>\n" ++
    "<td></td>\n" ++
    "<td><a href=\"" ++ entryLink ++ "\">" ++ dirEntName ++ "</a></td>\n" ++
    "<td align=\"right\">" ++ time ++ "</td>\n" ++
    "<td align=\"right\">" ++ fmtLu size ++ "</td>\n" ++
    "<td align=\"right\">" ++ entryMode ++ "</td>\n" ++
    "<td></td>\n" ++
    "</tr>\n"
  | .htmlLast =>
    "<tr><td colspan=\"5\"><hr></td></tr>\n" ++
    "</body>\n" ++
    "</html>\n"

/-- The bytes of the temporary file after the given `fprintf`s. -/
def renderChunks (chunks : List Chunk) : Bytes :=
  (chunks.map (fun c => c.render.data)).flatten

/-- The locals of `listing_directories` that live across iterations of its loop, with
what was printed and the `stat` calls made so far. -/
structure ListingState where
  sb : Stat
  entryMode : String
  chunks : List Chunk
  ops : List FsOp

/-- One iteration of the `readdir` loop of `listing_directories`, for the entry
`d_name`. A failing `stat` leaves `sb` as it was; `entryMode` is only written for a
directory or a regular file. -/
def listing_entry (env : Env) (fs : FS) (pathDir uri : String) (st : ListingState)
    (d_name : String) : ListingState :=
  if d_name = "." then st
  else if d_name = ".." ∧ uri = "/" then st
  else
    let dirEntName := if d_name = ".." then "Parent Directory" else d_name
    let filepath := env.makeFilePath pathDir d_name
    let sb := match fs.stat filepath with
      | some s => s
      | none => st.sb
    let time := env.milliTimeToShortHM_Date_Time sb.st_mtime
    let entryLink :=
      if d_name = ".." then "../"
      else if sb.st_mode = .dir then dirEntName ++ "/" else dirEntName
    let entryMode :=
      if sb.st_mode = .dir then "directory"
      else if sb.st_mode = .reg then "file" else st.entryMode
    { sb := sb
      entryMode := entryMode
      chunks := st.chunks ++ [.htmlEntry entryLink dirEntName time sb.st_size entryMode, .htmlLast]
      ops := st.ops ++ [.stat filepath] }

/-- How a call of `listing_directories` ends: it returns NULL, it does not return, or
it returns the temporary file with what the `fprintf`s wrote to it. -/
inductive Listing where
  | null
  | crash
  | file (chunks : List Chunk)
deriving DecidableEq, Repr

/-- The function `listing_directories` and the file-system calls it makes. `tmpfile`
and `opendir` are both called first. When `tmpfile` fails NULL is returned. When
`opendir` fails the function prints a message to stderr and goes on (lines 46 to 48):
the header is printed and `readdir(NULL)` ends the process. -/
def listing_directories (env : Env) (w : World) (pathDir uri : String) :
    Listing × List FsOp :=
  if w.tmpfileOk = false then (.null, [.tmpfile, .opendir pathDir])
  else
    match w.fs.opendir pathDir with
    | none => (.crash, [.tmpfile, .opendir pathDir])
    | some entries =>
      let st := entries.foldl (listing_entry env w.fs pathDir uri)
        { sb := w.garbageStat, entryMode := w.garbageStr, chunks := [.htmlFirst uri], ops := [] }
      (.file st.chunks, [.tmpfile, .opendir pathDir] ++ st.ops)

/-! ## http_methods.c: GET and HEAD -/

/-- Lines 191 to 224 of `do_get_or_head`: the three headers, the status line, the header
block and, for GET, `contentLen` bytes of the content stream (the listing when there
is one, else the file opened for reading). The result of `fopen` is not tested: when
it is NULL, `copyFileStreamBytes` and `fclose` get the NULL stream. -/
def do_get_or_head_send (env : Env) (w : World) (filePath : String)
    (responseHeaders : Properties) (sendContent : Bool) (sb : Stat)
    (contentStream : Option Bytes) (ops : List FsOp) : Result :=
  let contentLen := sb.st_size
  let h1 := putProperty responseHeaders "Content-Length" (fmtLu contentLen)
  let h2 := putProperty h1 "Last-Modified" (env.milliTimeToRFC_1123_Date_Time sb.st_mtime)
  let buf := getMediaType env filePath
  let h3 := putProperty h2 "Content-type" (if buf = "text/directory" then "text/html" else buf)
  if sendContent then
    match contentStream with
    | some content =>
      { out := [.status Http_OK, .headers h3, .body (copyFileStreamBytes content contentLen)]
        responseHeaders := h3, fs := w.fs, ops := ops }
    | none =>
      match w.fs.fopenR filePath with
      | some content =>
        { out := [.status Http_OK, .headers h3, .body (copyFileStreamBytes content contentLen)]
          responseHeaders := h3, fs := w.fs, ops := ops ++ [.fopenR filePath] }
      | none =>
        { out := [.status Http_OK, .headers h3]
          responseHeaders := h3, fs := w.fs, ops := ops ++ [.fopenR filePath]
          crashed := true }
  else
    { out := [.status Http_OK, .headers h3], responseHeaders := h3, fs := w.fs, ops := ops }

/-- The function `do_get_or_head`. -/
def do_get_or_head (env : Env) (w : World) (uri : String)
    (_requestHeaders responseHeaders : Properties) (sendContent : Bool) : Result :=
  let filePath := env.resolveUri uri
  match w.fs.stat filePath with
  | none =>
    { out := sendStatusResponse Http_NotFound responseHeaders
      responseHeaders := responseHeaders, fs := w.fs, ops := [.stat filePath] }
  | some sb =>
    if sb.st_mode = .dir ∧ strendswith filePath "/" = true then
      match listing_directories env w filePath uri with
      | (.null, lops) =>
        { out := sendStatusResponse Http_MethodNotAllowed responseHeaders
          responseHeaders := responseHeaders, fs := w.fs, ops := .stat filePath :: lops }
      | (.crash, lops) =>
        { out := [], responseHeaders := responseHeaders, fs := w.fs
          ops := .stat filePath :: lops, crashed := true }
      | (.file chunks, lops) =>
        do_get_or_head_send env w filePath responseHeaders sendContent
          (fileStat w (renderChunks chunks)) (some (renderChunks chunks)) (.stat filePath :: lops)
    else if sb.st_mode ≠ .reg then
      { out := sendStatusResponse Http_NotFound responseHeaders
        responseHeaders := responseHeaders, fs := w.fs, ops := [.stat filePath] }
    else
      do_get_or_head_send env w filePath responseHeaders sendContent sb none [.stat filePath]

/-- The function `do_get`. -/
def do_get (env : Env) (w : World) (uri : String)
    (requestHeaders responseHeaders : Properties) : Result :=
  do_get_or_head env w uri requestHeaders responseHeaders true

/-- The function `do_head`. -/
def do_head (env : Env) (w : World) (uri : String)
    (requestHeaders responseHeaders : Properties) : Result :=
  do_get_or_head env w uri requestHeaders responseHeaders false

/-! ## http_methods.c: DELETE -/

/-- The loop of `do_delete` over the entries of the directory: `size` is 1 as soon as
an entry other than "." and ".." is met, else 0. -/
def do_delete_size : List String → Nat
  | [] => 0
  | d_name :: rest => if d_name = "." ∨ d_name = ".." then do_delete_size rest else 1

/-- Lines 295 to 302 of `do_delete`: the call of `remove` and the answer to it. -/
def do_delete_remove (w : World) (filePath : String) (responseHeaders : Properties)
    (ops : List FsOp) : Result :=
  match w.fs.remove w.now filePath with
  | some fs1 =>
    { out := sendStatusResponse Http_OK responseHeaders
      responseHeaders := responseHeaders, fs := fs1, ops := ops ++ [.remove filePath] }
  | none =>
    { out := sendStatusResponse Http_NotFound responseHeaders
      responseHeaders := responseHeaders, fs := w.fs, ops := ops ++ [.remove filePath] }

/-- The function `do_delete`. The result of `opendir` is not tested: when it is NULL,
`readdir(NULL)` ends the process. -/
def do_delete (env : Env) (w : World) (uri : String)
    (_requestHeaders responseHeaders : Properties) : Result :=
  let filePath := env.resolveUri uri
  match w.fs.stat filePath with
  | none =>
    { out := sendStatusResponse Http_NotFound responseHeaders
      responseHeaders := responseHeaders, fs := w.fs, ops := [.stat filePath] }
  | some sb =>
    if sb.st_mode = .dir ∧ strendswith filePath "/" = true then
      match w.fs.opendir filePath with
      | none =>
        { out := [], responseHeaders := responseHeaders, fs := w.fs
          ops := [.stat filePath, .opendir filePath], crashed := true }
      | some entries =>
        if do_delete_size entries ≠ 0 then
          { out := sendStatusResponse Http_MethodNotAllowed responseHeaders
            responseHeaders := responseHeaders, fs := w.fs
            ops := [.stat filePath, .opendir filePath] }
        else do_delete_remove w filePath responseHeaders [.stat filePath, .opendir filePath]
    else if sb.st_mode ≠ .reg then
      { out := sendStatusResponse Http_NotFound responseHeaders
        responseHeaders := responseHeaders, fs := w.fs, ops := [.stat filePath] }
    else do_delete_remove w filePath responseHeaders [.stat filePath]

/-! ## http_methods.c: PUT -/

/-- The function `do_put`; `stream` is what the connection still holds to read, the
request body. -/
def do_put (env : Env) (w : World) (uri : String)
    (requestHeaders responseHeaders : Properties) (stream : Bytes) : Result :=
  let filePath := env.resolveUri uri
  match findProperty requestHeaders 0 "Content-Length" with
  | none =>
    { out := sendStatusResponse Http_LengthRequired responseHeaders
      responseHeaders := responseHeaders, fs := w.fs, ops := [] }
  | some val =>
    let contentLen := atoi val
    match w.fs.stat filePath with
    | some sb =>
      if sb.st_mode = .dir ∧ strendswith filePath "/" = true then
        { out := sendStatusResponse Http_MethodNotAllowed responseHeaders
          responseHeaders := responseHeaders, fs := w.fs, ops := [.stat filePath] }
      else if sb.st_mode ≠ .reg then
        { out := sendStatusResponse Http_MethodNotAllowed responseHeaders
          responseHeaders := responseHeaders, fs := w.fs, ops := [.stat filePath] }
      else
        match w.fs.fopenW w.now filePath with
        | none =>
          { out := sendStatusResponse Http_MethodNotAllowed responseHeaders
            responseHeaders := responseHeaders, fs := w.fs
            ops := [.stat filePath, .fopenW filePath] }
        | some fs1 =>
          { out := sendStatusResponse Http_OK responseHeaders
            responseHeaders := responseHeaders
            fs := fs1.putBytes (pathKey filePath) (copyFileStreamBytes stream contentLen)
            ops := [.stat filePath, .fopenW filePath] }
    | none =>
      match getPath filePath with
      | none =>
        { out := sendStatusResponse Http_MethodNotAllowed responseHeaders
          responseHeaders := responseHeaders, fs := w.fs, ops := [.stat filePath] }
      | some pathOfFile =>
        if (mkdirs w.fs w.now pathOfFile).2 = false then
          { out := sendStatusResponse Http_MethodNotAllowed responseHeaders
            responseHeaders := responseHeaders, fs := (mkdirs w.fs w.now pathOfFile).1
            ops := [.stat filePath, .mkdirs pathOfFile] }
        else
          match (mkdirs w.fs w.now pathOfFile).1.fopenW w.now filePath with
          | none =>
            { out := sendStatusResponse Http_MethodNotAllowed responseHeaders
              responseHeaders := responseHeaders, fs := (mkdirs w.fs w.now pathOfFile).1
              ops := [.stat filePath, .mkdirs pathOfFile, .fopenW filePath] }
          | some fs2 =>
            { out := sendStatusResponse Http_Created
                (putProperty responseHeaders "Location" filePath)
              responseHeaders := putProperty responseHeaders "Location" filePath
              fs := fs2.putBytes (pathKey filePath) (copyFileStreamBytes stream contentLen)
              ops := [.stat filePath, .mkdirs pathOfFile, .fopenW filePath] }

/-! ## http_methods.c: POST -/

/-- The extension `do_post` chooses from the Content-type of the request (lines 422 to
439): `multipartTypeString` is its first 19 characters. -/
def do_post_extension (contentTypeString : String) : String :=
  let multipartTypeString := String.mk (contentTypeString.data.take 19)
  if contentTypeString = "application/x-www-form-urlencoded" then ".urlencoded"
  else if multipartTypeString = "multipart/form-data" then ".mime"
  else if contentTypeString = "text/plain" then ".txt"
  else ".bin"

/-- The function `do_post`; `stream` is what the connection still holds to read, the
request body. A request without Content-type leaves `contentTypeString` as it
happened to be. -/
def do_post (env : Env) (w : World) (uri : String)
    (requestHeaders responseHeaders : Properties) (stream : Bytes) : Result :=
  let collectionDirPath := env.resolveUri uri
  match findProperty requestHeaders 0 "Content-Length" with
  | none =>
    { out := sendStatusResponse Http_LengthRequired responseHeaders
      responseHeaders := responseHeaders, fs := w.fs, ops := [] }
  | some val =>
    let contentLen := atoi val
    let contentTypeString :=
      match findProperty requestHeaders 0 "Content-type" with
      | some v => v
      | none => w.garbageStr
    let extensionString := do_post_extension contentTypeString
    let template := collectionDirPath ++ "/" ++ "XXXXXXXXXX" ++ extensionString
    match w.fs.stat collectionDirPath with
    | some sb =>
      if sb.st_mode ≠ .dir then
        { out := sendStatusResponse Http_MethodNotAllowed responseHeaders
          responseHeaders := responseHeaders, fs := w.fs, ops := [.stat collectionDirPath] }
      else if strendswith collectionDirPath "/" = true then
        { out := sendStatusResponse Http_MethodNotAllowed responseHeaders
          responseHeaders := responseHeaders, fs := w.fs, ops := [.stat collectionDirPath] }
      else
        let made := mkstemps w.fs w.now w.candidates template extensionString.length
        let filePath := made.1
        let fs1 := made.2.getD w.fs
        match fs1.fopenW w.now filePath with
        | none =>
          { out := sendStatusResponse Http_MethodNotAllowed responseHeaders
            responseHeaders := responseHeaders, fs := fs1
            ops := [.stat collectionDirPath, .mkstemps template, .fopenW filePath] }
        | some fs2 =>
          { out := sendStatusResponse Http_Created
              (putProperty responseHeaders "Location" filePath)
            responseHeaders := putProperty responseHeaders "Location" filePath
            fs := fs2.putBytes (pathKey filePath) (copyFileStreamBytes stream contentLen)
            ops := [.stat collectionDirPath, .mkstemps template, .fopenW filePath] }
    | none =>
      if strendswith collectionDirPath "/" = true then
        { out := sendStatusResponse Http_MethodNotAllowed responseHeaders
          responseHeaders := responseHeaders, fs := w.fs, ops := [.stat collectionDirPath] }
      else
        let made := mkstemps w.fs w.now w.candidates template extensionString.length
        let filePath := made.1
        let fs1 := made.2.getD w.fs
        match getPath filePath with
        | none =>
          { out := sendStatusResponse Http_MethodNotAllowed responseHeaders
            responseHeaders := responseHeaders, fs := fs1
            ops := [.stat collectionDirPath, .mkstemps template] }
        | some pathOfFile =>
          if (mkdirs fs1 w.now pathOfFile).2 = false then
            { out := sendStatusResponse Http_MethodNotAllowed responseHeaders
              responseHeaders := responseHeaders, fs := (mkdirs fs1 w.now pathOfFile).1
              ops := [.stat collectionDirPath, .mkstemps template, .mkdirs pathOfFile] }
          else
            match (mkdirs fs1 w.now pathOfFile).1.fopenW w.now filePath with
            | none =>
              { out := sendStatusResponse Http_MethodNotAllowed responseHeaders
                responseHeaders := responseHeaders, fs := (mkdirs fs1 w.now pathOfFile).1
                ops := [.stat collectionDirPath, .mkstemps template, .mkdirs pathOfFile,
                        .fopenW filePath] }
            | some fs2 =>
              { out := sendStatusResponse Http_Created
                  (putProperty responseHeaders "Location" filePath)
                responseHeaders := putProperty responseHeaders "Location" filePath
                fs := fs2.putBytes (pathKey filePath) (copyFileStreamBytes stream contentLen)
                ops := [.stat collectionDirPath, .mkstemps template, .mkdirs pathOfFile,
                        .fopenW filePath] }

/-! ## The resolver of the specification -/

/-- Modelled from the spec: the lexical normalisation of a URI against the content root
(resolveUri, in http_util.c, is not under src/): "removing redundant separators and
resolving `.`/`..` segments purely lexically"; `none` when a ".." steps above the
root, where "resolution fails". -/
def normalizeUri : List String → List String → Option (List String)
  | [], acc => some acc
  | c :: cs, acc =>
    if c = "" ∨ c = "." then normalizeUri cs acc
    else if c = ".." then
      match acc with
      | [] => none
      | _ :: _ => normalizeUri cs acc.dropLast
    else normalizeUri cs (acc ++ [c])

/-- Modelled from the spec: `resolveUri` of http_util.c, which is not under src/, as
what the call `resolveUri(uri, filePath)` leaves in `filePath`: "content-root ⧺
normalized(uri)", where "a trailing "/" on the URI is preserved on the resolved path";
when the normalised result escapes the root, "resolution fails closed (reject, do not
resolve to an out-of-root path)": the handlers do not look at a result of the call, so
the path left is the empty one, which names nothing. -/
def resolveUri (contentBase : String) (uri : String) : String :=
  match normalizeUri (splitSlash uri.data []) [] with
  | none => ""
  | some segments =>
    contentBase ++ String.join (segments.map (fun s => "/" ++ s)) ++
      (if strendswith uri "/" = true then "/" else "")

/-- Whether something written to the connection is body bytes. -/
def Out.isBody : Out → Bool
  | .body _ => true
  | _ => false

/-- Whether a key names a directory. -/
def FS.isDirAt (fs : FS) (k : Key) : Bool :=
  match lookupKey k fs.nodes with
  | some n => n.isDir
  | none => false

/-- The world after a handler ran: the file system is the one it left. -/
def World.after (w : World) (r : Result) : World :=
  { w with fs := r.fs }

/-! ## media_util.c: reading the media-type table -/

/-- The function `trim_newline` of string_util.c, on the characters of the string: a
last '\n' is cut, and a '\r' right before it. -/
def trim_newline (src : List Char) : List Char :=
  if src.getLast? = some '\n' then
    if src.dropLast.getLast? = some '\r' then src.dropLast.dropLast else src.dropLast
  else src

/-- The function `trim_tabs` of string_util.c, on the characters of the string: the
string from its first character that is not a tab. The source copies it to a static
buffer of 99 characters; the definition gives its result for strings that fit, of
fewer than 99 characters after the tabs. -/
def trim_tabs (src : List Char) : List Char :=
  src.dropWhile (fun c => c == '\t')

/-- The call `fgets(buf, n, stream)` with `room = n - 1`: at most `room` characters,
ending after the first newline; the result is what `buf` holds and what is left of the
stream. -/
def fgets : Nat → List Char → List Char × List Char
  | 0, s => ([], s)
  | _ + 1, [] => ([], [])
  | room + 1, c :: cs =>
    if c = '\n' then ([c], cs) else (c :: (fgets room cs).1, (fgets room cs).2)

/-- The call `strchr(buf, '\t')` followed by `*valp++ = '\0'`: the text before the
first tab and the text after it; `none` (NULL) without a tab. -/
def splitAtTab : List Char → Option (List Char × List Char)
  | [] => none
  | c :: cs =>
    if c = '\t' then some ([], cs)
    else
      match splitAtTab cs with
      | some r => some (c :: r.1, r.2)
      | none => none

/-- The function `strtok(s, " ")` of the C library: the next token, a longest run of
characters other than the space, and the text after the space that ends it; `none`
(NULL) when only spaces are left. -/
def strtok (s : List Char) : Option (List Char × List Char) :=
  match s.dropWhile (fun c => c == ' ') with
  | [] => none
  | c :: cs =>
    some ((c :: cs).takeWhile (fun x => x != ' '),
      ((c :: cs).dropWhile (fun x => x != ' ')).drop 1)

/-- The inner loop of `readMediaTypes` over the tokens of `valp`: each token, after
`trim_newline` and `trim_tabs`, is put into the store with the type, and `size`, an
`int`, is incremented. The state is `size` and the store. -/
def readMediaTypes_tokens (type : String) : Nat → List Char → Int × Properties → Int × Properties
  | 0, _, st => st
  | fuel + 1, s, st =>
    match strtok s with
    | none => st
    | some (ptr, rest) =>
      readMediaTypes_tokens type fuel rest
        (toInt32 (st.1 + 1), putProperty st.2 (String.mk (trim_tabs (trim_newline ptr))) type)

/-- The body of the outer loop of `readMediaTypes` for what `fgets` left in `buf`. -/
def readMediaTypes_line (buf : List Char) (st : Int × Properties) : Int × Properties :=
  if buf.head? = some '#' then st
  else
    match splitAtTab buf with
    | none => st
    | some (type, valp) =>
      readMediaTypes_tokens (String.mk type) (valp.length + 1) (trim_newline valp) st

/-- The outer loop of `readMediaTypes`: `fgets` until the end of the file. -/
def readMediaTypes_lines (MAXBUF : Nat) : Nat → List Char → Int × Properties → Int × Properties
  | 0, _, st => st
  | fuel + 1, stream, st =>
    match stream with
    | [] => st
    | _ :: _ =>
      readMediaTypes_lines MAXBUF fuel (fgets (MAXBUF - 1) stream).2
        (readMediaTypes_line (fgets (MAXBUF - 1) stream).1 st)

/-- The function `readMediaTypes` of media_util.c: `file` is the text of the file, or
`none` when it cannot be opened; the result is the value returned and the store
`contentTypes` afterwards. `MAXBUF`, of a header that is not under src/, is a
parameter; the loops run on fuel, which the length of the text bounds when `MAXBUF`
is at least 2. -/
def readMediaTypes (MAXBUF : Nat) (file : Option Bytes) : Int × Properties :=
  match file with
  | none => (-1, [])
  | some text => readMediaTypes_lines MAXBUF (text.length + 1) text (0, [])

/-! ## The media-type table as the specification words it -/

/-- The lines of a text, each with the newline that ends it. -/
def textLines : List Char → List (List Char)
  | [] => []
  | c :: cs =>
    if c = '\n' then [c] :: textLines cs
    else
      match textLines cs with
      | [] => [[c]]
      | l :: ls => (c :: l) :: ls

/-- A line without its trailing newline, "\n" or "\r\n". -/
def dropLineEnd (l : List Char) : List Char :=
  match l.reverse with
  | '\n' :: '\r' :: r => r.reverse
  | '\n' :: r => r.reverse
  | _ => l

/-- The entries of one line: none for a line that begins with '#' or has no tab; else
one (extension, type) for each space-separated extension after the first tab, the type
being the text before that tab and the extension losing its leading tabs. -/
def specLineEntries (line : List Char) : Properties :=
  if line.head? = some '#' ∨ '\t' ∉ line then []
  else
    (((dropLineEnd ((line.dropWhile (fun c => c != '\t')).drop 1)).splitOn ' ').filter
        (fun e => decide (e ≠ []))).map
      (fun e => (String.mk (e.dropWhile (fun c => c == '\t')),
        String.mk (line.takeWhile (fun c => c != '\t'))))

/-- The store the specification describes for a media-type table: the entries of its
lines, in file order. -/
def mediaTypesSpec (text : Bytes) : Properties :=
  (textLines text).flatMap specLineEntries

/-! ## A small world for worked examples -/

/-- An instance of the helpers for the examples: the resolver of the specification for
the content base "content" (the default `contentBaseProp` of http_server.c); every
file has the default media type. -/
def sampleEnv : Env where
  resolveUri := resolveUri "content"
  makeFilePath := fun path name => path ++ "/" ++ name
  getExtension := fun _ => none
  contentTypes := []
  milliTimeToRFC_1123_Date_Time := fmtLu
  milliTimeToShortHM_Date_Time := fmtLu

/-- A file system for the examples: the content root with a file, a directory `docs`
holding one file, an empty directory `empty`, and `/etc/passwd` outside the root. -/
def sampleFS : FS where
  nodes :=
    [ ([], .dir 0 1 true),
      (["content"], .dir 0 2 true),
      (["content", "a.txt"], .reg "hi".data 3 true),
      (["content", "docs"], .dir 0 4 true),
      (["content", "docs", "x"], .reg "xyz".data 5 true),
      (["content", "empty"], .dir 0 6 true),
      (["etc"], .dir 0 7 true),
      (["etc", "passwd"], .reg "root".data 8 true) ]

/-- The world of the examples. -/
def sampleWorld : World where
  fs := sampleFS
  now := 100
  tmpfileOk := true
  candidates := ["aaaaaa", "bbbbbb"]
  garbageStat := { st_mode := .other, st_size := 0, st_mtime := 0 }
  garbageStr := ""

/-- A world whose content root cannot be written to: it holds one file. -/
def sampleReadOnlyWorld : World where
  fs :=
    { nodes :=
        [ ([], .dir 0 1 true),
          (["content"], .dir 0 2 false),
          (["content", "a.txt"], .reg "hi".data 3 true) ] }
  now := 100
  tmpfileOk := true
  candidates := ["aaaaaa", "bbbbbb"]
  garbageStat := { st_mode := .other, st_size := 0, st_mtime := 0 }
  garbageStr := ""

/-- The world of the examples when `tmpfile` fails. -/
def sampleNoTmpWorld : World where
  fs := sampleFS
  now := 100
  tmpfileOk := false
  candidates := ["aaaaaa", "bbbbbb"]
  garbageStat := { st_mode := .other, st_size := 0, st_mtime := 0 }
  garbageStr := ""

/-- A world with a file and a directory that the server process cannot read, and with
a directory whose enumeration returns ".." last. -/
def sampleLockedWorld : World where
  fs :=
    { nodes :=
        [ ([], .dir 0 1 true),
          (["content"], .dir 0 2 true),
          (["content", "secret.txt"], .reg "key".data 3 true),
          (["content", "private"], .dir 0 4 true),
          (["content", "private", "f"], .reg "f".data 5 true),
          (["content", "open"], .dir 0 6 true),
          (["content", "open", "x"], .reg "xyz".data 7 true) ]
      noRead := [["content", "secret.txt"], ["content", "private"]]
      order := [(["content", "open"], [".", "x", ".."])] }
  now := 100
  tmpfileOk := true
  candidates := ["aaaaaa", "bbbbbb"]
  garbageStat := { st_mode := .other, st_size := 0, st_mtime := 0 }
  garbageStr := ""

/-! ## Facts about the file system model -/

/-- Nothing is stored under a key that was erased. -/
theorem lookupKey_eraseKey_self (k : Key) (l : List (Key × Node)) :
    lookupKey k (eraseKey k l) = none := by
  induction l with
  | nil => rfl
  | cons e rest ih =>
    obtain ⟨ek, en⟩ := e
    by_cases h : ek = k
    · simpa [eraseKey, List.filter_cons, h] using ih
    · simpa [eraseKey, List.filter_cons, h, lookupKey] using ih

/-- Erasing a key leaves the other keys as they were. -/
theorem lookupKey_eraseKey_ne (k k2 : Key) (l : List (Key × Node)) (hne : k2 ≠ k) :
    lookupKey k2 (eraseKey k l) = lookupKey k2 l := by
  induction l with
  | nil => rfl
  | cons e rest ih =>
    obtain ⟨ek, en⟩ := e
    by_cases h : ek = k
    · have h2 : ¬ k = k2 := fun h3 => hne h3.symm
      subst h
      simpa [eraseKey, List.filter_cons, lookupKey, h2] using ih
    · by_cases h2 : ek = k2
      · subst h2
        simp [eraseKey, List.filter_cons, h, lookupKey]
      · simpa [eraseKey, List.filter_cons, h, lookupKey, h2] using ih

/-- A key that was set holds the node it was set to. -/
theorem lookupKey_setKey_self (k : Key) (n : Node) (l : List (Key × Node)) :
    lookupKey k (setKey k n l) = some n := by
  induction l with
  | nil => simp [setKey, lookupKey]
  | cons e rest ih =>
    obtain ⟨ek, en⟩ := e
    by_cases h : ek = k
    · simp [setKey, h, lookupKey]
    · simpa [setKey, h, lookupKey] using ih

/-- Setting a key leaves the other keys as they were. -/
theorem lookupKey_setKey_ne (k k2 : Key) (n : Node) (l : List (Key × Node)) (hne : k2 ≠ k) :
    lookupKey k2 (setKey k n l) = lookupKey k2 l := by
  induction l with
  | nil => simp [setKey, lookupKey, Ne.symm hne]
  | cons e rest ih =>
    obtain ⟨ek, en⟩ := e
    by_cases h : ek = k
    · have h2 : ¬ k = k2 := fun h3 => hne h3.symm
      subst h
      simp [setKey, lookupKey, h2, lookupKey_eraseKey_ne ek k2 rest hne]
    · by_cases h2 : ek = k2
      · subst h2
        simp [setKey, h, lookupKey]
      · simpa [setKey, h, lookupKey, h2] using ih

/-- What `touchParent` does: nothing, or the directory above `k` gets a new time. -/
theorem touchParent_cases (now : Nat) (k : Key) (l : List (Key × Node)) :
    touchParent now k l = l ∨
      ∃ sz mt w, lookupKey k.dropLast l = some (.dir sz mt w) ∧
        touchParent now k l = setKey k.dropLast (.dir sz now w) l := by
  unfold touchParent
  cases h : lookupKey k.dropLast l with
  | none => exact Or.inl rfl
  | some n =>
    cases n with
    | reg b mt w => exact Or.inl rfl
    | dir sz mt w => exact Or.inr ⟨sz, mt, w, rfl, rfl⟩
    | other sz mt => exact Or.inl rfl

/-- Every key holds after `touchParent` what it held before, but for a directory whose
time changed. -/
theorem lookupKey_touchParent (now : Nat) (k k2 : Key) (l : List (Key × Node)) :
    lookupKey k2 (touchParent now k l) = lookupKey k2 l ∨
      (k2 = k.dropLast ∧ ∃ sz mt w, lookupKey k2 l = some (.dir sz mt w) ∧
        lookupKey k2 (touchParent now k l) = some (.dir sz now w)) := by
  rcases touchParent_cases now k l with h | ⟨sz, mt, w, h1, h2⟩
  · exact Or.inl (by rw [h])
  · by_cases hk : k2 = k.dropLast
    · subst hk
      exact Or.inr ⟨rfl, sz, mt, w, h1, by rw [h2, lookupKey_setKey_self]⟩
    · exact Or.inl (by rw [h2, lookupKey_setKey_ne _ _ _ _ hk])

/-- A key other than the directory above `k` is as it was after `touchParent`. -/
theorem lookupKey_touchParent_ne (now : Nat) (k k2 : Key) (l : List (Key × Node))
    (h : k2 ≠ k.dropLast) : lookupKey k2 (touchParent now k l) = lookupKey k2 l := by
  rcases lookupKey_touchParent now k k2 l with h1 | ⟨h1, _⟩
  · exact h1
  · exact absurd h1 h

/-- A key that is not empty differs from the key above it. -/
theorem ne_dropLast (k : Key) (h : k ≠ []) : k ≠ k.dropLast := by
  intro heq
  have := congrArg List.length heq
  rw [List.length_dropLast] at this
  have hpos : 0 < k.length := List.length_pos.mpr h
  omega

/-- The nodes a step of the file system leaves alone: the key holds what it held, or it
names a directory that was there before or is new. -/
theorem leftAlone_touchParent (now : Nat) (k k2 : Key) (fs fs1 : FS)
    (h : fs1.nodes = touchParent now k fs.nodes) :
    lookupKey k2 fs1.nodes = lookupKey k2 fs.nodes ∨
      (fs1.isDirAt k2 = true ∧ (lookupKey k2 fs.nodes = none ∨ fs.isDirAt k2 = true)) := by
  rcases lookupKey_touchParent now k k2 fs.nodes with h1 | ⟨_, sz, mt, w, h1, h2⟩
  · exact Or.inl (by rw [h, h1])
  · refine Or.inr ⟨?_, Or.inr ?_⟩
    · simp [FS.isDirAt, h, h2, Node.isDir]
    · simp [FS.isDirAt, h1, Node.isDir]

/-- Being left alone goes through two steps. -/
theorem leftAlone_trans (a b c : FS) (k : Key)
    (h1 : lookupKey k b.nodes = lookupKey k a.nodes ∨
      (b.isDirAt k = true ∧ (lookupKey k a.nodes = none ∨ a.isDirAt k = true)))
    (h2 : lookupKey k c.nodes = lookupKey k b.nodes ∨
      (c.isDirAt k = true ∧ (lookupKey k b.nodes = none ∨ b.isDirAt k = true))) :
    lookupKey k c.nodes = lookupKey k a.nodes ∨
      (c.isDirAt k = true ∧ (lookupKey k a.nodes = none ∨ a.isDirAt k = true)) := by
  rcases h2 with h2 | ⟨h2, h3⟩
  · rcases h1 with h1 | ⟨h1, h4⟩
    · exact Or.inl (by rw [h2, h1])
    · refine Or.inr ⟨?_, h4⟩
      unfold FS.isDirAt at h1 ⊢
      rw [h2]
      exact h1
  · rcases h1 with h1 | ⟨h1, h4⟩
    · refine Or.inr ⟨h2, ?_⟩
      unfold FS.isDirAt at h3 ⊢
      rw [h1] at h3
      exact h3
    · exact Or.inr ⟨h2, h4⟩

/-- A name is returned by an enumeration exactly when it is one of the entries. -/
theorem mem_enumerate (first : List String) :
    ∀ (base : List String) (d : String), d ∈ enumerate first base ↔ d ∈ base := by
  induction first with
  | nil => intro base d; rfl
  | cons x rest ih =>
    intro base d
    unfold enumerate
    by_cases hx : x ∈ base
    · rw [if_pos hx, List.mem_cons, ih]
      by_cases hd : d = x
      · subst hd
        simp [hx]
      · simp [hd, List.mem_erase_of_ne hd]
    · rw [if_neg hx, ih]

/-- When `opendir` succeeds the path names a directory that can be read, and the names
returned are ".", ".." and the names in the directory. -/
theorem opendir_spec (fs : FS) (p : String) (entries : List String)
    (h : fs.opendir p = some entries) :
    fs.isDirAt (pathKey p) = true ∧ pathKey p ∉ fs.noRead ∧
      ∀ d, d ∈ entries ↔ d = "." ∨ d = ".." ∨ d ∈ fs.children (pathKey p) := by
  unfold FS.opendir at h
  split at h
  · simp at h
  · split at h
    · rename_i sz mt w hl
      split at h
      · simp at h
      · rename_i hr
        simp only [Option.some.injEq] at h
        subst h
        refine ⟨by simp [FS.isDirAt, hl, Node.isDir], hr, ?_⟩
        intro d
        rw [mem_enumerate]
        simp
    · simp at h

/-- A directory that `stat` reports and that can be read can be opened. -/
theorem opendir_of_stat (fs : FS) (p : String) (sb : Stat) (h : fs.stat p = some sb)
    (hdir : sb.st_mode = .dir) (hread : pathKey p ∉ fs.noRead) :
    ∃ entries, fs.opendir p = some entries := by
  unfold FS.stat at h
  split at h
  · simp at h
  · rename_i hp
    split at h
    · simp at h
    · rename_i n hn
      split at h
      · simp at h
      · simp only [Option.some.injEq] at h
        subst h
        cases n with
        | reg b mt w => simp [Node.toStat] at hdir
        | other sz mt => simp [Node.toStat] at hdir
        | dir sz mt w =>
          exact ⟨enumerate (fs.firstNames (pathKey p)) ("." :: ".." :: fs.children (pathKey p)),
            by simp [FS.opendir, hp, hn, hread]⟩

/-- What a successful `stat` says about the path and the node it names. -/
theorem stat_some_spec (fs : FS) (p : String) (sb : Stat) (h : fs.stat p = some sb) :
    p ≠ "" ∧ ∃ n, lookupKey (pathKey p) fs.nodes = some n ∧ sb = n.toStat ∧
      (strendswith p "/" = true → n.isDir = true) := by
  unfold FS.stat at h
  split at h
  · simp at h
  · rename_i hp
    refine ⟨hp, ?_⟩
    split at h
    · simp at h
    · rename_i n hn
      split at h
      · simp at h
      · rename_i hc
        refine ⟨n, hn, ?_, ?_⟩
        · simpa using h.symm
        · intro hs
          simpa [hs] using hc

/-- A path that `stat` reports as a regular file has no trailing slash and names a
regular file of the size reported. -/
theorem stat_reg (fs : FS) (p : String) (sb : Stat) (h : fs.stat p = some sb)
    (hreg : sb.st_mode = .reg) :
    p ≠ "" ∧ strendswith p "/" = false ∧
      ∃ b mt wr, lookupKey (pathKey p) fs.nodes = some (.reg b mt wr) ∧ sb.st_size = b.length := by
  obtain ⟨hp, n, hn, hsb, hsl⟩ := stat_some_spec fs p sb h
  subst hsb
  cases n with
  | reg bytes mtime wr =>
    refine ⟨hp, ?_, bytes, mtime, wr, hn, rfl⟩
    cases hs : strendswith p "/" with
    | false => rfl
    | true => simpa [Node.isDir] using hsl hs
  | dir size mtime wr => simp [Node.toStat] at hreg
  | other size mtime => simp [Node.toStat] at hreg

/-- The `stat` of a path under which a regular file is stored, and what opening it for
reading gives when it can be read. -/
theorem stat_of_reg (fs : FS) (p : String) (b : Bytes) (mt : Nat) (wr : Bool)
    (hp : p ≠ "") (hs : strendswith p "/" = false)
    (hl : lookupKey (pathKey p) fs.nodes = some (.reg b mt wr)) :
    fs.stat p = some { st_mode := .reg, st_size := b.length, st_mtime := mt } ∧
      (pathKey p ∉ fs.noRead → fs.fopenR p = some b) ∧
      ∀ content, fs.fopenR p = some content → content = b := by
  refine ⟨by simp [FS.stat, hp, hl, hs, Node.toStat], ?_, ?_⟩
  · intro hr
    simp [FS.fopenR, hp, hl, hs, hr]
  · intro content hc
    unfold FS.fopenR at hc
    simp only [hp, hs, false_or, Bool.false_eq_true, if_false, hl] at hc
    split at hc
    · simp at hc
    · simpa using hc.symm

/-- What a successful `fopen(p, "w")` says about the path and does to the file system:
the path holds an empty regular file, every other key is as it was but for the time
of the directory above, and the permissions to read are as they were. -/
theorem fopenW_spec (fs fs1 : FS) (now : Nat) (p : String) (h : fs.fopenW now p = some fs1) :
    p ≠ "" ∧ strendswith p "/" = false ∧
      lookupKey (pathKey p) fs1.nodes = some (.reg [] now true) ∧
      (∀ sz mt wr, lookupKey (pathKey p) fs.nodes ≠ some (.dir sz mt wr)) ∧
      fs1.noRead = fs.noRead ∧
      ∀ k2, k2 ≠ pathKey p →
        lookupKey k2 fs1.nodes = lookupKey k2 fs.nodes ∨
          (fs1.isDirAt k2 = true ∧ (lookupKey k2 fs.nodes = none ∨ fs.isDirAt k2 = true)) := by
  unfold FS.fopenW at h
  split at h
  · simp at h
  · rename_i hp
    simp only [not_or, Bool.not_eq_true] at hp
    refine ⟨hp.1, hp.2, ?_⟩
    split at h
    · rename_i hl
      simp only [Option.some.injEq] at h
      subst h
      refine ⟨lookupKey_setKey_self _ _ _, by simp [hl], rfl, ?_⟩
      intro k2 hk2
      exact Or.inl (lookupKey_setKey_ne _ _ _ _ hk2)
    · simp at h
    · rename_i hl
      split at h
      · simp only [Option.some.injEq] at h
        subst h
        refine ⟨lookupKey_setKey_self _ _ _, by simp [hl], rfl, ?_⟩
        intro k2 hk2
        have h1 := leftAlone_touchParent now (pathKey p) k2 fs
          { fs with nodes := touchParent now (pathKey p) fs.nodes } rfl
        have h2 : lookupKey k2 (setKey (pathKey p) (Node.reg [] now true)
            (touchParent now (pathKey p) fs.nodes)) =
            lookupKey k2 (touchParent now (pathKey p) fs.nodes) :=
          lookupKey_setKey_ne _ _ _ _ hk2
        simpa [FS.isDirAt, h2] using h1
      · simp at h

/-- A file opened for writing holds exactly the bytes written to it; writing changes
no other key. -/
theorem putBytes_after_fopenW (fs fs1 : FS) (now : Nat) (p : String) (b : Bytes)
    (h : fs.fopenW now p = some fs1) :
    (fs1.putBytes (pathKey p) b).nodes =
      setKey (pathKey p) (.reg b now true) fs1.nodes ∧
    lookupKey (pathKey p) (fs1.putBytes (pathKey p) b).nodes = some (.reg b now true) ∧
    (fs1.putBytes (pathKey p) b).noRead = fs.noRead := by
  obtain ⟨_, _, hl, _, hnr, _⟩ := fopenW_spec fs fs1 now p h
  simp [FS.putBytes, hl, lookupKey_setKey_self, hnr]

/-- A successful `remove` frees the key of the path; every other key is as it was but
for the time of the directory above. -/
theorem remove_spec (fs fs1 : FS) (now : Nat) (p : String) (h : fs.remove now p = some fs1) :
    lookupKey (pathKey p) fs1.nodes = none ∧
      ∀ k2, k2 ≠ pathKey p →
        lookupKey k2 fs1.nodes = lookupKey k2 fs.nodes ∨
          (fs1.isDirAt k2 = true ∧ (lookupKey k2 fs.nodes = none ∨ fs.isDirAt k2 = true)) := by
  have key : ∀ hk : pathKey p ≠ [],
      lookupKey (pathKey p)
          (touchParent now (pathKey p) (eraseKey (pathKey p) fs.nodes)) = none ∧
        ∀ k2, k2 ≠ pathKey p →
          lookupKey k2 (touchParent now (pathKey p) (eraseKey (pathKey p) fs.nodes)) =
              lookupKey k2 fs.nodes ∨
            (FS.isDirAt { fs with
                nodes := (touchParent now (pathKey p) (eraseKey (pathKey p) fs.nodes)) } k2 = true ∧
              (lookupKey k2 fs.nodes = none ∨ fs.isDirAt k2 = true)) := by
    intro hk
    constructor
    · rw [lookupKey_touchParent_ne _ _ _ _ (ne_dropLast _ hk), lookupKey_eraseKey_self]
    · intro k2 hk2
      have h1 := leftAlone_touchParent now (pathKey p) k2
        { fs with nodes := eraseKey (pathKey p) fs.nodes }
        { fs with nodes := touchParent now (pathKey p) (eraseKey (pathKey p) fs.nodes) } rfl
      simpa [FS.isDirAt, lookupKey_eraseKey_ne _ _ _ hk2] using h1
  unfold FS.remove at h
  split at h
  · simp at h
  · split at h
    · simp at h
    · split at h
      · simp at h
      · rename_i hc
        simp only [not_or] at hc
        split at h
        · split at h
          · simp only [Option.some.injEq] at h
            subst h
            exact key hc.1
          · simp at h
        · split at h
          · simp at h
          · simp only [Option.some.injEq] at h
            subst h
            exact key hc.1

/-- After a successful `remove` the path names nothing. -/
theorem stat_after_remove (fs fs1 : FS) (now : Nat) (p : String)
    (h : fs.remove now p = some fs1) :
    fs1.stat p = none := by
  have hn := (remove_spec fs fs1 now p h).1
  unfold FS.stat
  split
  · rfl
  · rw [hn]

/-- A successful `mkdir` makes the directory and loses no directory. -/
theorem mkdir_isDirAt (fs fs1 : FS) (now : Nat) (k : Key) (h : fs.mkdir now k = some fs1) :
    fs1.isDirAt k = true ∧ ∀ k2, fs.isDirAt k2 = true → fs1.isDirAt k2 = true := by
  unfold FS.mkdir at h
  split at h
  · rename_i hc
    simp only [Option.some.injEq] at h
    subst h
    constructor
    · simp [FS.isDirAt, lookupKey_setKey_self, Node.isDir]
    · intro k2 hk2
      have hne : k2 ≠ k := by
        intro heq
        subst heq
        simp [FS.isDirAt, hc.2.1] at hk2
      have h1 := leftAlone_touchParent now k k2 fs
        { fs with nodes := touchParent now k fs.nodes } rfl
      have h2 : (FS.isDirAt { fs with nodes := touchParent now k fs.nodes } k2) = true := by
        rcases h1 with h1 | ⟨h1, _⟩
        · unfold FS.isDirAt at hk2 ⊢
          rw [h1]
          exact hk2
        · exact h1
      simpa [FS.isDirAt, lookupKey_setKey_ne k k2 _ _ hne] using h2
  · simp at h

/-- After a successful `mkdirs` every directory on the way exists, and no directory
that existed before is lost. -/
theorem mkdirsFrom_dirs (now : Nat) (cs : List String) :
    ∀ (cur : Key) (fs : FS), (mkdirsFrom now cs cur fs).2 = true →
      (∀ i, 0 < i → i ≤ cs.length → (mkdirsFrom now cs cur fs).1.isDirAt (cur ++ cs.take i) = true) ∧
      (∀ k2, fs.isDirAt k2 = true → (mkdirsFrom now cs cur fs).1.isDirAt k2 = true) := by
  induction cs with
  | nil =>
    intro cur fs _
    exact ⟨fun i h1 h2 => by simp at h2; omega, fun k2 h => by simpa [mkdirsFrom] using h⟩
  | cons c rest ih =>
    intro cur fs hok
    unfold mkdirsFrom at hok ⊢
    cases hl : lookupKey (cur ++ [c]) fs.nodes with
    | some n =>
      simp only [hl] at hok ⊢
      by_cases hd : n.isDir = true
      · simp only [hd, if_true] at hok ⊢
        obtain ⟨h1, h2⟩ := ih (cur ++ [c]) fs hok
        refine ⟨?_, h2⟩
        intro i hi hile
        obtain ⟨j, rfl⟩ : ∃ j, i = j + 1 := ⟨i - 1, by omega⟩
        by_cases hj : j = 0
        · subst hj
          apply h2
          simp [FS.isDirAt, hl, hd]
        · have := h1 j (by omega) (by simpa using hile)
          simpa using this
      · simp [hd] at hok
    | none =>
      simp only [hl] at hok ⊢
      cases hm : fs.mkdir now (cur ++ [c]) with
      | none => simp [hm] at hok
      | some fs1 =>
        simp only [hm] at hok ⊢
        obtain ⟨hm1, hm2⟩ := mkdir_isDirAt fs fs1 now _ hm
        obtain ⟨h1, h2⟩ := ih (cur ++ [c]) fs1 hok
        refine ⟨?_, fun k2 hk2 => h2 k2 (hm2 k2 hk2)⟩
        intro i hi hile
        obtain ⟨j, rfl⟩ : ∃ j, i = j + 1 := ⟨i - 1, by omega⟩
        by_cases hj : j = 0
        · subst hj
          apply h2
          simpa using hm1
        · have := h1 j (by omega) (by simpa using hile)
          simpa using this

/-- Opening a file for writing and writing to it loses no directory. -/
theorem isDirAt_after_write (fs fs1 : FS) (now : Nat) (p : String) (b : Bytes) (k : Key)
    (h : fs.fopenW now p = some fs1) (hk : fs.isDirAt k = true) :
    (fs1.putBytes (pathKey p) b).isDirAt k = true := by
  obtain ⟨_, _, _, hnd, _, hframe⟩ := fopenW_spec fs fs1 now p h
  obtain ⟨hn2, _, _⟩ := putBytes_after_fopenW fs fs1 now p b h
  have hne : k ≠ pathKey p := by
    intro heq
    subst heq
    unfold FS.isDirAt at hk
    cases hl : lookupKey (pathKey p) fs.nodes with
    | none => simp [hl] at hk
    | some n =>
      cases n with
      | dir sz mt wr => exact hnd sz mt wr hl
      | reg _ _ _ => simp [hl, Node.isDir] at hk
      | other _ _ => simp [hl, Node.isDir] at hk
  have h1 : fs1.isDirAt k = true := by
    rcases hframe k hne with h1 | ⟨h1, _⟩
    · unfold FS.isDirAt at hk ⊢
      rw [h1]
      exact hk
    · exact h1
  unfold FS.isDirAt at h1 ⊢
  rw [hn2, lookupKey_setKey_ne _ _ _ _ hne]
  exact h1

/-- The text before the last slash is followed by that slash and a name without one. -/
theorem beforeLastSlash_spec (cs d : List Char) (h : beforeLastSlash cs = some d) :
    ∃ name, cs = d ++ '/' :: name ∧ '/' ∉ name := by
  induction cs generalizing d with
  | nil => simp [beforeLastSlash] at h
  | cons c rest ih =>
    unfold beforeLastSlash at h
    cases hr : beforeLastSlash rest with
    | some d2 =>
      simp only [hr, Option.some.injEq] at h
      obtain ⟨name, hname, hno⟩ := ih d2 hr
      exact ⟨name, by rw [← h, hname]; rfl, hno⟩
    | none =>
      simp only [hr] at h
      by_cases hc : c = '/'
      · simp only [hc, if_true, Option.some.injEq] at h
        subst h
        refine ⟨rest, by simp [hc], ?_⟩
        intro hmem
        clear ih
        induction rest with
        | nil => simp at hmem
        | cons x xs ihx =>
          unfold beforeLastSlash at hr
          cases hx : beforeLastSlash xs with
          | some d3 => simp [hx] at hr
          | none =>
            simp only [hx] at hr
            by_cases hxs : x = '/'
            · simp [hxs] at hr
            · rcases List.mem_cons.mp hmem with h1 | h1
              · exact hxs h1.symm
              · exact ihx hx h1
      · simp [hc] at h

/-- A text without a slash is one component. -/
theorem splitSlash_no_slash (name cur : List Char) (h : '/' ∉ name) :
    splitSlash name cur = [String.mk (cur.reverse ++ name)] := by
  induction name generalizing cur with
  | nil => simp [splitSlash]
  | cons c rest ih =>
    have hc : c ≠ '/' := fun heq => h (by simp [heq])
    have hrest : '/' ∉ rest := fun hm => h (List.mem_cons_of_mem _ hm)
    rw [splitSlash, if_neg hc, ih _ hrest]
    simp

/-- Splitting a path whose last slash is followed by `name`: the components of the
text before that slash, then `name`. -/
theorem splitSlash_append (d name cur : List Char) (h : '/' ∉ name) :
    splitSlash (d ++ '/' :: name) cur = splitSlash d cur ++ [String.mk name] := by
  induction d generalizing cur with
  | nil => simp [splitSlash, splitSlash_no_slash name [] h]
  | cons c rest ih =>
    by_cases hc : c = '/'
    · simp [splitSlash, hc, ih]
    · simp [splitSlash, hc, ih]

/-- Walking a path in two parts. -/
theorem walk_append (xs ys : List String) (acc : Key) :
    walk (xs ++ ys) acc = walk ys (walk xs acc) := by
  induction xs generalizing acc with
  | nil => rfl
  | cons c rest ih =>
    simp only [List.cons_append, walk]
    split
    · exact ih _
    · split
      · exact ih _
      · exact ih _

/-- The resolved key of a path is the key of its directory part, followed by the name
after the last slash unless that name is empty, "." or ".." (which steps up). -/
theorem pathKey_of_getPath (p d : String) (h : getPath p = some d) :
    pathKey p = pathKey d ∨ pathKey p = (pathKey d).dropLast ∨
      ∃ name, pathKey p = pathKey d ++ [name] := by
  unfold getPath at h
  cases hb : beforeLastSlash p.data with
  | none => simp [hb] at h
  | some dd =>
    simp only [hb, Option.some.injEq] at h
    subst h
    obtain ⟨name, hname, hno⟩ := beforeLastSlash_spec _ _ hb
    unfold pathKey
    rw [hname, splitSlash_append _ _ _ hno, walk_append]
    simp only [walk]
    split
    · exact Or.inl rfl
    · split
      · exact Or.inr (Or.inl rfl)
      · exact Or.inr (Or.inr ⟨_, rfl⟩)

/-- Every proper beginning of the key of a path is a beginning of the key of its
directory part. -/
theorem take_of_pathKey (p d : String) (h : getPath p = some d) (i : Nat)
    (hi : i < (pathKey p).length) :
    i ≤ (pathKey d).length ∧ (pathKey p).take i = (pathKey d).take i := by
  rcases pathKey_of_getPath p d h with h1 | h1 | ⟨name, h1⟩
  · rw [h1] at hi ⊢
    exact ⟨by omega, rfl⟩
  · rw [h1] at hi ⊢
    rw [List.length_dropLast] at hi
    refine ⟨by omega, ?_⟩
    rw [List.dropLast_eq_take, List.take_take]
    congr 1
    omega
  · rw [h1] at hi ⊢
    rw [List.length_append, List.length_singleton] at hi
    refine ⟨by omega, ?_⟩
    rw [List.take_append_of_le_length (by omega)]

/-! ## Facts about decimal output and `atoi` -/

/-- The code of a digit character. -/
theorem digitChar_toNat (d : Nat) (h : d < 10) : (digitChar d).toNat = 48 + d := by
  interval_cases d <;> decide

/-- A digit character is neither white space nor a sign. -/
theorem digitChar_not_space (d : Nat) (h : d < 10) :
    isspace (digitChar d) = false ∧ digitChar d ≠ '-' ∧ digitChar d ≠ '+' := by
  interval_cases d <;> decide

/-- Reading one digit. -/
theorem digitsValue_digitChar (d : Nat) (h : d < 10) (rest : List Char) (a : Nat) :
    digitsValue (digitChar d :: rest) a = digitsValue rest (a * 10 + d) := by
  have h1 := digitChar_toNat d h
  have h2 : 48 ≤ (digitChar d).toNat ∧ (digitChar d).toNat ≤ 57 := by omega
  rw [digitsValue, if_pos h2, h1]
  congr 1
  omega

/-- The digits `decimalAux` writes: a non-empty run of digit characters whose value is
the number. -/
theorem decimalAux_spec (n : Nat) :
    ∀ (fuel : Nat) (acc : List Char), n < fuel →
      ∃ ds : List Char, decimalAux fuel n acc = ds ++ acc ∧
        (∃ d rest, d < 10 ∧ ds = digitChar d :: rest) ∧
        ∀ (tail : List Char) (a : Nat),
          digitsValue (ds ++ tail) a = digitsValue tail (a * 10 ^ ds.length + n) := by
  induction n using Nat.strong_induction_on with
  | _ n ih =>
    intro fuel acc hfuel
    obtain ⟨f, rfl⟩ : ∃ f, fuel = f + 1 := ⟨fuel - 1, by omega⟩
    by_cases hn : n < 10
    · refine ⟨[digitChar n], by simp [decimalAux, hn], ⟨n, [], hn, rfl⟩, ?_⟩
      intro tail a
      simp [digitsValue_digitChar n hn]
    · have hlt : n / 10 < n := by omega
      have hf : n / 10 < f := by omega
      obtain ⟨ds, hds, hhead, hval⟩ := ih (n / 10) hlt f (digitChar (n % 10) :: acc) hf
      refine ⟨ds ++ [digitChar (n % 10)], by simp [decimalAux, hn, hds], ?_, ?_⟩
      · obtain ⟨d, rest, hd, hrest⟩ := hhead
        exact ⟨d, rest ++ [digitChar (n % 10)], hd, by simp [hrest]⟩
      · intro tail a
        have hmod : n % 10 < 10 := Nat.mod_lt _ (by decide)
        rw [List.append_assoc, hval, List.singleton_append, digitsValue_digitChar _ hmod]
        congr 1
        rw [List.length_append, List.length_singleton, pow_succ]
        have := Nat.div_add_mod n 10
        nlinarith [Nat.div_add_mod n 10]

/-- A number below 2^31 fits an `int`. -/
theorem toInt32_small (n : Nat) (h : n < 2 ^ 31) : toInt32 (n : Int) = n := by
  unfold toInt32
  have h1 : ((n : Int) + 2 ^ 31) % 2 ^ 32 = (n : Int) + 2 ^ 31 := by
    apply Int.emod_eq_of_lt <;> omega
  rw [h1]
  omega

/-- Reading back a length that was written in decimal, within the range of `int`. -/
theorem atoi_fmtLu (n : Nat) (h : n < 2 ^ 31) : atoi (fmtLu n) = n := by
  obtain ⟨ds, hds, ⟨d, rest, hd, hrest⟩, hval⟩ := decimalAux_spec n (n + 1) [] (by omega)
  have hv := hval [] 0
  simp only [List.append_nil, Nat.zero_mul, Nat.zero_add, digitsValue] at hv hds
  obtain ⟨hsp, hminus, hplus⟩ := digitChar_not_space d hd
  have hdata : (fmtLu n).data = digitChar d :: rest := by
    simp [fmtLu, hds, hrest]
  have hstr : strtol (fmtLu n) = min (digitsValue (digitChar d :: rest) 0 : Int) (2 ^ 63 - 1) := by
    unfold strtol
    rw [hdata, List.dropWhile_cons_of_neg (by simp [hsp])]
    split
    · rename_i ds2 heq
      simp at heq
      exact absurd heq.1 hminus
    · rename_i ds2 heq
      simp at heq
      exact absurd heq.1 hplus
    · rfl
  unfold atoi
  rw [hstr, ← hrest, hv]
  have : min (n : Int) (2 ^ 63 - 1) = n := by
    apply min_eq_left
    omega
  rw [this]
  exact toInt32_small n h

/-- The digit characters are those of the core library. -/
theorem digitChar_eq (d : Nat) (h : d < 10) : digitChar d = Nat.digitChar d := by
  interval_cases d <;> rfl

/-- The function `decimalAux` computes the digits the core library computes. -/
theorem decimalAux_eq_toDigitsCore (fuel n : Nat) (acc : List Char) :
    decimalAux fuel n acc = Nat.toDigitsCore 10 fuel n acc := by
  induction fuel generalizing n acc with
  | zero => rfl
  | succ f ih =>
    have hmod : n % 10 < 10 := Nat.mod_lt _ (by decide)
    by_cases hn : n < 10
    · have h0 : n / 10 = 0 := by omega
      have h1 : n % 10 = n := by omega
      simp [decimalAux, Nat.toDigitsCore, hn, h0, h1, digitChar_eq n hn]
    · have h0 : ¬ n / 10 = 0 := by omega
      simp [decimalAux, Nat.toDigitsCore, hn, h0, ih, digitChar_eq _ hmod]

/-- The decimal text `fmtLu` writes is the usual one. -/
theorem fmtLu_eq_toString (n : Nat) : fmtLu n = toString n := by
  show fmtLu n = Nat.repr n
  simp [fmtLu, Nat.repr, Nat.toDigits, decimalAux_eq_toDigitsCore, List.asString]

/-! ## Facts about the handlers -/

/-- A string that ends with "/" has the slash as its last character. -/
theorem getLast_of_strendswith (p : String) (h : strendswith p "/" = true) :
    p.data.getLast? = some '/' := by
  unfold strendswith at h
  simp only [Bool.and_eq_true, decide_eq_true_eq, beq_iff_eq] at h
  obtain ⟨_, h2⟩ := h
  have h3 : p.data = p.data.take (p.length - "/".length) ++ ['/'] := by
    have h4 := List.take_append_drop (p.length - "/".length) p.data
    rw [h2] at h4
    exact h4.symm
  rw [h3]
  simp

/-- The loop of `do_delete` sets `size` exactly when some entry is neither "." nor "..". -/
theorem do_delete_size_ne_zero (entries : List String) :
    do_delete_size entries ≠ 0 ↔ ∃ d ∈ entries, d ≠ "." ∧ d ≠ ".." := by
  induction entries with
  | nil => simp [do_delete_size]
  | cons d rest ih =>
    by_cases h : d = "." ∨ d = ".."
    · rw [do_delete_size, if_pos h, ih]
      constructor
      · rintro ⟨x, hx, hx2⟩
        exact ⟨x, List.mem_cons_of_mem _ hx, hx2⟩
      · rintro ⟨x, hx, hx2⟩
        rcases List.mem_cons.mp hx with rfl | hx3
        · rcases h with h | h
          · exact absurd h hx2.1
          · exact absurd h hx2.2
        · exact ⟨x, hx3, hx2⟩
    · rw [do_delete_size, if_neg h]
      simp only [ne_eq, one_ne_zero, not_false_eq_true, true_iff]
      exact ⟨d, List.mem_cons_self _ _, by tauto⟩

/-- When `do_put` answers 200 or 201, the target was opened for writing and holds what
was copied from the connection. -/
theorem do_put_success (env : Env) (w : World) (uri : String)
    (requestHeaders responseHeaders : Properties) (stream : Bytes)
    (hok : (do_put env w uri requestHeaders responseHeaders stream).out.head? =
        some (.status Http_OK) ∨
      (do_put env w uri requestHeaders responseHeaders stream).out.head? =
        some (.status Http_Created)) :
    ∃ (val : String) (fs0 fs1 : FS), findProperty requestHeaders 0 "Content-Length" = some val ∧
      fs0.fopenW w.now (env.resolveUri uri) = some fs1 ∧
      (do_put env w uri requestHeaders responseHeaders stream).fs =
        fs1.putBytes (pathKey (env.resolveUri uri)) (copyFileStreamBytes stream (atoi val)) := by
  cases hval : findProperty requestHeaders 0 "Content-Length" with
  | none =>
    simp [do_put, hval, sendStatusResponse, Http_LengthRequired, Http_OK, Http_Created] at hok
  | some val =>
    cases hsb : w.fs.stat (env.resolveUri uri) with
    | some sb =>
      by_cases h1 : sb.st_mode = .dir ∧ strendswith (env.resolveUri uri) "/" = true
      · simp [do_put, hval, hsb, h1, sendStatusResponse, Http_MethodNotAllowed, Http_OK,
          Http_Created] at hok
      · by_cases h2 : sb.st_mode = .reg
        · cases h3 : w.fs.fopenW w.now (env.resolveUri uri) with
          | none =>
            simp [do_put, hval, hsb, h2, h3, sendStatusResponse, Http_MethodNotAllowed,
              Http_OK, Http_Created] at hok
          | some fs1 =>
            refine ⟨val, w.fs, fs1, rfl, h3, ?_⟩
            simp [do_put, hval, hsb, h2, h3]
        · simp [do_put, hval, hsb, h1, h2, sendStatusResponse, Http_MethodNotAllowed, Http_OK,
            Http_Created] at hok
    | none =>
      cases hd : getPath (env.resolveUri uri) with
      | none =>
        simp [do_put, hval, hsb, hd, sendStatusResponse, Http_MethodNotAllowed, Http_OK,
          Http_Created] at hok
      | some d =>
        by_cases h1 : (mkdirs w.fs w.now d).2 = false
        · simp [do_put, hval, hsb, hd, h1, sendStatusResponse, Http_MethodNotAllowed, Http_OK,
            Http_Created] at hok
        · cases h3 : (mkdirs w.fs w.now d).1.fopenW w.now (env.resolveUri uri) with
          | none =>
            simp [do_put, hval, hsb, hd, h1, h3, sendStatusResponse, Http_MethodNotAllowed,
              Http_OK, Http_Created] at hok
          | some fs2 =>
            refine ⟨val, _, fs2, rfl, h3, ?_⟩
            simp [do_put, hval, hsb, hd, h1, h3]

/-! ## Facts about `mkstemps`, `mkdirs` and `do_post` -/

/-- The extension `do_post` chooses never holds a slash. -/
theorem do_post_extension_no_slash (v : String) : '/' ∉ (do_post_extension v).data := by
  unfold do_post_extension
  simp only []
  split
  · decide
  · split
    · decide
    · split <;> decide

/-- The template `do_post` builds is split by `mkstemps` into the collection path with
"/XXXX", the six X, and the extension. -/
theorem mkstemps_of_template (fs : FS) (now : Nat) (cands : List String) (base ext : String) :
    mkstemps fs now cands (base ++ "/" ++ "XXXXXXXXXX" ++ ext) ext.length =
      mkstempsTry fs now (base ++ "/" ++ "XXXX") ext (base ++ "/" ++ "XXXXXXXXXX" ++ ext) cands := by
  have hdata : (base ++ "/" ++ "XXXXXXXXXX" ++ ext).data =
      ((base ++ "/" ++ "XXXX").data ++ "XXXXXX".data) ++ ext.data := by
    simp [String.data_append]
  have h6 : "XXXXXX".data.length = 6 := by decide
  have hlen : (base ++ "/" ++ "XXXXXXXXXX" ++ ext).length =
      (base ++ "/" ++ "XXXX").data.length + 6 + ext.data.length := by
    show (base ++ "/" ++ "XXXXXXXXXX" ++ ext).data.length = _
    rw [hdata, List.length_append, List.length_append, h6]
  have hext : ext.length = ext.data.length := rfl
  unfold mkstemps
  rw [hlen, hext, hdata]
  have h1 : ¬ ((base ++ "/" ++ "XXXX").data.length + 6 + ext.data.length < 6 + ext.data.length) := by
    omega
  have h2 : (base ++ "/" ++ "XXXX").data.length + 6 + ext.data.length - 6 - ext.data.length =
      (base ++ "/" ++ "XXXX").data.length := by omega
  have h3 : (base ++ "/" ++ "XXXX").data.length + 6 + ext.data.length - ext.data.length =
      ((base ++ "/" ++ "XXXX").data ++ "XXXXXX".data).length := by
    rw [List.length_append, h6]
    omega
  rw [if_neg h1, h2, h3, List.drop_left, List.append_assoc, List.drop_left, List.take_left,
    List.take_left' h6, if_neg (by simp)]

/-- Where `mkstemps` leaves the template when some candidate name is free: at the name
of a free candidate, the file being made or not; every other key is left alone. -/
theorem mkstempsTry_free (fs : FS) (now : Nat) (stem suffix template : String)
    (cands : List String)
    (hfree : ∃ c ∈ cands, lookupKey (pathKey (stem ++ c ++ suffix)) fs.nodes = none) :
    ∃ c ∈ cands, (mkstempsTry fs now stem suffix template cands).1 = stem ++ c ++ suffix ∧
      lookupKey (pathKey (stem ++ c ++ suffix)) fs.nodes = none ∧
      ∀ k2, k2 ≠ pathKey (stem ++ c ++ suffix) →
        lookupKey k2 ((mkstempsTry fs now stem suffix template cands).2.getD fs).nodes =
            lookupKey k2 fs.nodes ∨
          (((mkstempsTry fs now stem suffix template cands).2.getD fs).isDirAt k2 = true ∧
            (lookupKey k2 fs.nodes = none ∨ fs.isDirAt k2 = true)) := by
  induction cands generalizing template with
  | nil => simp at hfree
  | cons c cs ih =>
    unfold mkstempsTry
    cases hl : lookupKey (pathKey (stem ++ c ++ suffix)) fs.nodes with
    | some n =>
      simp only [hl]
      have hfree2 : ∃ c2 ∈ cs, lookupKey (pathKey (stem ++ c2 ++ suffix)) fs.nodes = none := by
        obtain ⟨c2, hc2, hl2⟩ := hfree
        rcases List.mem_cons.mp hc2 with rfl | hmem
        · rw [hl] at hl2
          simp at hl2
        · exact ⟨c2, hmem, hl2⟩
      obtain ⟨c2, hc2, h1, h2, h3⟩ := ih (stem ++ c ++ suffix) hfree2
      exact ⟨c2, List.mem_cons_of_mem _ hc2, h1, h2, h3⟩
    | none =>
      simp only [hl]
      refine ⟨c, List.mem_cons_self _ _, ?_, hl, ?_⟩
      · split <;> rfl
      · intro k2 hk2
        split
        · have h1 := leftAlone_touchParent now (pathKey (stem ++ c ++ suffix)) k2 fs
            { fs with nodes := touchParent now (pathKey (stem ++ c ++ suffix)) fs.nodes } rfl
          have h2 : lookupKey k2 (setKey (pathKey (stem ++ c ++ suffix)) (Node.reg [] now true)
              (touchParent now (pathKey (stem ++ c ++ suffix)) fs.nodes)) =
              lookupKey k2 (touchParent now (pathKey (stem ++ c ++ suffix)) fs.nodes) :=
            lookupKey_setKey_ne _ _ _ _ hk2
          simpa [FS.isDirAt, h2] using h1
        · exact Or.inl rfl

/-- The name `mkstemps` leaves in the template of `do_post`: the collection path, a
slash, a name, the extension. -/
theorem mkstempsTry_name (fs : FS) (now : Nat) (base ext : String) (cands : List String)
    (name0 : String) :
    ∃ name, (mkstempsTry fs now (base ++ "/" ++ "XXXX") ext (base ++ "/" ++ name0 ++ ext) cands).1 =
      base ++ "/" ++ name ++ ext := by
  induction cands generalizing name0 with
  | nil => exact ⟨name0, rfl⟩
  | cons c cs ih =>
    unfold mkstempsTry
    have hassoc : base ++ "/" ++ "XXXX" ++ c ++ ext = base ++ "/" ++ ("XXXX" ++ c) ++ ext := by
      apply String.ext
      simp [String.data_append]
    split
    · rw [hassoc]
      exact ih _
    · split
      · exact ⟨"XXXX" ++ c, hassoc⟩
      · exact ⟨"XXXX" ++ c, hassoc⟩

/-- The key of a member path: the key of the collection, then the member name. -/
theorem pathKey_member (base c ext : String) (hc : '/' ∉ c.data) (hext : '/' ∉ ext.data) :
    pathKey (base ++ "/" ++ "XXXX" ++ c ++ ext) = pathKey base ++ ["XXXX" ++ c ++ ext] := by
  have hdata : (base ++ "/" ++ "XXXX" ++ c ++ ext).data =
      base.data ++ '/' :: ("XXXX" ++ c ++ ext).data := by
    simp [String.data_append]
  have hno : '/' ∉ ("XXXX" ++ c ++ ext).data := by
    simp only [String.data_append, List.mem_append, not_or]
    exact ⟨⟨by decide, hc⟩, hext⟩
  have hname : ∀ s : String, ("XXXX" ++ c ++ ext) = s → s.data.head? = some 'X' := by
    rintro s rfl
    simp [String.data_append]
  have h1 : "XXXX" ++ c ++ ext ≠ "" := fun h => by simpa using hname _ h
  have h2 : "XXXX" ++ c ++ ext ≠ "." := fun h => by simpa using hname _ h
  have h3 : "XXXX" ++ c ++ ext ≠ ".." := fun h => by simpa using hname _ h
  have hmk : String.mk ("XXXX" ++ c ++ ext).data = "XXXX" ++ c ++ ext := rfl
  unfold pathKey
  rw [hdata, splitSlash_append _ _ _ hno, walk_append, hmk, walk,
    if_neg (not_or.mpr ⟨h1, h2⟩), if_neg h3, walk]

/-- A successful `mkdir` makes a key that was free and leaves every other key alone. -/
theorem mkdir_frame (fs fs1 : FS) (now : Nat) (k : Key) (h : fs.mkdir now k = some fs1) :
    lookupKey k fs.nodes = none ∧ fs1.isDirAt k = true ∧
      ∀ k2, k2 ≠ k →
        lookupKey k2 fs1.nodes = lookupKey k2 fs.nodes ∨
          (fs1.isDirAt k2 = true ∧ (lookupKey k2 fs.nodes = none ∨ fs.isDirAt k2 = true)) := by
  have hd := (mkdir_isDirAt fs fs1 now k h).1
  unfold FS.mkdir at h
  split at h
  · rename_i hc
    simp only [Option.some.injEq] at h
    subst h
    refine ⟨hc.2.1, hd, ?_⟩
    intro k2 hne
    have h1 := leftAlone_touchParent now k k2 fs
      { fs with nodes := touchParent now k fs.nodes } rfl
    have h2 : lookupKey k2 (setKey k (Node.dir 0 now true) (touchParent now k fs.nodes)) =
        lookupKey k2 (touchParent now k fs.nodes) :=
      lookupKey_setKey_ne _ _ _ _ hne
    simpa [FS.isDirAt, h2] using h1
  · simp at h

/-- What `mkdirs` leaves of the file system: every key holds what it held, or names a
directory that was there before or is new. -/
theorem mkdirsFrom_frame (now : Nat) (cs : List String) :
    ∀ (cur : Key) (fs : FS) (k : Key),
      lookupKey k (mkdirsFrom now cs cur fs).1.nodes = lookupKey k fs.nodes ∨
      ((mkdirsFrom now cs cur fs).1.isDirAt k = true ∧
        (lookupKey k fs.nodes = none ∨ fs.isDirAt k = true)) := by
  induction cs with
  | nil =>
    intro cur fs k
    exact Or.inl rfl
  | cons c rest ih =>
    intro cur fs k
    unfold mkdirsFrom
    cases hl : lookupKey (cur ++ [c]) fs.nodes with
    | some n =>
      simp only [hl]
      split
      · exact ih _ fs k
      · exact Or.inl rfl
    | none =>
      simp only [hl]
      cases hm : fs.mkdir now (cur ++ [c]) with
      | none => exact Or.inl rfl
      | some fs1 =>
        simp only [hm]
        obtain ⟨hfree, hdir, hframe⟩ := mkdir_frame fs fs1 now _ hm
        have hstep : lookupKey k fs1.nodes = lookupKey k fs.nodes ∨
            (fs1.isDirAt k = true ∧ (lookupKey k fs.nodes = none ∨ fs.isDirAt k = true)) := by
          by_cases hk : k = cur ++ [c]
          · subst hk
            exact Or.inr ⟨hdir, Or.inl hfree⟩
          · exact hframe k hk
        exact leftAlone_trans fs fs1 _ k hstep (ih (cur ++ [c]) fs1 k)

/-- When `do_post` answers 201: the template `mkstemps` left, the file opened for
writing under that name (after `mkdirs` when the collection did not exist), what it
holds, and what was sent. -/
theorem do_post_success (env : Env) (w : World) (uri : String)
    (requestHeaders responseHeaders : Properties) (stream : Bytes)
    (hok : (do_post env w uri requestHeaders responseHeaders stream).out.head? =
        some (.status Http_Created)) :
    ∃ (val : String) (fsX fs2 : FS),
      findProperty requestHeaders 0 "Content-Length" = some val ∧
      (fsX = (mkstemps w.fs w.now w.candidates
            (env.resolveUri uri ++ "/" ++ "XXXXXXXXXX" ++
              do_post_extension ((findProperty requestHeaders 0 "Content-type").getD w.garbageStr))
            (do_post_extension
              ((findProperty requestHeaders 0 "Content-type").getD w.garbageStr)).length).2.getD w.fs ∨
       ∃ d, fsX = (mkdirs ((mkstemps w.fs w.now w.candidates
            (env.resolveUri uri ++ "/" ++ "XXXXXXXXXX" ++
              do_post_extension ((findProperty requestHeaders 0 "Content-type").getD w.garbageStr))
            (do_post_extension
              ((findProperty requestHeaders 0 "Content-type").getD w.garbageStr)).length).2.getD w.fs)
            w.now d).1) ∧
      fsX.fopenW w.now (mkstemps w.fs w.now w.candidates
            (env.resolveUri uri ++ "/" ++ "XXXXXXXXXX" ++
              do_post_extension ((findProperty requestHeaders 0 "Content-type").getD w.garbageStr))
            (do_post_extension
              ((findProperty requestHeaders 0 "Content-type").getD w.garbageStr)).length).1 = some fs2 ∧
      (do_post env w uri requestHeaders responseHeaders stream).fs =
        fs2.putBytes (pathKey (mkstemps w.fs w.now w.candidates
            (env.resolveUri uri ++ "/" ++ "XXXXXXXXXX" ++
              do_post_extension ((findProperty requestHeaders 0 "Content-type").getD w.garbageStr))
            (do_post_extension
              ((findProperty requestHeaders 0 "Content-type").getD w.garbageStr)).length).1)
          (copyFileStreamBytes stream (atoi val)) ∧
      (do_post env w uri requestHeaders responseHeaders stream).out =
        [.status Http_Created,
         .headers (responseHeaders ++ [("Location", (mkstemps w.fs w.now w.candidates
            (env.resolveUri uri ++ "/" ++ "XXXXXXXXXX" ++
              do_post_extension ((findProperty requestHeaders 0 "Content-type").getD w.garbageStr))
            (do_post_extension
              ((findProperty requestHeaders 0 "Content-type").getD w.garbageStr)).length).1)])] := by
  cases hval : findProperty requestHeaders 0 "Content-Length" with
  | none =>
    simp [do_post, hval, sendStatusResponse, Http_LengthRequired, Http_Created] at hok
  | some val =>
    cases hct : findProperty requestHeaders 0 "Content-type"
    all_goals
      simp only [Option.getD_some, Option.getD_none]
      cases hsb : w.fs.stat (env.resolveUri uri) with
      | some sb =>
        by_cases h1 : sb.st_mode = .dir
        · by_cases h2 : strendswith (env.resolveUri uri) "/" = true
          · simp [do_post, hval, hsb, h1, h2, sendStatusResponse, Http_MethodNotAllowed,
              Http_Created] at hok
          · simp only [do_post, hval, hct, hsb] at hok ⊢
            generalize mkstemps w.fs w.now w.candidates _ _ = made at hok ⊢
            cases hopen : (made.2.getD w.fs).fopenW w.now made.1 with
            | none =>
              simp [h1, h2, hopen, sendStatusResponse, Http_MethodNotAllowed, Http_Created] at hok
            | some fs2 =>
              refine ⟨val, _, fs2, rfl, Or.inl rfl, hopen, ?_, ?_⟩
              · simp [h1, h2, hopen]
              · simp [h1, h2, hopen, sendStatusResponse, putProperty]
        · simp [do_post, hval, hsb, h1, sendStatusResponse, Http_MethodNotAllowed,
            Http_Created] at hok
      | none =>
        by_cases h2 : strendswith (env.resolveUri uri) "/" = true
        · simp [do_post, hval, hsb, h2, sendStatusResponse, Http_MethodNotAllowed,
            Http_Created] at hok
        · simp only [do_post, hval, hct, hsb] at hok ⊢
          generalize mkstemps w.fs w.now w.candidates _ _ = made at hok ⊢
          cases hd : getPath made.1 with
          | none =>
            simp [h2, hd, sendStatusResponse, Http_MethodNotAllowed, Http_Created] at hok
          | some d =>
            by_cases hmk : (mkdirs (made.2.getD w.fs) w.now d).2 = false
            · simp [h2, hd, hmk, sendStatusResponse, Http_MethodNotAllowed, Http_Created] at hok
            · cases hopen : (mkdirs (made.2.getD w.fs) w.now d).1.fopenW w.now made.1 with
              | none =>
                simp [h2, hd, hmk, hopen, sendStatusResponse, Http_MethodNotAllowed,
                  Http_Created] at hok
              | some fs2 =>
                refine ⟨val, _, fs2, rfl, Or.inr ⟨d, rfl⟩, hopen, ?_, ?_⟩
                · simp [h2, hd, hmk, hopen]
                · simp [h2, hd, hmk, hopen, sendStatusResponse, putProperty]

/-! ## Facts about the listing -/

/-- The loop of `listing_directories` prints, after what was printed before, a row
followed by the footer for each entry it does not skip, in order. A row is given by
its link, name, time, size and file type. -/
theorem listing_entry_rows (env : Env) (fs : FS) (pathDir uri : String)
    (entries : List String) (st : ListingState) :
    ∃ rows : List (String × String × String × Nat × String),
      (entries.foldl (listing_entry env fs pathDir uri) st).chunks =
        st.chunks ++ rows.flatMap (fun r =>
          [Chunk.htmlEntry r.1 r.2.1 r.2.2.1 r.2.2.2.1 r.2.2.2.2, Chunk.htmlLast]) ∧
      rows.map (fun r => r.2.1) =
        (entries.filter (fun d => decide (d ≠ "." ∧ ¬ (d = ".." ∧ uri = "/")))).map
          (fun d => if d = ".." then "Parent Directory" else d) := by
  induction entries generalizing st with
  | nil => exact ⟨[], by simp, by simp⟩
  | cons d rest ih =>
    rw [List.foldl_cons]
    obtain ⟨rows, h1, h2⟩ := ih (listing_entry env fs pathDir uri st d)
    by_cases hd1 : d = "."
    · refine ⟨rows, ?_, ?_⟩
      · rw [h1]
        simp [listing_entry, hd1]
      · rw [h2]
        simp [hd1]
    · by_cases hd2 : d = ".." ∧ uri = "/"
      · refine ⟨rows, ?_, ?_⟩
        · rw [h1]
          simp [listing_entry, hd2.1, hd2.2]
        · rw [h2]
          simp [hd2.1, hd2.2]
      · have hstep : ∃ r : String × String × String × Nat × String,
            r.2.1 = (if d = ".." then "Parent Directory" else d) ∧
            (listing_entry env fs pathDir uri st d).chunks =
              st.chunks ++
                [Chunk.htmlEntry r.1 r.2.1 r.2.2.1 r.2.2.2.1 r.2.2.2.2, Chunk.htmlLast] := by
          unfold listing_entry
          rw [if_neg hd1, if_neg hd2]
          exact ⟨(_, _, _, _, _), rfl, rfl⟩
        obtain ⟨r, hr, hchunks⟩ := hstep
        refine ⟨r :: rows, ?_, ?_⟩
        · rw [h1, hchunks]
          simp
        · rw [List.filter_cons_of_pos (by simp only [decide_eq_true_eq]; exact ⟨hd1, hd2⟩)]
          simp [h2, hr]

/-- The bytes of a listing: the text of the header, then for each row its text and the
text of the footer. -/
theorem renderChunks_rows (uri : String) (rows : List (String × String × String × Nat × String)) :
    renderChunks (Chunk.htmlFirst uri :: rows.flatMap (fun r =>
        [Chunk.htmlEntry r.1 r.2.1 r.2.2.1 r.2.2.2.1 r.2.2.2.2, Chunk.htmlLast])) =
      (Chunk.render (.htmlFirst uri)).data ++ rows.flatMap (fun r =>
        (Chunk.render (.htmlEntry r.1 r.2.1 r.2.2.1 r.2.2.2.1 r.2.2.2.2)).data ++
          (Chunk.render .htmlLast).data) := by
  unfold renderChunks
  simp only [List.map_cons, List.flatten_cons, List.append_cancel_left_eq]
  induction rows with
  | nil => rfl
  | cons r rest ih =>
    simp only [List.flatMap_cons, List.map_append, List.flatten_append, List.map_cons,
      List.map_nil, List.flatten_cons, List.flatten_nil, List.append_nil, List.append_assoc]
    rw [ih]

/-- Rows followed each by the footer hold as many footers as rows. -/
theorem count_footers (rows : List (String × String × String × Nat × String)) :
    (rows.flatMap (fun r =>
        [Chunk.htmlEntry r.1 r.2.1 r.2.2.1 r.2.2.2.1 r.2.2.2.2, Chunk.htmlLast])).count
      Chunk.htmlLast = rows.length := by
  induction rows with
  | nil => rfl
  | cons r rest ih =>
    simp only [List.flatMap_cons, List.cons_append, List.nil_append]
    rw [List.count_cons_of_ne (by simp), List.count_cons_self, ih, List.length_cons]

/-- What `listing_directories` does when `tmpfile` and `opendir` succeed. -/
theorem listing_directories_file (env : Env) (w : World) (pathDir uri : String)
    (entries : List String) (htmp : w.tmpfileOk = true)
    (hopen : w.fs.opendir pathDir = some entries) :
    (listing_directories env w pathDir uri).1 =
      .file (entries.foldl (listing_entry env w.fs pathDir uri)
        { sb := w.garbageStat, entryMode := w.garbageStr, chunks := [.htmlFirst uri],
          ops := [] }).chunks := by
  simp [listing_directories, htmp, hopen]

/-- A listing is only returned when `tmpfile` and `opendir` succeeded. -/
theorem listing_directories_file_inv (env : Env) (w : World) (pathDir uri : String)
    (chunks : List Chunk) (h : (listing_directories env w pathDir uri).1 = .file chunks) :
    w.tmpfileOk = true ∧ ∃ entries, w.fs.opendir pathDir = some entries := by
  unfold listing_directories at h
  split at h
  · simp at h
  · rename_i htmp
    cases hopen : w.fs.opendir pathDir with
    | none => simp [hopen] at h
    | some entries => exact ⟨by simpa using htmp, entries, rfl⟩

/-! ## C1: URIs that escape the content root -/

/-- Claim C2, counterexample: /docs does not end in "/" and resolves to an existing
directory, and do_get answers 404 Not Found, not 405. -/
theorem do_get_directory_without_slash_is_404 :
    strendswith "/docs" "/" = false ∧
    sampleWorld.fs.stat (sampleEnv.resolveUri "/docs") =
      some { st_mode := .dir, st_size := 0, st_mtime := 4 } ∧
    (do_get sampleEnv sampleWorld "/docs" [] []).out = [.status 404, .headers []] ∧
    (do_get sampleEnv sampleWorld "/docs" [] []).out.head? ≠
      some (.status Http_MethodNotAllowed) := by
  decide

/-- Claim C2, amended: for every URI that does not end in "/" (the resolver keeping the
trailing slash as it is) and whose resolved path exists and is a directory, do_get and
do_head respond with status 404 Not Found and send no body: the status line and the
header block are all that is written. -/
theorem directory_without_slash_not_found (env : Env) (w : World) (uri : String)
    (requestHeaders responseHeaders : Properties) (sb : Stat)
    (hslash : strendswith uri "/" = false)
    (hres : strendswith (env.resolveUri uri) "/" = strendswith uri "/")
    (hstat : w.fs.stat (env.resolveUri uri) = some sb) (hdir : sb.st_mode = .dir) :
    (do_get env w uri requestHeaders responseHeaders).out =
      [.status Http_NotFound, .headers responseHeaders] ∧
    (do_head env w uri requestHeaders responseHeaders).out =
      [.status Http_NotFound, .headers responseHeaders] := by
  rw [hslash] at hres
  simp [do_get, do_head, do_get_or_head, hstat, hdir, hres, sendStatusResponse]

/-- Claim C2, the amended statement at /docs, an existing directory. -/
theorem directory_without_slash_not_found_witness :
    (do_get sampleEnv sampleWorld "/docs" [] []).out = [.status Http_NotFound, .headers []] ∧
    (do_head sampleEnv sampleWorld "/docs" [] []).out = [.status Http_NotFound, .headers []] :=
  directory_without_slash_not_found sampleEnv sampleWorld "/docs" [] []
    { st_mode := .dir, st_size := 0, st_mtime := 4 } (by decide) (by decide) (by decide) rfl

/-! ## C3: the listing of a directory -/

/-- Claim C3, counterexample: /docs/ ends in "/" and resolves to an existing directory,
but `tmpfile` fails: `listing_directories` returns NULL and do_get answers 405 Method
Not Allowed, not 200 with a listing. -/
theorem do_get_directory_without_tmpfile :
    strendswith "/docs/" "/" = true ∧
    sampleNoTmpWorld.fs.stat (sampleEnv.resolveUri "/docs/") =
      some { st_mode := .dir, st_size := 0, st_mtime := 4 } ∧
    sampleNoTmpWorld.tmpfileOk = false ∧
    (do_get sampleEnv sampleNoTmpWorld "/docs/" [] []).out =
      [.status 405, .headers []] := by
  decide

/-- Claim C3, amended: for every URI ending in "/" (the resolver keeping the trailing
slash) whose resolved path is an existing directory: when the temporary file of the
listing cannot be made, do_get responds 405 Method Not Allowed; when it can be made
and the directory can be opened, `entries` being what its enumeration returns, do_get
responds 200 with Content-Length, Last-Modified and Content-type text/html, and the
body is the listing: the header for the URI, then for each row the text of the row and
the footer. There is exactly one row for each entry other than "." and, exactly when
the URI is "/", other than ".."; the rows are in the order of the enumeration, and a
row shows the name of its entry ("Parent Directory" for ".."). A row is given as its
link, name, time, size and file type. -/
theorem do_get_directory_listing (env : Env) (w : World) (uri : String)
    (requestHeaders responseHeaders : Properties) (sb : Stat)
    (hslash : strendswith uri "/" = true)
    (hres : strendswith (env.resolveUri uri) "/" = strendswith uri "/")
    (hstat : w.fs.stat (env.resolveUri uri) = some sb) (hdir : sb.st_mode = .dir) :
    (w.tmpfileOk = false →
      (do_get env w uri requestHeaders responseHeaders).out =
        [.status Http_MethodNotAllowed, .headers responseHeaders]) ∧
    (w.tmpfileOk = true →
      ∀ entries, w.fs.opendir (env.resolveUri uri) = some entries →
      ∃ (rows : List (String × String × String × Nat × String)) (body : Bytes),
        (do_get env w uri requestHeaders responseHeaders).out =
          [.status Http_OK,
           .headers (responseHeaders ++
             [("Content-Length", fmtLu body.length),
              ("Last-Modified", env.milliTimeToRFC_1123_Date_Time w.now),
              ("Content-type", "text/html")]),
           .body body] ∧
        (do_get env w uri requestHeaders responseHeaders).crashed = false ∧
        body =
          ("<html>\n" ++
           "<head><title>index of " ++ uri ++ "</title></head>\n" ++
           "<body>\n" ++
           "<h1>Index of " ++ uri ++ "</h1>\n" ++
           "<table>\n" ++
           "<tr>\n" ++
           "<th valign=\"top\"></th>\n" ++
           "<th>Name</th>\n" ++
           "<th>Last modified</th>\n" ++
           "<th>Size</th>\n" ++
           "<th>Description (file type)</th>\n" ++
           "</tr>\n" ++
           "<tr>\n" ++
           "<td colspan=\"5\"><hr></td>\n" ++
           "</tr>\n").data ++
          rows.flatMap (fun r =>
            ("<tr>\n" ++
             "<td></td>\n" ++
             "<td><a href=\"" ++ r.1 ++ "\">" ++ r.2.1 ++ "</a></td>\n" ++
             "<td align=\"right\">" ++ r.2.2.1 ++ "</td>\n" ++
             "<td align=\"right\">" ++ fmtLu r.2.2.2.1 ++ "</td>\n" ++
             "<td align=\"right\">" ++ r.2.2.2.2 ++ "</td>\n" ++
             "<td></td>\n" ++
             "</tr>\n").data ++
            ("<tr><td colspan=\"5\"><hr></td></tr>\n" ++
             "</body>\n" ++
             "</html>\n").data) ∧
        rows.map (fun r => r.2.1) =
          (entries.filter (fun d => decide (d ≠ "." ∧ ¬ (d = ".." ∧ uri = "/")))).map
            (fun d => if d = ".." then "Parent Directory" else d)) := by
  rw [hslash] at hres
  have hlast := getLast_of_strendswith _ hres
  constructor
  · intro htmp
    simp [do_get, do_get_or_head, hstat, hdir, hres, listing_directories, htmp,
      sendStatusResponse]
  · intro htmp entries hopen
    obtain ⟨rows, hchunks, hnames⟩ := listing_entry_rows env w.fs (env.resolveUri uri) uri
      entries
      { sb := w.garbageStat, entryMode := w.garbageStr, chunks := [.htmlFirst uri], ops := [] }
    have hlist := listing_directories_file env w (env.resolveUri uri) uri entries htmp hopen
    rw [hchunks] at hlist
    have hsplit : listing_directories env w (env.resolveUri uri) uri =
        ((listing_directories env w (env.resolveUri uri) uri).1,
          (listing_directories env w (env.resolveUri uri) uri).2) := rfl
    refine ⟨rows, _, ?_, ?_, renderChunks_rows uri rows, hnames⟩
    · unfold do_get do_get_or_head
      simp only [hstat, hdir, hres, and_self, if_true]
      rw [hsplit, hlist]
      simp [do_get_or_head_send, fileStat, copyFileStreamBytes, getMediaType, hlast,
        putProperty]
    · unfold do_get do_get_or_head
      simp only [hstat, hdir, hres, and_self, if_true]
      rw [hsplit, hlist]
      simp [do_get_or_head_send]

/-- Claim C3, the amended statement at /open/, a directory whose enumeration returns
".", then the file x, then "..": the rows are x and Parent Directory, in that order;
and at /docs/ when `tmpfile` fails. -/
theorem do_get_directory_listing_witness :
    (do_get sampleEnv sampleNoTmpWorld "/docs/" [] []).out =
      [.status Http_MethodNotAllowed, .headers []] ∧
    sampleLockedWorld.fs.opendir (sampleEnv.resolveUri "/open/") = some [".", "x", ".."] ∧
    ∃ (rows : List (String × String × String × Nat × String)) (body : Bytes),
      (do_get sampleEnv sampleLockedWorld "/open/" [] []).out =
        [.status Http_OK,
         .headers ([] ++
           [("Content-Length", fmtLu body.length),
            ("Last-Modified", sampleEnv.milliTimeToRFC_1123_Date_Time sampleLockedWorld.now),
            ("Content-type", "text/html")]),
         .body body] ∧
      rows.map (fun r => r.2.1) = ["x", "Parent Directory"] := by
  obtain ⟨rows, body, h1, _, _, h4⟩ :=
    (do_get_directory_listing sampleEnv sampleLockedWorld "/open/" [] []
      { st_mode := .dir, st_size := 0, st_mtime := 6 }
      (by decide) (by decide) (by decide) rfl).2 rfl [".", "x", ".."] (by decide)
  exact ⟨(do_get_directory_listing sampleEnv sampleNoTmpWorld "/docs/" [] []
      { st_mode := .dir, st_size := 0, st_mtime := 4 }
      (by decide) (by decide) (by decide) rfl).1 rfl,
    by decide, rows, body, h1, by rw [h4]; decide⟩

/-! ## C4: a regular file -/

/-- Claim C4, counterexample: /secret.txt resolves to an existing regular file of 3 bytes
that the server process cannot read. do_get writes the status line 200 and the
headers, Content-Length 3 among them; `fopen(filePath, "r")` returns NULL, which is
not tested, and the NULL stream goes to `copyFileStreamBytes` and `fclose`: no body
is written and the handler does not return. -/
theorem do_get_unreadable_file :
    sampleLockedWorld.fs.stat (sampleEnv.resolveUri "/secret.txt") =
      some { st_mode := .reg, st_size := 3, st_mtime := 3 } ∧
    sampleLockedWorld.fs.fopenR (sampleEnv.resolveUri "/secret.txt") = none ∧
    (do_get sampleEnv sampleLockedWorld "/secret.txt" [] []).ops =
      [.stat "content/secret.txt", .fopenR "content/secret.txt"] ∧
    (do_get sampleEnv sampleLockedWorld "/secret.txt" [] []).out =
      [.status 200,
       .headers [("Content-Length", "3"), ("Last-Modified", "3"),
                 ("Content-type", "application/octet-stream")]] ∧
    (do_get sampleEnv sampleLockedWorld "/secret.txt" [] []).crashed = true := by
  decide

/-- Claim C4, amended: for every URI whose resolved path exists and is a regular file
that can be opened for reading, do_get responds 200, adds to the response headers
Content-Length (the file size in decimal), Last-Modified and Content-type, in that
order, and writes as body exactly the bytes of the file, which are as many as
Content-Length says; and it returns. The last part says that the text `fmtLu` writes
for the size is its usual decimal numeral. -/
theorem do_get_regular_file (env : Env) (w : World) (uri : String)
    (requestHeaders responseHeaders : Properties) (sb : Stat) (content : Bytes)
    (hstat : w.fs.stat (env.resolveUri uri) = some sb) (hreg : sb.st_mode = .reg)
    (hread : w.fs.fopenR (env.resolveUri uri) = some content) :
    (do_get env w uri requestHeaders responseHeaders).out =
      [.status Http_OK,
       .headers (responseHeaders ++
         [("Content-Length", fmtLu sb.st_size),
          ("Last-Modified", env.milliTimeToRFC_1123_Date_Time sb.st_mtime),
          ("Content-type",
            if getMediaType env (env.resolveUri uri) = "text/directory" then "text/html"
            else getMediaType env (env.resolveUri uri))]),
       .body content] ∧
    (do_get env w uri requestHeaders responseHeaders).crashed = false ∧
    content.length = sb.st_size ∧
    fmtLu sb.st_size = toString sb.st_size := by
  obtain ⟨hp, hsl, b, mt, wr, hl, hsz⟩ := stat_reg w.fs _ sb hstat hreg
  have hb := (stat_of_reg w.fs _ b mt wr hp hsl hl).2.2 content hread
  subst hb
  refine ⟨?_, ?_, hsz.symm, fmtLu_eq_toString _⟩
  · simp [do_get, do_get_or_head, do_get_or_head_send, hstat, hreg, hsl, putProperty,
      copyFileStreamBytes, hsz, hread]
  · simp [do_get, do_get_or_head, do_get_or_head_send, hstat, hreg, hsl, hread]

/-- Claim C4, the amended statement at /a.txt, a file of two bytes. -/
theorem do_get_regular_file_witness :
    (do_get sampleEnv sampleWorld "/a.txt" [] []).out =
      [.status Http_OK,
       .headers ([] ++
         [("Content-Length", fmtLu 2),
          ("Last-Modified", sampleEnv.milliTimeToRFC_1123_Date_Time 3),
          ("Content-type",
            if getMediaType sampleEnv (sampleEnv.resolveUri "/a.txt") = "text/directory"
            then "text/html"
            else getMediaType sampleEnv (sampleEnv.resolveUri "/a.txt"))]),
       .body "hi".data] ∧
    (do_get sampleEnv sampleWorld "/a.txt" [] []).crashed = false ∧
    "hi".data.length = 2 ∧
    fmtLu 2 = toString 2 :=
  do_get_regular_file sampleEnv sampleWorld "/a.txt" [] []
    { st_mode := .reg, st_size := 2, st_mtime := 3 } "hi".data (by decide) rfl (by decide)

/-! ## C5: HEAD against GET -/

/-- Claim C5: for every URI, request headers and file system, do_head leaves the same
response headers as do_get, writes the same status line and header block to the
connection (what do_get writes, without the body), and writes no body bytes. -/
theorem do_head_matches_do_get (env : Env) (w : World) (uri : String)
    (requestHeaders responseHeaders : Properties) :
    (do_head env w uri requestHeaders responseHeaders).responseHeaders =
      (do_get env w uri requestHeaders responseHeaders).responseHeaders ∧
    (do_head env w uri requestHeaders responseHeaders).out =
      (do_get env w uri requestHeaders responseHeaders).out.filter (fun o => !o.isBody) ∧
    (do_head env w uri requestHeaders responseHeaders).out.head? =
      (do_get env w uri requestHeaders responseHeaders).out.head? ∧
    ∀ o ∈ (do_head env w uri requestHeaders responseHeaders).out, o.isBody = false := by
  unfold do_head do_get do_get_or_head do_get_or_head_send
  simp only []
  repeat' split
  all_goals simp_all [sendStatusResponse, Out.isBody]

/-! ## C6: PUT and POST without Content-Length -/

/-- Claim C6: for every URI and file system, if no request header is named
Content-Length (in any letter case), do_put and do_post respond 411 Length Required,
make no file-system call and leave the file system unchanged. -/
theorem put_post_without_content_length (env : Env) (w : World) (uri : String)
    (requestHeaders responseHeaders : Properties) (stream : Bytes)
    (hno : ∀ kv ∈ requestHeaders, strlower kv.1 ≠ "content-length") :
    (do_put env w uri requestHeaders responseHeaders stream).out =
      [.status Http_LengthRequired, .headers responseHeaders] ∧
    (do_put env w uri requestHeaders responseHeaders stream).fs = w.fs ∧
    (do_put env w uri requestHeaders responseHeaders stream).ops = [] ∧
    (do_post env w uri requestHeaders responseHeaders stream).out =
      [.status Http_LengthRequired, .headers responseHeaders] ∧
    (do_post env w uri requestHeaders responseHeaders stream).fs = w.fs ∧
    (do_post env w uri requestHeaders responseHeaders stream).ops = [] := by
  have hlow : strlower "Content-Length" = "content-length" := by decide
  have hfind : findProperty requestHeaders 0 "Content-Length" = none := by
    unfold findProperty
    rw [hlow]
    have : requestHeaders.filter (fun kv => strlower kv.1 == "content-length") = [] := by
      rw [List.filter_eq_nil_iff]
      intro kv hkv
      simpa using hno kv hkv
    simp [this]
  simp [do_put, do_post, hfind, sendStatusResponse]

/-- Claim C6 for a request whose only header is Host. -/
theorem put_post_without_content_length_witness :
    (do_put sampleEnv sampleWorld "/n/b.txt" [("Host", "h")] [] "hello".data).out =
      [.status Http_LengthRequired, .headers []] ∧
    (do_put sampleEnv sampleWorld "/n/b.txt" [("Host", "h")] [] "hello".data).fs =
      sampleWorld.fs ∧
    (do_put sampleEnv sampleWorld "/n/b.txt" [("Host", "h")] [] "hello".data).ops = [] ∧
    (do_post sampleEnv sampleWorld "/n/b.txt" [("Host", "h")] [] "hello".data).out =
      [.status Http_LengthRequired, .headers []] ∧
    (do_post sampleEnv sampleWorld "/n/b.txt" [("Host", "h")] [] "hello".data).fs =
      sampleWorld.fs ∧
    (do_post sampleEnv sampleWorld "/n/b.txt" [("Host", "h")] [] "hello".data).ops = [] :=
  put_post_without_content_length sampleEnv sampleWorld "/n/b.txt" [("Host", "h")] []
    "hello".data (by decide)

/-! ## C7: PUT, then GET -/

/-- Claim C7, counterexample: a body of 4294967301 bytes is sent with Content-Length
4294967301; do_put reads the length into an `int`, which keeps 5, answers 200 and
writes 5 bytes; the do_get that follows answers 200 with Content-Length 5 and a body of
5 bytes, not the body that was put. -/
theorem put_then_get_long_body :
    (List.replicate 4294967301 'a').length = 4294967301 ∧
    fmtLu 4294967301 = "4294967301" ∧
    (do_put sampleEnv sampleWorld "/a.txt" [("Content-Length", "4294967301")] []
        (List.replicate 4294967301 'a')).out = [.status 200, .headers []] ∧
    (do_get sampleEnv
        (sampleWorld.after (do_put sampleEnv sampleWorld "/a.txt"
          [("Content-Length", "4294967301")] [] (List.replicate 4294967301 'a')))
        "/a.txt" [] []).out =
      [.status 200,
       .headers [("Content-Length", "5"), ("Last-Modified", "100"),
                 ("Content-type", "application/octet-stream")],
       .body ['a', 'a', 'a', 'a', 'a']] := by
  refine ⟨List.length_replicate _ _, by decide, by decide, by decide⟩

/-- Claim C7, amended: for every URI and every body b of fewer than 2^31 bytes sent with
a Content-Length header equal to the length of b, after do_put succeeds (200 or 201,
which it only does when the resolved path was a regular file or did not exist), when
the file can be read, a do_get on the same URI responds 200 with a body equal to b and
a Content-Length header equal to the length of b, whatever the file held before. -/
theorem put_then_get (env : Env) (w w2 : World) (uri : String)
    (requestHeaders responseHeaders requestHeaders2 responseHeaders2 : Properties) (b : Bytes)
    (hlen : findProperty requestHeaders 0 "Content-Length" = some (fmtLu b.length))
    (hsize : b.length < 2 ^ 31)
    (hok : (do_put env w uri requestHeaders responseHeaders b).out.head? =
        some (.status Http_OK) ∨
      (do_put env w uri requestHeaders responseHeaders b).out.head? =
        some (.status Http_Created))
    (hfs : w2.fs = (do_put env w uri requestHeaders responseHeaders b).fs)
    (hread : pathKey (env.resolveUri uri) ∉ w2.fs.noRead) :
    (do_get env w2 uri requestHeaders2 responseHeaders2).out =
      [.status Http_OK,
       .headers (responseHeaders2 ++
         [("Content-Length", fmtLu b.length),
          ("Last-Modified", env.milliTimeToRFC_1123_Date_Time w.now),
          ("Content-type",
            if getMediaType env (env.resolveUri uri) = "text/directory" then "text/html"
            else getMediaType env (env.resolveUri uri))]),
       .body b] := by
  obtain ⟨val, fs0, fs1, hval, hopen, hres⟩ :=
    do_put_success env w uri requestHeaders responseHeaders b hok
  rw [hlen] at hval
  simp only [Option.some.injEq] at hval
  subst hval
  have hcopy : copyFileStreamBytes b (atoi (fmtLu b.length)) = b := by
    simp [copyFileStreamBytes, atoi_fmtLu b.length hsize]
  rw [hcopy] at hres
  obtain ⟨hp, hs, _, _⟩ := fopenW_spec fs0 fs1 w.now _ hopen
  obtain ⟨_, hl, _⟩ := putBytes_after_fopenW fs0 fs1 w.now _ b hopen
  rw [← hres, ← hfs] at hl
  obtain ⟨hstat, hcontent, _⟩ := stat_of_reg w2.fs _ b w.now true hp hs hl
  simp [do_get, do_get_or_head, do_get_or_head_send, hstat, hs, putProperty,
    copyFileStreamBytes, hcontent hread]

/-- Claim C7, the amended statement for the body "hello" put to a path that does not
exist yet. -/
theorem put_then_get_witness :
    (do_get sampleEnv
        (sampleWorld.after (do_put sampleEnv sampleWorld "/n/m/b.txt"
          [("Content-Length", "5")] [] "hello".data))
        "/n/m/b.txt" [] []).out =
      [.status Http_OK,
       .headers ([] ++
         [("Content-Length", fmtLu "hello".data.length),
          ("Last-Modified", sampleEnv.milliTimeToRFC_1123_Date_Time sampleWorld.now),
          ("Content-type",
            if getMediaType sampleEnv (sampleEnv.resolveUri "/n/m/b.txt") = "text/directory"
            then "text/html"
            else getMediaType sampleEnv (sampleEnv.resolveUri "/n/m/b.txt"))]),
       .body "hello".data] :=
  put_then_get sampleEnv sampleWorld
    (sampleWorld.after (do_put sampleEnv sampleWorld "/n/m/b.txt"
      [("Content-Length", "5")] [] "hello".data))
    "/n/m/b.txt" [("Content-Length", "5")] [] [] [] "hello".data
    (by decide) (by decide) (Or.inr (by decide)) rfl (by decide)

/-! ## C8: what PUT creates -/

/-- Claim C8: for every URI and every request with a Content-Length header: when the
resolved path does not exist (and has a directory part), and creating the directories
and opening the file succeed, do_put responds 201 Created with a Location header whose
value is the resolved path, every directory above the resolved path exists afterwards
(each proper, non-empty beginning of its normalised path names a directory), and the
file exists with the bytes copied from the request; when the resolved path is an
existing regular file that can be opened for writing, do_put responds 200 and adds no
header. -/
theorem do_put_created_or_overwritten (env : Env) (w : World) (uri : String)
    (requestHeaders responseHeaders : Properties) (stream : Bytes) (val : String)
    (hlen : findProperty requestHeaders 0 "Content-Length" = some val) :
    (∀ pathOfFile,
      w.fs.stat (env.resolveUri uri) = none →
      getPath (env.resolveUri uri) = some pathOfFile →
      (mkdirs w.fs w.now pathOfFile).2 = true →
      ((mkdirs w.fs w.now pathOfFile).1.fopenW w.now (env.resolveUri uri)).isSome = true →
      (do_put env w uri requestHeaders responseHeaders stream).out =
        [.status Http_Created, .headers (responseHeaders ++ [("Location", env.resolveUri uri)])] ∧
      (∀ i, 0 < i → i < (pathKey (env.resolveUri uri)).length →
        (do_put env w uri requestHeaders responseHeaders stream).fs.isDirAt
          ((pathKey (env.resolveUri uri)).take i) = true) ∧
      lookupKey (pathKey (env.resolveUri uri))
          (do_put env w uri requestHeaders responseHeaders stream).fs.nodes =
        some (.reg (copyFileStreamBytes stream (atoi val)) w.now true)) ∧
    (∀ sb,
      w.fs.stat (env.resolveUri uri) = some sb → sb.st_mode = .reg →
      (w.fs.fopenW w.now (env.resolveUri uri)).isSome = true →
      (do_put env w uri requestHeaders responseHeaders stream).out =
        [.status Http_OK, .headers responseHeaders] ∧
      (do_put env w uri requestHeaders responseHeaders stream).responseHeaders =
        responseHeaders) := by
  constructor
  · intro d hstat hd hmk hopen
    obtain ⟨fs2, hopen⟩ := Option.isSome_iff_exists.mp hopen
    have hfs : (do_put env w uri requestHeaders responseHeaders stream).fs =
        fs2.putBytes (pathKey (env.resolveUri uri)) (copyFileStreamBytes stream (atoi val)) := by
      simp [do_put, hlen, hstat, hd, hmk, hopen]
    refine ⟨?_, ?_, ?_⟩
    · simp [do_put, hlen, hstat, hd, hmk, hopen, sendStatusResponse, putProperty]
    · intro i hi hilt
      obtain ⟨hile, htake⟩ := take_of_pathKey _ d hd i hilt
      rw [hfs, htake]
      apply isDirAt_after_write _ fs2 w.now _ _ _ hopen
      have := (mkdirsFrom_dirs w.now (pathKey d) [] w.fs hmk).1 i hi hile
      simpa [mkdirs] using this
    · rw [hfs]
      exact (putBytes_after_fopenW _ fs2 w.now _ _ hopen).2.1
  · intro sb hstat hreg hopen
    obtain ⟨fs1, hopen⟩ := Option.isSome_iff_exists.mp hopen
    obtain ⟨hsl, _⟩ := stat_reg w.fs _ sb hstat hreg
    simp [do_put, hlen, hstat, hreg, hopen, sendStatusResponse]

/-- Claim C8 at /n/m/b.txt, where neither directory exists, and at the existing file
/a.txt. -/
theorem do_put_created_or_overwritten_witness :
    ((do_put sampleEnv sampleWorld "/n/m/b.txt" [("Content-Length", "5")] []
        "hello".data).out =
      [.status Http_Created, .headers ([] ++ [("Location", "content/n/m/b.txt")])] ∧
     (∀ i, 0 < i → i < (pathKey "content/n/m/b.txt").length →
        (do_put sampleEnv sampleWorld "/n/m/b.txt" [("Content-Length", "5")] []
          "hello".data).fs.isDirAt ((pathKey "content/n/m/b.txt").take i) = true) ∧
     lookupKey (pathKey "content/n/m/b.txt")
        (do_put sampleEnv sampleWorld "/n/m/b.txt" [("Content-Length", "5")] []
          "hello".data).fs.nodes =
      some (.reg (copyFileStreamBytes "hello".data (atoi "5")) sampleWorld.now true)) ∧
    ((do_put sampleEnv sampleWorld "/a.txt" [("Content-Length", "5")] [] "hello".data).out =
        [.status Http_OK, .headers []] ∧
      (do_put sampleEnv sampleWorld "/a.txt" [("Content-Length", "5")] []
        "hello".data).responseHeaders = []) :=
  ⟨(do_put_created_or_overwritten sampleEnv sampleWorld "/n/m/b.txt" [("Content-Length", "5")]
      [] "hello".data "5" (by decide)).1 "content/n/m"
      (by decide) (by decide) (by decide) (by decide),
   (do_put_created_or_overwritten sampleEnv sampleWorld "/a.txt" [("Content-Length", "5")]
      [] "hello".data "5" (by decide)).2 { st_mode := .reg, st_size := 2, st_mtime := 3 }
      (by decide) rfl (by decide)⟩

/-! ## C9: DELETE of a directory that is not empty -/

/-- Claim C9, counterexample: /docs resolves to a directory that holds the entry x, the
URI does not end in "/", and do_delete answers 404 Not Found, not 405. -/
theorem do_delete_nonempty_directory_without_slash :
    strendswith "/docs" "/" = false ∧
    sampleWorld.fs.stat (sampleEnv.resolveUri "/docs") =
      some { st_mode := .dir, st_size := 0, st_mtime := 4 } ∧
    sampleWorld.fs.opendir (sampleEnv.resolveUri "/docs") = some [".", "..", "x"] ∧
    (do_delete sampleEnv sampleWorld "/docs" [] []).out = [.status 404, .headers []] ∧
    (do_delete sampleEnv sampleWorld "/docs" [] []).out.head? ≠
      some (.status Http_MethodNotAllowed) := by
  decide

/-- Claim C9, amended: for every URI whose resolved path is an existing directory that
contains at least one entry other than "." and "..", do_delete removes nothing, the file
system being the same after the call as before; it responds 405 Method Not Allowed when
the URI ends in "/" and the directory can be opened, and 404 Not Found when the URI
does not end in "/". -/
theorem do_delete_nonempty_directory (env : Env) (w : World) (uri : String)
    (requestHeaders responseHeaders : Properties) (sb : Stat)
    (hres : strendswith (env.resolveUri uri) "/" = strendswith uri "/")
    (hstat : w.fs.stat (env.resolveUri uri) = some sb) (hdir : sb.st_mode = .dir)
    (hne : ∃ d ∈ w.fs.children (pathKey (env.resolveUri uri)), d ≠ "." ∧ d ≠ "..") :
    (do_delete env w uri requestHeaders responseHeaders).fs = w.fs ∧
    (strendswith uri "/" = true → pathKey (env.resolveUri uri) ∉ w.fs.noRead →
      (do_delete env w uri requestHeaders responseHeaders).out =
        [.status Http_MethodNotAllowed, .headers responseHeaders] ∧
      (do_delete env w uri requestHeaders responseHeaders).crashed = false) ∧
    (strendswith uri "/" = false →
      (do_delete env w uri requestHeaders responseHeaders).out =
        [.status Http_NotFound, .headers responseHeaders] ∧
      (do_delete env w uri requestHeaders responseHeaders).crashed = false) := by
  have hsize : ∀ entries, w.fs.opendir (env.resolveUri uri) = some entries →
      do_delete_size entries ≠ 0 := by
    intro entries hopen
    obtain ⟨d, hd, h1, h2⟩ := hne
    exact (do_delete_size_ne_zero _).mpr
      ⟨d, ((opendir_spec w.fs _ entries hopen).2.2 d).mpr (Or.inr (Or.inr hd)), h1, h2⟩
  cases hs : strendswith uri "/" with
  | true =>
    rw [hs] at hres
    refine ⟨?_, ?_, by simp⟩
    · cases hopen : w.fs.opendir (env.resolveUri uri) with
      | none => simp [do_delete, hstat, hdir, hres, hopen]
      | some entries => simp [do_delete, hstat, hdir, hres, hopen, hsize entries hopen]
    · intro _ hread
      obtain ⟨entries, hopen⟩ := opendir_of_stat w.fs _ sb hstat hdir hread
      simp [do_delete, hstat, hdir, hres, hopen, hsize entries hopen, sendStatusResponse]
  | false =>
    rw [hs] at hres
    simp [do_delete, hstat, hdir, hres, sendStatusResponse]

/-- Claim C9, the amended statement at /docs/ (405) and at /docs (404). -/
theorem do_delete_nonempty_directory_witness :
    ((do_delete sampleEnv sampleWorld "/docs/" [] []).fs = sampleWorld.fs ∧
     (do_delete sampleEnv sampleWorld "/docs/" [] []).out =
        [.status Http_MethodNotAllowed, .headers []]) ∧
    ((do_delete sampleEnv sampleWorld "/docs" [] []).fs = sampleWorld.fs ∧
     (do_delete sampleEnv sampleWorld "/docs" [] []).out =
        [.status Http_NotFound, .headers []]) :=
  ⟨⟨(do_delete_nonempty_directory sampleEnv sampleWorld "/docs/" [] []
        { st_mode := .dir, st_size := 0, st_mtime := 4 } (by decide) (by decide) rfl
        ⟨"x", by decide, by decide, by decide⟩).1,
    ((do_delete_nonempty_directory sampleEnv sampleWorld "/docs/" [] []
        { st_mode := .dir, st_size := 0, st_mtime := 4 } (by decide) (by decide) rfl
        ⟨"x", by decide, by decide, by decide⟩).2.1 (by decide) (by decide)).1⟩,
   ⟨(do_delete_nonempty_directory sampleEnv sampleWorld "/docs" [] []
        { st_mode := .dir, st_size := 0, st_mtime := 4 } (by decide) (by decide) rfl
        ⟨"x", by decide, by decide, by decide⟩).1,
    ((do_delete_nonempty_directory sampleEnv sampleWorld "/docs" [] []
        { st_mode := .dir, st_size := 0, st_mtime := 4 } (by decide) (by decide) rfl
        ⟨"x", by decide, by decide, by decide⟩).2.2 (by decide)).1⟩⟩

/-! ## C10: DELETE of a file or of an empty directory -/

/-- Claim C10, counterexample: /empty resolves to an existing directory with no entries
besides "." and "..", which `remove` would remove; the URI does not end in "/", and
do_delete answers 404 without calling `remove`: the directory is still there. -/
theorem do_delete_empty_directory_without_slash :
    sampleWorld.fs.stat (sampleEnv.resolveUri "/empty") =
      some { st_mode := .dir, st_size := 0, st_mtime := 6 } ∧
    sampleWorld.fs.opendir (sampleEnv.resolveUri "/empty") = some [".", ".."] ∧
    (sampleWorld.fs.remove sampleWorld.now (sampleEnv.resolveUri "/empty")).isSome = true ∧
    (do_delete sampleEnv sampleWorld "/empty" [] []).out = [.status 404, .headers []] ∧
    (do_delete sampleEnv sampleWorld "/empty" [] []).ops = [.stat "content/empty"] ∧
    (do_delete sampleEnv sampleWorld "/empty" [] []).fs = sampleWorld.fs := by
  decide

/-- Claim C10, amended: for every URI whose resolved path is an existing regular file,
or an existing directory with no entries besides "." and ".." that can be opened and
the URI ends in "/", do_delete calls `remove` on it: when the removal succeeds it
responds 200 OK, the path names nothing afterwards and a do_get on the same URI
responds 404 Not Found; when the removal fails it responds 404 and the file system is
unchanged. For such an empty directory and a URI that does not end in "/", do_delete
responds 404 and removes nothing. -/
theorem do_delete_file_or_empty_directory (env : Env) (w w2 : World) (uri : String)
    (requestHeaders responseHeaders requestHeaders2 responseHeaders2 : Properties) (sb : Stat)
    (hres : strendswith (env.resolveUri uri) "/" = strendswith uri "/")
    (hstat : w.fs.stat (env.resolveUri uri) = some sb)
    (hkind : sb.st_mode = .reg ∨
      (sb.st_mode = .dir ∧
        ∀ d ∈ w.fs.children (pathKey (env.resolveUri uri)), d = "." ∨ d = ".."))
    (hfs : w2.fs = (do_delete env w uri requestHeaders responseHeaders).fs) :
    (sb.st_mode = .reg ∨
        (strendswith uri "/" = true ∧ pathKey (env.resolveUri uri) ∉ w.fs.noRead) →
      (do_delete env w uri requestHeaders responseHeaders).crashed = false ∧
      ((w.fs.remove w.now (env.resolveUri uri)).isSome = true →
        (do_delete env w uri requestHeaders responseHeaders).out =
          [.status Http_OK, .headers responseHeaders] ∧
        lookupKey (pathKey (env.resolveUri uri))
          (do_delete env w uri requestHeaders responseHeaders).fs.nodes = none ∧
        (do_get env w2 uri requestHeaders2 responseHeaders2).out =
          [.status Http_NotFound, .headers responseHeaders2]) ∧
      ((w.fs.remove w.now (env.resolveUri uri)).isSome = false →
        (do_delete env w uri requestHeaders responseHeaders).out =
          [.status Http_NotFound, .headers responseHeaders] ∧
        (do_delete env w uri requestHeaders responseHeaders).fs = w.fs)) ∧
    (sb.st_mode = .dir ∧ strendswith uri "/" = false →
      (do_delete env w uri requestHeaders responseHeaders).out =
        [.status Http_NotFound, .headers responseHeaders] ∧
      (do_delete env w uri requestHeaders responseHeaders).fs = w.fs) := by
  constructor
  · intro hcase
    have hrun : do_delete env w uri requestHeaders responseHeaders =
        do_delete_remove w (env.resolveUri uri) responseHeaders
          (if sb.st_mode = .dir then
            [.stat (env.resolveUri uri), .opendir (env.resolveUri uri)]
           else [.stat (env.resolveUri uri)]) := by
      by_cases hreg : sb.st_mode = .reg
      · obtain ⟨_, hsl, _⟩ := stat_reg w.fs _ sb hstat hreg
        simp [do_delete, hstat, hreg, hsl]
      · obtain ⟨hsl, hread⟩ : strendswith uri "/" = true ∧
            pathKey (env.resolveUri uri) ∉ w.fs.noRead := by
          rcases hcase with h | h
          · exact absurd h hreg
          · exact h
        obtain ⟨hdir, hempty⟩ : sb.st_mode = .dir ∧
            ∀ d ∈ w.fs.children (pathKey (env.resolveUri uri)), d = "." ∨ d = ".." := by
          rcases hkind with h | h
          · exact absurd h hreg
          · exact h
        rw [hsl] at hres
        obtain ⟨entries, hopen⟩ := opendir_of_stat w.fs _ sb hstat hdir hread
        have hsize : do_delete_size entries = 0 := by
          by_contra hc
          obtain ⟨d, hd, h1, h2⟩ := (do_delete_size_ne_zero _).mp hc
          rcases ((opendir_spec w.fs _ entries hopen).2.2 d).mp hd with h | h | h
          · exact h1 h
          · exact h2 h
          · rcases hempty d h with h3 | h3
            · exact h1 h3
            · exact h2 h3
        simp [do_delete, hstat, hdir, hres, hopen, hsize]
    rw [hrun] at hfs ⊢
    refine ⟨?_, ?_, ?_⟩
    · unfold do_delete_remove
      split <;> rfl
    · intro hsome
      obtain ⟨fs1, hrm⟩ := Option.isSome_iff_exists.mp hsome
      have hfs1 : w2.fs = fs1 := by simpa [do_delete_remove, hrm] using hfs
      have hst := stat_after_remove w.fs fs1 w.now _ hrm
      refine ⟨by simp [do_delete_remove, hrm, sendStatusResponse], ?_, ?_⟩
      · simp [do_delete_remove, hrm, (remove_spec w.fs fs1 w.now _ hrm).1]
      · rw [← hfs1] at hst
        simp [do_get, do_get_or_head, hst, sendStatusResponse]
    · intro hnone
      have hrm : w.fs.remove w.now (env.resolveUri uri) = none := by
        cases h : w.fs.remove w.now (env.resolveUri uri) with
        | none => rfl
        | some x => simp [h] at hnone
      simp [do_delete_remove, hrm, sendStatusResponse]
  · rintro ⟨hdir, hsl⟩
    rw [hsl] at hres
    simp [do_delete, hstat, hdir, hres, sendStatusResponse]

/-- Claim C10, the amended statement at /empty/, an empty directory, which is removed,
at /a.txt, a regular file, which is removed, and at a file in a directory that cannot
be written to, whose removal fails. -/
theorem do_delete_file_or_empty_directory_witness :
    ((do_delete sampleEnv sampleWorld "/empty/" [] []).out = [.status Http_OK, .headers []] ∧
      lookupKey (pathKey (sampleEnv.resolveUri "/empty/"))
        (do_delete sampleEnv sampleWorld "/empty/" [] []).fs.nodes = none ∧
      (do_get sampleEnv (sampleWorld.after (do_delete sampleEnv sampleWorld "/empty/" [] []))
        "/empty/" [] []).out = [.status Http_NotFound, .headers []]) ∧
    ((do_delete sampleEnv sampleWorld "/a.txt" [] []).out = [.status Http_OK, .headers []] ∧
      lookupKey (pathKey (sampleEnv.resolveUri "/a.txt"))
        (do_delete sampleEnv sampleWorld "/a.txt" [] []).fs.nodes = none ∧
      (do_get sampleEnv (sampleWorld.after (do_delete sampleEnv sampleWorld "/a.txt" [] []))
        "/a.txt" [] []).out = [.status Http_NotFound, .headers []]) ∧
    ((do_delete sampleEnv sampleReadOnlyWorld "/a.txt" [] []).out =
        [.status Http_NotFound, .headers []] ∧
      (do_delete sampleEnv sampleReadOnlyWorld "/a.txt" [] []).fs = sampleReadOnlyWorld.fs) :=
  ⟨((do_delete_file_or_empty_directory sampleEnv sampleWorld
        (sampleWorld.after (do_delete sampleEnv sampleWorld "/empty/" [] []))
        "/empty/" [] [] [] [] { st_mode := .dir, st_size := 0, st_mtime := 6 }
        (by decide) (by decide) (Or.inr ⟨rfl, by decide⟩) rfl).1
          (Or.inr ⟨by decide, by decide⟩)).2.1
      (by decide),
   ((do_delete_file_or_empty_directory sampleEnv sampleWorld
        (sampleWorld.after (do_delete sampleEnv sampleWorld "/a.txt" [] []))
        "/a.txt" [] [] [] [] { st_mode := .reg, st_size := 2, st_mtime := 3 }
        (by decide) (by decide) (Or.inl rfl) rfl).1 (Or.inl rfl)).2.1
      (by decide),
   ((do_delete_file_or_empty_directory sampleEnv sampleReadOnlyWorld sampleReadOnlyWorld
        "/a.txt" [] [] [] [] { st_mode := .reg, st_size := 2, st_mtime := 3 }
        (by decide) (by decide) (Or.inl rfl) (by decide)).1 (Or.inl rfl)).2.2
      (by decide)⟩

/-! ## C11: the suffix of the member `do_post` creates -/

/-- Claim C11: the suffix do_post chooses is a function of the Content-type value `v` of
the request alone, `do_post_extension v`: ".urlencoded" when `v` is exactly
"application/x-www-form-urlencoded"; otherwise ".mime" when `v` starts with
"multipart/form-data", whatever follows; otherwise ".txt" when `v` is exactly
"text/plain"; and ".bin" for every other value. That suffix is the one the new member
gets: whenever do_post answers 201, the Location it sends is the resolved collection
path, "/", a name, and `do_post_extension v`. -/
theorem do_post_suffix_of_content_type (env : Env) (w : World) (uri : String)
    (requestHeaders responseHeaders : Properties) (stream : Bytes) (v : String)
    (htype : findProperty requestHeaders 0 "Content-type" = some v) :
    (v = "application/x-www-form-urlencoded" → do_post_extension v = ".urlencoded") ∧
    (v ≠ "application/x-www-form-urlencoded" →
      (∃ rest, v = "multipart/form-data" ++ rest) → do_post_extension v = ".mime") ∧
    (v ≠ "application/x-www-form-urlencoded" →
      (¬ ∃ rest, v = "multipart/form-data" ++ rest) → v = "text/plain" →
        do_post_extension v = ".txt") ∧
    (v ≠ "application/x-www-form-urlencoded" →
      (¬ ∃ rest, v = "multipart/form-data" ++ rest) → v ≠ "text/plain" →
        do_post_extension v = ".bin") ∧
    ((do_post env w uri requestHeaders responseHeaders stream).out.head? =
        some (.status Http_Created) →
      ∃ name, (do_post env w uri requestHeaders responseHeaders stream).out =
        [.status Http_Created,
         .headers (responseHeaders ++
           [("Location", env.resolveUri uri ++ "/" ++ name ++ do_post_extension v)])]) := by
  have htake : String.mk (v.data.take 19) = "multipart/form-data" ↔
      ∃ rest, v = "multipart/form-data" ++ rest := by
    constructor
    · intro h
      refine ⟨String.mk (v.data.drop 19), ?_⟩
      apply String.ext
      rw [String.data_append, ← h]
      simp
    · rintro ⟨rest, rfl⟩
      apply String.ext
      rw [String.data_append]
      have : "multipart/form-data".data.length = 19 := by decide
      simp [List.take_append_of_le_length, this]
  refine ⟨?_, ?_, ?_, ?_, ?_⟩
  · intro h
    simp [do_post_extension, h]
  · intro h1 h2
    simp [do_post_extension, h1, htake.mpr h2]
  · intro h1 h2 h3
    subst h3
    decide
  · intro h1 h2 h3
    have h4 : ¬ String.mk (v.data.take 19) = "multipart/form-data" := fun h => h2 (htake.mp h)
    simp [do_post_extension, h1, h4, h3]
  · intro hok
    obtain ⟨val, fsX, fs2, _, _, _, _, hout⟩ :=
      do_post_success env w uri requestHeaders responseHeaders stream hok
    rw [htype, Option.getD_some, mkstemps_of_template] at hout
    obtain ⟨name, hname⟩ := mkstempsTry_name w.fs w.now (env.resolveUri uri)
      (do_post_extension v) w.candidates "XXXXXXXXXX"
    rw [hname] at hout
    exact ⟨name, hout⟩

/-- Claim C11, witness: "multipart/form-data; boundary=x" gives ".mime", and a POST to
"/docs" with Content-type text/plain answers 201 with a Location that ends in the
suffix of text/plain. -/
theorem do_post_suffix_of_content_type_witness :
    do_post_extension "multipart/form-data; boundary=x" = ".mime" ∧
    ∃ name, (do_post sampleEnv sampleWorld "/docs"
        [("Content-Length", "5"), ("Content-type", "text/plain")] [] "hello".data).out =
      [.status Http_Created,
       .headers ([] ++ [("Location", sampleEnv.resolveUri "/docs" ++ "/" ++ name ++
          do_post_extension "text/plain")])] :=
  ⟨(do_post_suffix_of_content_type sampleEnv sampleWorld "/docs"
      [("Content-type", "multipart/form-data; boundary=x")] [] []
      "multipart/form-data; boundary=x" (by decide)).2.1 (by decide)
      ⟨"; boundary=x", by decide⟩,
   (do_post_suffix_of_content_type sampleEnv sampleWorld "/docs"
      [("Content-Length", "5"), ("Content-type", "text/plain")] [] "hello".data
      "text/plain" (by decide)).2.2.2.2 (by decide)⟩

/-! ## C12: what POST creates -/

/-- Claim C12, counterexample: a body of 4294967301 bytes sent to the existing
collection "/docs" with Content-Length 4294967301, its length. `contentLen` is an `int`
and `atoi` leaves 5 in it: do_post answers 201 and the new member holds 5 bytes, not
the body. -/
theorem do_post_long_body :
    (List.replicate 4294967301 'a').length = 4294967301 ∧
    fmtLu 4294967301 = "4294967301" ∧
    (do_post sampleEnv sampleWorld "/docs"
        [("Content-Length", "4294967301"), ("Content-type", "text/plain")] []
        (List.replicate 4294967301 'a')).out =
      [.status 201, .headers [("Location", "content/docs/XXXXaaaaaa.txt")]] ∧
    lookupKey ["content", "docs", "XXXXaaaaaa.txt"]
      (do_post sampleEnv sampleWorld "/docs"
        [("Content-Length", "4294967301"), ("Content-type", "text/plain")] []
        (List.replicate 4294967301 'a')).fs.nodes =
      some (.reg ['a', 'a', 'a', 'a', 'a'] 100 true) := by
  refine ⟨List.length_replicate _ _, by decide, by decide, by decide⟩

/-- Claim C12, amended: for a body `b` of fewer than 2^31 bytes sent with Content-Length
equal to its length, when the names `mkstemps` draws hold no "/" and one of them is
free in the collection, a do_post that answers 201 creates exactly one new file: there
is a drawn name `c` such that the Location header is the resolved collection path, "/",
"XXXX" ++ c and the suffix chosen from Content-type; that path lies directly inside the
collection directory; nothing was there before; afterwards it is a regular file that
holds exactly `b`; and every other path holds what it held before, or names a
directory that was there before (the time of the collection directory changes) or
was made on the way to the collection. -/
theorem do_post_creates_member (env : Env) (w : World) (uri : String)
    (requestHeaders responseHeaders : Properties) (b : Bytes) (ext : String)
    (hext : ext = do_post_extension
      ((findProperty requestHeaders 0 "Content-type").getD w.garbageStr))
    (hlen : findProperty requestHeaders 0 "Content-Length" = some (fmtLu b.length))
    (hsize : b.length < 2 ^ 31)
    (hcand : ∀ c ∈ w.candidates, '/' ∉ c.data)
    (hfree : ∃ c ∈ w.candidates,
      lookupKey (pathKey (env.resolveUri uri ++ "/" ++ "XXXX" ++ c ++ ext)) w.fs.nodes = none)
    (hok : (do_post env w uri requestHeaders responseHeaders b).out.head? =
      some (.status Http_Created)) :
    ∃ c ∈ w.candidates,
      (do_post env w uri requestHeaders responseHeaders b).out =
        [.status Http_Created,
         .headers (responseHeaders ++
           [("Location", env.resolveUri uri ++ "/" ++ "XXXX" ++ c ++ ext)])] ∧
      pathKey (env.resolveUri uri ++ "/" ++ "XXXX" ++ c ++ ext) =
        pathKey (env.resolveUri uri) ++ ["XXXX" ++ c ++ ext] ∧
      lookupKey (pathKey (env.resolveUri uri ++ "/" ++ "XXXX" ++ c ++ ext)) w.fs.nodes = none ∧
      lookupKey (pathKey (env.resolveUri uri ++ "/" ++ "XXXX" ++ c ++ ext))
        (do_post env w uri requestHeaders responseHeaders b).fs.nodes =
          some (.reg b w.now true) ∧
      ∀ k, k ≠ pathKey (env.resolveUri uri ++ "/" ++ "XXXX" ++ c ++ ext) →
        lookupKey k (do_post env w uri requestHeaders responseHeaders b).fs.nodes =
          lookupKey k w.fs.nodes ∨
        ((do_post env w uri requestHeaders responseHeaders b).fs.isDirAt k = true ∧
          (lookupKey k w.fs.nodes = none ∨ w.fs.isDirAt k = true)) := by
  obtain ⟨val, fsX, fs2, hval, hX, hopen, hfs, hout⟩ :=
    do_post_success env w uri requestHeaders responseHeaders b hok
  rw [hlen] at hval
  simp only [Option.some.injEq] at hval
  subst hval
  have hcopy : copyFileStreamBytes b (atoi (fmtLu b.length)) = b := by
    simp [copyFileStreamBytes, atoi_fmtLu b.length hsize]
  rw [hcopy] at hfs
  rw [← hext, mkstemps_of_template] at hX hopen hfs hout
  obtain ⟨c, hc, hname, hnone, hmade⟩ := mkstempsTry_free w.fs w.now
    (env.resolveUri uri ++ "/" ++ "XXXX") ext
    (env.resolveUri uri ++ "/" ++ "XXXXXXXXXX" ++ ext) w.candidates hfree
  rw [hname] at hopen hfs hout
  have hextslash : '/' ∉ ext.data := by
    rw [hext]
    exact do_post_extension_no_slash _
  refine ⟨c, hc, hout, pathKey_member _ c ext (hcand c hc) hextslash, hnone, ?_, ?_⟩
  · rw [hfs]
    exact (putBytes_after_fopenW fsX fs2 w.now _ b hopen).2.1
  · intro k hk
    obtain ⟨_, _, _, _, _, hframe⟩ := fopenW_spec fsX fs2 w.now _ hopen
    obtain ⟨hn2, _, _⟩ := putBytes_after_fopenW fsX fs2 w.now _ b hopen
    have hwrite : lookupKey k (do_post env w uri requestHeaders responseHeaders b).fs.nodes =
          lookupKey k fsX.nodes ∨
        ((do_post env w uri requestHeaders responseHeaders b).fs.isDirAt k = true ∧
          (lookupKey k fsX.nodes = none ∨ fsX.isDirAt k = true)) := by
      have h1 : lookupKey k (do_post env w uri requestHeaders responseHeaders b).fs.nodes =
          lookupKey k fs2.nodes := by
        rw [hfs, hn2, lookupKey_setKey_ne _ _ _ _ hk]
      rcases hframe k hk with h2 | ⟨h2, h3⟩
      · exact Or.inl (by rw [h1, h2])
      · refine Or.inr ⟨?_, h3⟩
        unfold FS.isDirAt at h2 ⊢
        rw [h1]
        exact h2
    have hmadefs := hmade k hk
    rcases hX with hX | ⟨d, hX⟩
    · rw [hX] at hwrite
      exact leftAlone_trans w.fs _ _ k hmadefs hwrite
    · have hdirs := mkdirsFrom_frame w.now (pathKey d) []
        ((mkstempsTry w.fs w.now (env.resolveUri uri ++ "/" ++ "XXXX") ext
          (env.resolveUri uri ++ "/" ++ "XXXXXXXXXX" ++ ext) w.candidates).2.getD w.fs) k
      rw [hX] at hwrite
      exact leftAlone_trans w.fs _ _ k (leftAlone_trans w.fs _ _ k hmadefs hdirs) hwrite

/-- Claim C12, witness: Content-type text/plain and the body "hello" sent to "/docs"
give one new ".txt" file of 5 bytes in "content/docs". -/
theorem do_post_creates_member_witness :
    ∃ c ∈ sampleWorld.candidates,
      (do_post sampleEnv sampleWorld "/docs"
          [("Content-Length", "5"), ("Content-type", "text/plain")] [] "hello".data).out =
        [.status Http_Created,
         .headers ([] ++
           [("Location", sampleEnv.resolveUri "/docs" ++ "/" ++ "XXXX" ++ c ++ ".txt")])] ∧
      pathKey (sampleEnv.resolveUri "/docs" ++ "/" ++ "XXXX" ++ c ++ ".txt") =
        pathKey (sampleEnv.resolveUri "/docs") ++ ["XXXX" ++ c ++ ".txt"] ∧
      lookupKey (pathKey (sampleEnv.resolveUri "/docs" ++ "/" ++ "XXXX" ++ c ++ ".txt"))
        sampleWorld.fs.nodes = none ∧
      lookupKey (pathKey (sampleEnv.resolveUri "/docs" ++ "/" ++ "XXXX" ++ c ++ ".txt"))
        (do_post sampleEnv sampleWorld "/docs"
          [("Content-Length", "5"), ("Content-type", "text/plain")] [] "hello".data).fs.nodes =
          some (.reg "hello".data sampleWorld.now true) ∧
      ∀ k, k ≠ pathKey (sampleEnv.resolveUri "/docs" ++ "/" ++ "XXXX" ++ c ++ ".txt") →
        lookupKey k (do_post sampleEnv sampleWorld "/docs"
          [("Content-Length", "5"), ("Content-type", "text/plain")] [] "hello".data).fs.nodes =
          lookupKey k sampleWorld.fs.nodes ∨
        ((do_post sampleEnv sampleWorld "/docs"
            [("Content-Length", "5"), ("Content-type", "text/plain")] []
            "hello".data).fs.isDirAt k = true ∧
          (lookupKey k sampleWorld.fs.nodes = none ∨ sampleWorld.fs.isDirAt k = true)) :=
  do_post_creates_member sampleEnv sampleWorld "/docs"
    [("Content-Length", "5"), ("Content-type", "text/plain")] [] "hello".data ".txt"
    (by decide) (by decide) (by decide) (by decide) ⟨"aaaaaa", by decide, by decide⟩ (by decide)

/-! ## C13: failures while creating -/

/-- Claim C13, counterexample: POST to "/new/coll", a collection that does not exist.
`mkstemps` is called before the directories are made and fails; its result is not
looked at, `mkdirs` and `fopen` then succeed, and the response is 201 Created. -/
theorem do_post_201_after_failed_mkstemps :
    sampleWorld.fs.stat (sampleEnv.resolveUri "/new/coll") = none ∧
    (mkstemps sampleWorld.fs sampleWorld.now sampleWorld.candidates
      "content/new/coll/XXXXXXXXXX.txt" 4).2 = none ∧
    (do_post sampleEnv sampleWorld "/new/coll"
        [("Content-Length", "5"), ("Content-type", "text/plain")] [] "hello".data).ops =
      [.stat "content/new/coll", .mkstemps "content/new/coll/XXXXXXXXXX.txt",
       .mkdirs "content/new/coll", .fopenW "content/new/coll/XXXXaaaaaa.txt"] ∧
    (do_post sampleEnv sampleWorld "/new/coll"
        [("Content-Length", "5"), ("Content-type", "text/plain")] [] "hello".data).out =
      [.status 201, .headers [("Location", "content/new/coll/XXXXaaaaaa.txt")]] := by
  decide

/-- Claim C13, amended: for do_put and do_post with a Content-Length header, whenever
creating the intermediate directories (`mkdirs`) or opening the target file for writing
(`fopen`) fails, the response is 405 Method Not Allowed and nothing else is sent, so
neither 200 nor 201. In do_put the target is the resolved path, an existing regular
file or a path where nothing exists; in do_post it is the name `mkstemps` left in
`filePath`, whose own result plays no part. -/
theorem creation_failure_is_405 (env : Env) (w : World) (uri : String)
    (requestHeaders responseHeaders : Properties) (stream : Bytes) (val : String)
    (made : String × Option FS)
    (hlen : findProperty requestHeaders 0 "Content-Length" = some val)
    (hmade : made = mkstemps w.fs w.now w.candidates
      (env.resolveUri uri ++ "/" ++ "XXXXXXXXXX" ++
        do_post_extension ((findProperty requestHeaders 0 "Content-type").getD w.garbageStr))
      (do_post_extension
        ((findProperty requestHeaders 0 "Content-type").getD w.garbageStr)).length) :
    (∀ sb, w.fs.stat (env.resolveUri uri) = some sb → sb.st_mode = .reg →
      w.fs.fopenW w.now (env.resolveUri uri) = none →
      (do_put env w uri requestHeaders responseHeaders stream).out =
        [.status Http_MethodNotAllowed, .headers responseHeaders]) ∧
    (∀ d, w.fs.stat (env.resolveUri uri) = none → getPath (env.resolveUri uri) = some d →
      ((mkdirs w.fs w.now d).2 = false ∨
        (mkdirs w.fs w.now d).1.fopenW w.now (env.resolveUri uri) = none) →
      (do_put env w uri requestHeaders responseHeaders stream).out =
        [.status Http_MethodNotAllowed, .headers responseHeaders]) ∧
    (∀ sb, w.fs.stat (env.resolveUri uri) = some sb →
      (made.2.getD w.fs).fopenW w.now made.1 = none →
      (do_post env w uri requestHeaders responseHeaders stream).out =
        [.status Http_MethodNotAllowed, .headers responseHeaders]) ∧
    (∀ d, w.fs.stat (env.resolveUri uri) = none → getPath made.1 = some d →
      ((mkdirs (made.2.getD w.fs) w.now d).2 = false ∨
        (mkdirs (made.2.getD w.fs) w.now d).1.fopenW w.now made.1 = none) →
      (do_post env w uri requestHeaders responseHeaders stream).out =
        [.status Http_MethodNotAllowed, .headers responseHeaders]) := by
  refine ⟨?_, ?_, ?_, ?_⟩
  · intro sb hstat hreg hopen
    obtain ⟨hsl, _⟩ := stat_reg w.fs _ sb hstat hreg
    simp [do_put, hlen, hstat, hreg, hopen, sendStatusResponse]
  · intro d hstat hd hfail
    by_cases hmk : (mkdirs w.fs w.now d).2 = false
    · simp [do_put, hlen, hstat, hd, hmk, sendStatusResponse]
    · rcases hfail with h | h
      · exact absurd h hmk
      · simp [do_put, hlen, hstat, hd, hmk, h, sendStatusResponse]
  · intro sb hstat hopen
    cases hct : findProperty requestHeaders 0 "Content-type"
    all_goals
      rw [hct] at hmade
      simp only [Option.getD_some, Option.getD_none] at hmade
      by_cases h1 : sb.st_mode = .dir
      · by_cases h2 : strendswith (env.resolveUri uri) "/" = true
        · simp [do_post, hlen, hstat, h1, h2, sendStatusResponse]
        · simp [do_post, hlen, hct, hstat, h1, h2, ← hmade, hopen, sendStatusResponse]
      · simp [do_post, hlen, hstat, h1, sendStatusResponse]
  · intro d hstat hd hfail
    cases hct : findProperty requestHeaders 0 "Content-type"
    all_goals
      rw [hct] at hmade
      simp only [Option.getD_some, Option.getD_none] at hmade
      by_cases h2 : strendswith (env.resolveUri uri) "/" = true
      · simp [do_post, hlen, hstat, h2, sendStatusResponse]
      · by_cases hmk : (mkdirs (made.2.getD w.fs) w.now d).2 = false
        · simp [do_post, hlen, hct, hstat, h2, ← hmade, hd, hmk, sendStatusResponse]
        · rcases hfail with h | h
          · exact absurd h hmk
          · simp [do_post, hlen, hct, hstat, h2, ← hmade, hd, hmk, h, sendStatusResponse]

/-- Claim C13, witness: PUT below a regular file (`mkdirs` fails), PUT to a new path
that ends in "/" (`fopen` fails), POST to a collection that cannot be written to
(`fopen` fails) and POST below a regular file (`mkdirs` fails) all answer 405. -/
theorem creation_failure_is_405_witness :
    (do_put sampleEnv sampleWorld "/a.txt/b" [("Content-Length", "5")] [] "hello".data).out =
      [.status Http_MethodNotAllowed, .headers []] ∧
    (do_put sampleEnv sampleWorld "/newdir/" [("Content-Length", "5")] [] "hello".data).out =
      [.status Http_MethodNotAllowed, .headers []] ∧
    (do_post sampleEnv sampleReadOnlyWorld "/." [("Content-Length", "5")] [] "hello".data).out =
      [.status Http_MethodNotAllowed, .headers []] ∧
    (do_post sampleEnv sampleWorld "/a.txt/c" [("Content-Length", "5")] [] "hello".data).out =
      [.status Http_MethodNotAllowed, .headers []] :=
  ⟨(creation_failure_is_405 sampleEnv sampleWorld "/a.txt/b" [("Content-Length", "5")] []
      "hello".data "5" _ (by decide) rfl).2.1 "content/a.txt" (by decide) (by decide)
      (Or.inl (by decide)),
   (creation_failure_is_405 sampleEnv sampleWorld "/newdir/" [("Content-Length", "5")] []
      "hello".data "5" _ (by decide) rfl).2.1 "content/newdir" (by decide) (by decide)
      (Or.inr (by decide)),
   (creation_failure_is_405 sampleEnv sampleReadOnlyWorld "/." [("Content-Length", "5")] []
      "hello".data "5" _ (by decide) rfl).2.2.1
      { st_mode := .dir, st_size := 0, st_mtime := 2 } (by decide) (by decide),
   (creation_failure_is_405 sampleEnv sampleWorld "/a.txt/c" [("Content-Length", "5")] []
      "hello".data "5" _ (by decide) rfl).2.2.2 "content/a.txt/c" (by decide) (by decide)
      (Or.inl (by decide))⟩

/-! ## Facts about `readMediaTypes` -/

/-- Counting in an `int` stays exact below 2^31. -/
theorem iterate_toInt32 (k n : Nat) (h : n + k < 2 ^ 31) :
    (fun z : Int => toInt32 (z + 1))^[k] (n : Int) = ((n + k : Nat) : Int) := by
  induction k generalizing n with
  | zero => rfl
  | succ k ih =>
    rw [Function.iterate_succ_apply]
    have h1 : toInt32 ((n : Int) + 1) = ((n + 1 : Nat) : Int) := by
      have h2 := toInt32_small (n + 1) (by omega)
      rw [Nat.cast_add, Nat.cast_one] at h2
      rw [h2, Nat.cast_add, Nat.cast_one]
    have h3 : n + 1 + k = n + (k + 1) := by omega
    rw [h1, ih (n + 1) (by omega), h3]

/-- The function `trim_newline` cuts what `dropLineEnd` cuts. -/
theorem trim_newline_eq_dropLineEnd (l : List Char) : trim_newline l = dropLineEnd l := by
  rcases List.eq_nil_or_concat l with rfl | ⟨l1, a, rfl⟩
  · rfl
  · by_cases ha : a = '\n'
    · subst ha
      rcases List.eq_nil_or_concat l1 with rfl | ⟨l2, b, rfl⟩
      · rfl
      · by_cases hb : b = '\r'
        · subst hb
          simp [trim_newline, dropLineEnd]
        · simp [trim_newline, dropLineEnd, hb]
    · simp [trim_newline, dropLineEnd, ha]

/-- A text without a newline is left as it is by `trim_newline`. -/
theorem trim_newline_of_no_newline (l : List Char) (h : ∀ c ∈ l, c ≠ '\n') :
    trim_newline l = l := by
  unfold trim_newline
  rw [if_neg]
  intro hlast
  exact h _ (List.mem_of_getLast?_eq_some hlast) rfl

/-- What `splitAtTab` finds: nothing when the text has no tab, else the text before
the first tab and the text after it. -/
theorem splitAtTab_spec (buf : List Char) :
    (splitAtTab buf = none ∧ '\t' ∉ buf) ∨
    ('\t' ∈ buf ∧ splitAtTab buf =
      some (buf.takeWhile (fun c => c != '\t'), (buf.dropWhile (fun c => c != '\t')).drop 1)) := by
  induction buf with
  | nil => exact Or.inl ⟨rfl, by simp⟩
  | cons c cs ih =>
    by_cases hc : c = '\t'
    · right
      subst hc
      exact ⟨by simp, by simp [splitAtTab]⟩
    · rcases ih with ⟨h1, h2⟩ | ⟨h1, h2⟩
      · left
        exact ⟨by simp [splitAtTab, hc, h1], by simp [Ne.symm hc, h2]⟩
      · right
        refine ⟨List.mem_cons_of_mem _ h1, ?_⟩
        simp [splitAtTab, hc, h2]

/-- The spaces skipped before the first token make no token. -/
theorem splitOn_dropWhile_space (s : List Char) :
    (s.splitOn ' ').filter (fun e => decide (e ≠ [])) =
      ((s.dropWhile (fun c => c == ' ')).splitOn ' ').filter (fun e => decide (e ≠ [])) := by
  induction s with
  | nil => rfl
  | cons c cs ih =>
    by_cases hc : c = ' '
    · subst hc
      rw [List.dropWhile_cons_of_pos (by simp), ← ih]
      simp [List.splitOn, List.splitOnP_cons]
    · rw [List.dropWhile_cons_of_neg (by simpa using hc)]

/-- The tokens `strtok` finds are the space-separated pieces that are not empty: the
inner loop of `readMediaTypes` puts one entry for each, in order, and counts them. -/
theorem readMediaTypes_tokens_spec (type : String) (n : Nat) :
    ∀ (s : List Char) (fuel : Nat) (st : Int × Properties), s.length ≤ n → s.length < fuel →
      (∀ c ∈ s, c ≠ '\n') →
      readMediaTypes_tokens type fuel s st =
        ((fun z : Int => toInt32 (z + 1))^[((s.splitOn ' ').filter
            (fun e => decide (e ≠ []))).length] st.1,
          st.2 ++ ((s.splitOn ' ').filter (fun e => decide (e ≠ []))).map
            (fun e => (String.mk (e.dropWhile (fun c => c == '\t')), type))) := by
  induction n with
  | zero =>
    intro s fuel st hn hfuel _
    have hs : s = [] := List.eq_nil_of_length_eq_zero (by omega)
    subst hs
    obtain ⟨f, rfl⟩ : ∃ f, fuel = f + 1 := ⟨fuel - 1, by simp at hfuel; omega⟩
    simp [readMediaTypes_tokens, strtok, List.splitOn, List.splitOnP_nil]
  | succ n ih =>
    intro s fuel st hn hfuel hnl
    obtain ⟨f, rfl⟩ : ∃ f, fuel = f + 1 := ⟨fuel - 1, by omega⟩
    rw [splitOn_dropWhile_space s]
    unfold readMediaTypes_tokens strtok
    have hsub : ∀ c ∈ s.dropWhile (fun c => c == ' '), c ∈ s :=
      fun c hc => (List.dropWhile_sublist _).subset hc
    have hlen : (s.dropWhile (fun c => c == ' ')).length ≤ s.length :=
      (List.dropWhile_sublist _).length_le
    cases hs1 : s.dropWhile (fun c => c == ' ') with
    | nil => simp [List.splitOn, List.splitOnP_nil]
    | cons c cs =>
      simp only []
      rw [hs1] at hsub hlen
      have htok : ∀ x ∈ (c :: cs).takeWhile (fun x => x != ' '), x ≠ '\n' ∧ x ≠ ' ' := by
        intro x hx
        refine ⟨hnl x (hsub x ((List.takeWhile_sublist _).subset hx)), ?_⟩
        have := List.mem_takeWhile_imp hx
        simpa using this
      have hc : c ≠ ' ' := by
        have h0 : (c :: cs).head? = some c := rfl
        have := List.head_dropWhile_not (fun c => c == ' ') s
        intro heq
        rw [hs1] at this
        simp [heq] at this
      have htokne : (c :: cs).takeWhile (fun x => x != ' ') ≠ [] := by
        rw [List.takeWhile_cons_of_pos (by simpa using hc)]
        simp
      have htrim : trim_newline ((c :: cs).takeWhile (fun x => x != ' ')) =
          (c :: cs).takeWhile (fun x => x != ' ') :=
        trim_newline_of_no_newline _ (fun x hx => (htok x hx).1)
      rw [htrim]
      have hsplit := List.takeWhile_append_dropWhile (fun x => x != ' ') (c :: cs)
      cases htail : (c :: cs).dropWhile (fun x => x != ' ') with
      | nil =>
        rw [htail, List.append_nil] at hsplit
        have hone : (c :: cs).splitOn ' ' = [(c :: cs)] := by
          apply List.splitOnP_eq_single
          intro x hx
          rw [← hsplit] at hx
          simpa using (htok x hx).2
        rw [hone, hsplit]
        obtain ⟨f2, rfl⟩ | hf : (∃ f2, f = f2 + 1) ∨ f = 0 := by
          rcases f with _ | f2
          · exact Or.inr rfl
          · exact Or.inl ⟨f2, rfl⟩
        · simp [readMediaTypes_tokens, strtok, trim_tabs, putProperty]
        · subst hf
          simp [readMediaTypes_tokens, trim_tabs, putProperty]
      | cons sp rest =>
        have hsp : sp = ' ' := by
          have := List.head_dropWhile_not (fun x => x != ' ') (c :: cs)
          rw [htail] at this
          simpa using this
        subst hsp
        rw [htail] at hsplit
        have hrestlen : rest.length < (c :: cs).length := by
          rw [← hsplit]
          simp only [List.length_append, List.length_cons]
          omega
        have hrestnl : ∀ x ∈ rest, x ≠ '\n' := by
          intro x hx
          apply hnl x (hsub x _)
          rw [← hsplit]
          simp [hx]
        have hfirst : (c :: cs).splitOn ' ' =
            (c :: cs).takeWhile (fun x => x != ' ') :: rest.splitOn ' ' := by
          conv_lhs => rw [← hsplit]
          apply List.splitOnP_first
          · intro x hx
            simpa using (htok x hx).2
          · simp
        rw [hfirst, List.filter_cons_of_pos (by simpa using htokne)]
        simp only [List.drop_succ_cons, List.drop_zero, List.length_cons, List.map_cons]
        rw [ih rest f _ (by omega) (by omega) hrestnl]
        simp [Function.iterate_succ_apply, putProperty, trim_tabs]

/-- What `trim_newline` leaves holds no newline when only the last character could be
one. -/
theorem trim_newline_no_newline (l : List Char) (h : ∀ c ∈ l.dropLast, c ≠ '\n') :
    (∀ c ∈ trim_newline l, c ≠ '\n') ∧ (trim_newline l).length ≤ l.length := by
  rcases List.eq_nil_or_concat l with rfl | ⟨l1, a, hl⟩
  · exact ⟨by simp [trim_newline], by simp [trim_newline]⟩
  · rw [List.concat_eq_append] at hl
    subst hl
    rw [List.dropLast_concat] at h
    by_cases ha : a = '\n'
    · subst ha
      unfold trim_newline
      simp only [List.getLast?_concat, if_true, List.dropLast_concat]
      split
      · exact ⟨fun c hc => h c ((List.dropLast_sublist _).subset hc), by
          simp only [List.length_dropLast, List.length_append, List.length_singleton]
          omega⟩
      · exact ⟨h, by simp⟩
    · unfold trim_newline
      rw [List.getLast?_concat, if_neg (by simpa using ha)]
      refine ⟨?_, le_refl _⟩
      intro c hc
      rcases List.mem_append.mp hc with h1 | h1
      · exact h c h1
      · simp only [List.mem_singleton] at h1
        rw [h1]
        exact ha

/-- The text after the first tab of a line has a newline at most as its last
character, when the line has. -/
theorem dropLast_after_tab (buf : List Char) (h : ∀ c ∈ buf.dropLast, c ≠ '\n') :
    ∀ c ∈ ((buf.dropWhile (fun c => c != '\t')).drop 1).dropLast, c ≠ '\n' := by
  intro c hc
  by_cases hv : (buf.dropWhile (fun c => c != '\t')).drop 1 = []
  · rw [hv] at hc
    simp at hc
  · apply h c
    have h1 : buf = (buf.takeWhile (fun c => c != '\t') ++
        (buf.dropWhile (fun c => c != '\t')).take 1) ++
        (buf.dropWhile (fun c => c != '\t')).drop 1 := by
      rw [List.append_assoc, List.take_append_drop, List.takeWhile_append_dropWhile]
    rw [h1, List.dropLast_append_of_ne_nil _ hv]
    exact List.mem_append_right _ hc

/-- One pass of the outer loop of `readMediaTypes` adds the entries the specification
names for the line, and counts them. -/
theorem readMediaTypes_line_spec (buf : List Char) (st : Int × Properties)
    (h : ∀ c ∈ buf.dropLast, c ≠ '\n') :
    readMediaTypes_line buf st =
      ((fun z : Int => toInt32 (z + 1))^[(specLineEntries buf).length] st.1,
        st.2 ++ specLineEntries buf) := by
  unfold readMediaTypes_line specLineEntries
  by_cases hhash : buf.head? = some '#'
  · simp [hhash]
  · rcases splitAtTab_spec buf with ⟨h1, h2⟩ | ⟨h1, h2⟩
    · simp [hhash, h1, h2]
    · have hcond : ¬ (buf.head? = some '#' ∨ '\t' ∉ buf) := by
        simp [hhash, h1]
      rw [if_neg hhash, if_neg hcond, h2]
      simp only []
      obtain ⟨hnl, hlen⟩ := trim_newline_no_newline _ (dropLast_after_tab buf h)
      rw [readMediaTypes_tokens_spec _ _ _ _ st (le_refl _) (by omega) hnl,
        trim_newline_eq_dropLineEnd]
      simp

/-- The lines of a text that is not empty: the first line is not empty, `fgets` reads
it when it has room for it, and the lines that follow are those of the rest. -/
theorem textLines_cons (text : List Char) (hne : text ≠ []) :
    ∃ l rest, textLines text = l :: textLines rest ∧ l ≠ [] ∧
      rest.length < text.length ∧
      ∀ room, l.length ≤ room → fgets room text = (l, rest) := by
  induction text with
  | nil => exact absurd rfl hne
  | cons c cs ih =>
    by_cases hc : c = '\n'
    · subst hc
      refine ⟨['\n'], cs, by simp [textLines], by simp, by simp, ?_⟩
      intro room hroom
      obtain ⟨r, rfl⟩ : ∃ r, room = r + 1 := ⟨room - 1, by simp at hroom; omega⟩
      simp [fgets]
    · by_cases hcs : cs = []
      · subst hcs
        refine ⟨[c], [], by simp [textLines, hc], by simp, by simp, ?_⟩
        intro room hroom
        obtain ⟨r, rfl⟩ : ∃ r, room = r + 1 := ⟨room - 1, by simp at hroom; omega⟩
        cases r <;> simp [fgets, hc]
      · obtain ⟨l, rest, h1, h2, h3, h4⟩ := ih hcs
        refine ⟨c :: l, rest, by simp [textLines, hc, h1], by simp, by simp; omega, ?_⟩
        intro room hroom
        obtain ⟨r, rfl⟩ : ∃ r, room = r + 1 := ⟨room - 1, by simp at hroom; omega⟩
        have := h4 r (by simpa using hroom)
        simp [fgets, hc, this]

/-- In a line, only the last character can be a newline. -/
theorem textLines_inner (text : List Char) :
    ∀ l ∈ textLines text, ∀ c ∈ l.dropLast, c ≠ '\n' := by
  induction text with
  | nil => simp [textLines]
  | cons c cs ih =>
    by_cases hc : c = '\n'
    · intro l hl
      simp only [textLines, hc, if_true, List.mem_cons] at hl
      rcases hl with rfl | hl
      · simp
      · exact ih l hl
    · intro l hl
      simp only [textLines, hc, if_false] at hl
      cases hcs : textLines cs with
      | nil =>
        rw [hcs] at hl
        simp only [List.mem_singleton] at hl
        subst hl
        simp
      | cons l1 ls =>
        rw [hcs] at hl ih
        simp only [List.mem_cons] at hl
        rcases hl with rfl | hl
        · intro x hx
          rcases List.eq_nil_or_concat l1 with rfl | ⟨l2, a, hl1⟩
          · simp at hx
          · rw [List.concat_eq_append] at hl1
            subst hl1
            have hd : (c :: (l2 ++ [a])).dropLast = c :: l2 := by
              rw [← List.cons_append, List.dropLast_concat]
            rw [hd] at hx
            rcases List.mem_cons.mp hx with rfl | hx2
            · exact hc
            · apply ih (l2 ++ [a]) (List.mem_cons_self _ _) x
              rw [List.dropLast_concat]
              exact hx2
        · exact ih l (List.mem_cons_of_mem _ hl)

/-- When every line fits the buffer, the outer loop of `readMediaTypes` runs its body
once for each line of the text, in order. -/
theorem readMediaTypes_lines_spec (MAXBUF : Nat) (n : Nat) :
    ∀ (text : List Char) (fuel : Nat) (st : Int × Properties), text.length ≤ n →
      text.length < fuel → (∀ l ∈ textLines text, l.length < MAXBUF) →
      readMediaTypes_lines MAXBUF fuel text st =
        (textLines text).foldl (fun acc l => readMediaTypes_line l acc) st := by
  induction n with
  | zero =>
    intro text fuel st hn hfuel _
    have hs : text = [] := List.eq_nil_of_length_eq_zero (by omega)
    subst hs
    obtain ⟨f, rfl⟩ : ∃ f, fuel = f + 1 := ⟨fuel - 1, by simp at hfuel; omega⟩
    simp [readMediaTypes_lines, textLines]
  | succ n ih =>
    intro text fuel st hn hfuel hfit
    obtain ⟨f, rfl⟩ : ∃ f, fuel = f + 1 := ⟨fuel - 1, by omega⟩
    cases htext : text with
    | nil => simp [readMediaTypes_lines, textLines]
    | cons c cs =>
      obtain ⟨l, rest, h1, h2, h3, h4⟩ := textLines_cons text (by simp [htext])
      rw [← htext, h1]
      rw [h1] at hfit
      have hl : l.length < MAXBUF := hfit l (List.mem_cons_self _ _)
      have hget := h4 (MAXBUF - 1) (by omega)
      have hrest : ∀ l2 ∈ textLines rest, l2.length < MAXBUF :=
        fun l2 hl2 => hfit l2 (List.mem_cons_of_mem _ hl2)
      rw [List.foldl_cons, ← ih rest f _ (by omega) (by omega) hrest]
      rw [htext] at hget ⊢
      simp [readMediaTypes_lines, hget]

/-- Running the body of the outer loop over lines adds the entries the specification
names for them, in order, and counts them. -/
theorem readMediaTypes_fold_spec (lines : List (List Char)) (st : Int × Properties)
    (h : ∀ l ∈ lines, ∀ c ∈ l.dropLast, c ≠ '\n') :
    lines.foldl (fun acc l => readMediaTypes_line l acc) st =
      ((fun z : Int => toInt32 (z + 1))^[(lines.flatMap specLineEntries).length] st.1,
        st.2 ++ lines.flatMap specLineEntries) := by
  induction lines generalizing st with
  | nil => simp
  | cons l ls ih =>
    rw [List.foldl_cons, readMediaTypes_line_spec l st (h l (List.mem_cons_self _ _)),
      ih _ (fun l2 hl2 => h l2 (List.mem_cons_of_mem _ hl2))]
    simp only [List.flatMap_cons, List.length_append, List.append_assoc]
    rw [Nat.add_comm, Function.iterate_add_apply]

/-- With room for them, `fgets` reads characters that hold no newline and stops where
its room ends. -/
theorem fgets_prefix (pre rest : List Char) (h : ∀ c ∈ pre, c ≠ '\n') :
    fgets pre.length (pre ++ rest) = (pre, rest) := by
  induction pre with
  | nil => cases rest <;> rfl
  | cons c cs ih =>
    have hc : c ≠ '\n' := h c (List.mem_cons_self _ _)
    have := ih (fun x hx => h x (List.mem_cons_of_mem _ hx))
    simp [fgets, hc, this]

/-- Characters that hold no newline, put before a text that is not empty, lengthen its
first line. -/
theorem textLines_prefix (pre : List Char) (l : List Char) (ls : List (List Char))
    (rest : List Char) (h : ∀ c ∈ pre, c ≠ '\n') (hrest : textLines rest = l :: ls) :
    textLines (pre ++ rest) = (pre ++ l) :: ls := by
  induction pre with
  | nil => simpa using hrest
  | cons c cs ih =>
    have hc : c ≠ '\n' := h c (List.mem_cons_self _ _)
    have := ih (fun x hx => h x (List.mem_cons_of_mem _ hx))
    simp [textLines, hc, this]

/-- A line longer than the buffer is read in pieces: for every buffer size
`MAXBUF = n + 5`, a table of one line that begins with '#', goes on for `n + 3` more
characters and then reads "a", a tab, "b". `fgets` returns its first `MAXBUF - 1`
characters, and the second call returns the rest, which does not begin with '#' and has
a tab: `readMediaTypes` returns 1 and the store holds "b" -> "a", while the line, which
begins with '#', has no entry in `mediaTypesSpec`. -/
theorem readMediaTypes_splits_long_line (n : Nat) :
    readMediaTypes (n + 5) (some ('#' :: List.replicate (n + 3) 'x' ++ "a\tb\n".data)) =
      (1, [("b", "a")]) ∧
    textLines ('#' :: List.replicate (n + 3) 'x' ++ "a\tb\n".data) =
      [ '#' :: List.replicate (n + 3) 'x' ++ "a\tb\n".data] ∧
    mediaTypesSpec ('#' :: List.replicate (n + 3) 'x' ++ "a\tb\n".data) = [] := by
  have hpre : ∀ c ∈ '#' :: List.replicate (n + 3) 'x', c ≠ '\n' := by
    intro c hc
    rcases List.mem_cons.mp hc with rfl | hc
    · decide
    · rw [List.eq_of_mem_replicate hc]
      decide
  have hlen : ('#' :: List.replicate (n + 3) 'x').length = n + 4 := by simp
  have hget := fgets_prefix _ "a\tb\n".data hpre
  rw [hlen] at hget
  have hlines : textLines ('#' :: List.replicate (n + 3) 'x' ++ "a\tb\n".data) =
      [ '#' :: List.replicate (n + 3) 'x' ++ "a\tb\n".data] :=
    textLines_prefix _ "a\tb\n".data [] "a\tb\n".data hpre (by decide)
  refine ⟨?_, hlines, ?_⟩
  · unfold readMediaTypes
    simp only []
    have hfuel : ('#' :: List.replicate (n + 3) 'x' ++ "a\tb\n".data).length + 1 =
        (n + 8) + 1 := by
      simp
    rw [hfuel]
    have hstep : readMediaTypes_lines (n + 5) (n + 8 + 1)
        ('#' :: List.replicate (n + 3) 'x' ++ "a\tb\n".data) (0, []) =
        readMediaTypes_lines (n + 5) (n + 8) "a\tb\n".data (0, []) := by
      rw [List.cons_append, readMediaTypes_lines]
      show readMediaTypes_lines (n + 5) (n + 8)
        (fgets (n + 4) ('#' :: List.replicate (n + 3) 'x' ++ "a\tb\n".data)).2
        (readMediaTypes_line
          (fgets (n + 4) ('#' :: List.replicate (n + 3) 'x' ++ "a\tb\n".data)).1 (0, [])) = _
      rw [hget]
      simp [readMediaTypes_line]
    rw [hstep, readMediaTypes_lines_spec (n + 5) 4 "a\tb\n".data (n + 8) (0, [])
      (by decide) (by simp)]
    · decide
    · intro l hl
      have h4 : textLines "a\tb\n".data = ["a\tb\n".data] := by decide
      rw [h4] at hl
      simp only [List.mem_singleton] at hl
      subst hl
      simp
  · unfold mediaTypesSpec
    rw [hlines]
    simp [specLineEntries]

/-! ## C14: the media-type table -/

/-- Claim C14, counterexample: with a buffer of 4096 characters, a table of one line of
4099 characters that begins with '#' and ends "a", tab, "b", newline. The line begins
with '#', so the claim gives it no entry and a result of 0; `fgets` returns its first
4095 characters, and the second call returns "a", tab, "b", newline, which does not
begin with '#' and has a tab: readMediaTypes returns 1 and the store holds
"b" -> "a". -/
theorem readMediaTypes_long_comment_line :
    readMediaTypes 4096 (some ('#' :: List.replicate 4094 'x' ++ "a\tb\n".data)) =
      (1, [("b", "a")]) ∧
    textLines ('#' :: List.replicate 4094 'x' ++ "a\tb\n".data) =
      [ '#' :: List.replicate 4094 'x' ++ "a\tb\n".data] ∧
    mediaTypesSpec ('#' :: List.replicate 4094 'x' ++ "a\tb\n".data) = [] :=
  readMediaTypes_splits_long_line 4091

/-- Claim C14, amended: for every media-type table text without a NUL character, whose
lines (newline included) are each shorter than `MAXBUF` characters and whose extensions
are each shorter than 99 characters (the buffer of `trim_tabs`), and with fewer than
2^31 entries, readMediaTypes builds a fresh store holding exactly the entries of
`mediaTypesSpec`: in file order, one (extension -> type) entry for each space-separated
extension that follows the first tab of each line that does not begin with '#' and
contains a tab, the type being the text before that tab and the extension having its
leading tabs and the line's trailing newline removed; other lines contribute nothing;
the value returned is the number of entries, and it is -1 when the file cannot be
opened. The proof does not use the first and third hypotheses: they mark the texts on
which the C code has the behaviour the definitions give it. -/
theorem readMediaTypes_refines (MAXBUF : Nat) (text : Bytes)
    (hnul : ∀ c ∈ text, c ≠ Char.ofNat 0)
    (hlines : ∀ l ∈ textLines text, l.length < MAXBUF)
    (hext : ∀ e ∈ mediaTypesSpec text, e.1.length < 99)
    (hsize : (mediaTypesSpec text).length < 2 ^ 31) :
    readMediaTypes MAXBUF (some text) =
      (((mediaTypesSpec text).length : Int), mediaTypesSpec text) ∧
    readMediaTypes MAXBUF none = (-1, []) := by
  refine ⟨?_, rfl⟩
  unfold readMediaTypes
  simp only []
  rw [readMediaTypes_lines_spec MAXBUF text.length text _ _ (le_refl _) (by omega) hlines,
    readMediaTypes_fold_spec _ _ (textLines_inner text)]
  have := iterate_toInt32 (mediaTypesSpec text).length 0 (by simpa using hsize)
  simp only [mediaTypesSpec] at this ⊢
  simp only [Nat.cast_zero] at this
  rw [this]
  simp

/-- Claim C14, witness: a table with a comment, a line without a tab, and two lines that
give two and three entries, read with a buffer of 4096. -/
theorem readMediaTypes_refines_witness :
    ((∀ c ∈ "# types\ntext/html\thtml htm\nnone\nimage/jpeg\t\tjpeg jpg  jpe\r\n".data,
        c ≠ Char.ofNat 0) ∧
      (∀ l ∈ textLines "# types\ntext/html\thtml htm\nnone\nimage/jpeg\t\tjpeg jpg  jpe\r\n".data,
        l.length < 4096) ∧
      (∀ e ∈ mediaTypesSpec "# types\ntext/html\thtml htm\nnone\nimage/jpeg\t\tjpeg jpg  jpe\r\n".data,
        e.1.length < 99) ∧
      (mediaTypesSpec
        "# types\ntext/html\thtml htm\nnone\nimage/jpeg\t\tjpeg jpg  jpe\r\n".data).length
          < 2 ^ 31) ∧
    mediaTypesSpec "# types\ntext/html\thtml htm\nnone\nimage/jpeg\t\tjpeg jpg  jpe\r\n".data =
      [("html", "text/html"), ("htm", "text/html"), ("jpeg", "image/jpeg"),
        ("jpg", "image/jpeg"), ("jpe", "image/jpeg")] ∧
    (readMediaTypes 4096
        (some "# types\ntext/html\thtml htm\nnone\nimage/jpeg\t\tjpeg jpg  jpe\r\n".data) =
      (((mediaTypesSpec
          "# types\ntext/html\thtml htm\nnone\nimage/jpeg\t\tjpeg jpg  jpe\r\n".data).length : Int),
        mediaTypesSpec
          "# types\ntext/html\thtml htm\nnone\nimage/jpeg\t\tjpeg jpg  jpe\r\n".data) ∧
      readMediaTypes 4096 none = (-1, [])) :=
  ⟨⟨by decide, by decide, by decide, by decide⟩, by decide,
    readMediaTypes_refines 4096 _ (by decide) (by decide) (by decide) (by decide)⟩

/-! ## C16: the footer of the listing -/

/-- Claim C16: for every directory and URI, a listing that `listing_directories` writes
is the header followed, for each listed row in order, by the text of the row and right
after it the footer (the final rule row, `</body>` and `</html>`), which is printed
inside the entry loop: a listing with n rows holds exactly n footers, each right after
its row, n being the number of entries that are not skipped. A listing with no rows, as
for a directory without entries at URI "/", is the header only, and the header for "/"
does not contain `</html>`, which the footer does; a listing with rows ends with a
footer, and it holds exactly one footer only when n = 1. A row is given as its link,
name, time, size and file type. -/
theorem listing_footer_after_each_row (env : Env) (w : World) (pathDir uri : String)
    (chunks : List Chunk)
    (hlisting : (listing_directories env w pathDir uri).1 = .file chunks) :
    ∃ (entries : List String) (rows : List (String × String × String × Nat × String)),
      w.fs.opendir pathDir = some entries ∧
      rows.length =
        (entries.filter (fun d => decide (d ≠ "." ∧ ¬ (d = ".." ∧ uri = "/")))).length ∧
      chunks = .htmlFirst uri :: rows.flatMap (fun r =>
        [Chunk.htmlEntry r.1 r.2.1 r.2.2.1 r.2.2.2.1 r.2.2.2.2, Chunk.htmlLast]) ∧
      renderChunks chunks =
        ("<html>\n" ++
         "<head><title>index of " ++ uri ++ "</title></head>\n" ++
         "<body>\n" ++
         "<h1>Index of " ++ uri ++ "</h1>\n" ++
         "<table>\n" ++
         "<tr>\n" ++
         "<th valign=\"top\"></th>\n" ++
         "<th>Name</th>\n" ++
         "<th>Last modified</th>\n" ++
         "<th>Size</th>\n" ++
         "<th>Description (file type)</th>\n" ++
         "</tr>\n" ++
         "<tr>\n" ++
         "<td colspan=\"5\"><hr></td>\n" ++
         "</tr>\n").data ++
        rows.flatMap (fun r =>
          ("<tr>\n" ++
           "<td></td>\n" ++
           "<td><a href=\"" ++ r.1 ++ "\">" ++ r.2.1 ++ "</a></td>\n" ++
           "<td align=\"right\">" ++ r.2.2.1 ++ "</td>\n" ++
           "<td align=\"right\">" ++ fmtLu r.2.2.2.1 ++ "</td>\n" ++
           "<td align=\"right\">" ++ r.2.2.2.2 ++ "</td>\n" ++
           "<td></td>\n" ++
           "</tr>\n").data ++
          ("<tr><td colspan=\"5\"><hr></td></tr>\n" ++
           "</body>\n" ++
           "</html>\n").data) ∧
      chunks.count Chunk.htmlLast = rows.length ∧
      (rows = [] → renderChunks chunks =
        ("<html>\n" ++
         "<head><title>index of " ++ uri ++ "</title></head>\n" ++
         "<body>\n" ++
         "<h1>Index of " ++ uri ++ "</h1>\n" ++
         "<table>\n" ++
         "<tr>\n" ++
         "<th valign=\"top\"></th>\n" ++
         "<th>Name</th>\n" ++
         "<th>Last modified</th>\n" ++
         "<th>Size</th>\n" ++
         "<th>Description (file type)</th>\n" ++
         "</tr>\n" ++
         "<tr>\n" ++
         "<td colspan=\"5\"><hr></td>\n" ++
         "</tr>\n").data) ∧
      (uri = "/" → (∀ d ∈ entries, d = "." ∨ d = "..") → rows = []) ∧
      (rows ≠ [] → ∃ front, renderChunks chunks = front ++
        ("<tr><td colspan=\"5\"><hr></td></tr>\n" ++
         "</body>\n" ++
         "</html>\n").data) ∧
      (chunks.count Chunk.htmlLast = 1 ↔ rows.length = 1) ∧
      "</html>".data <:+:
        ("<tr><td colspan=\"5\"><hr></td></tr>\n" ++
         "</body>\n" ++
         "</html>\n").data ∧
      ¬ ("</html>".data <:+:
        ("<html>\n" ++
         "<head><title>index of " ++ "/" ++ "</title></head>\n" ++
         "<body>\n" ++
         "<h1>Index of " ++ "/" ++ "</h1>\n" ++
         "<table>\n" ++
         "<tr>\n" ++
         "<th valign=\"top\"></th>\n" ++
         "<th>Name</th>\n" ++
         "<th>Last modified</th>\n" ++
         "<th>Size</th>\n" ++
         "<th>Description (file type)</th>\n" ++
         "</tr>\n" ++
         "<tr>\n" ++
         "<td colspan=\"5\"><hr></td>\n" ++
         "</tr>\n").data) := by
  obtain ⟨htmp, entries, hopen⟩ := listing_directories_file_inv env w pathDir uri chunks hlisting
  have hfile := listing_directories_file env w pathDir uri entries htmp hopen
  rw [hlisting] at hfile
  simp only [Listing.file.injEq] at hfile
  obtain ⟨rows, hchunks, hnames⟩ := listing_entry_rows env w.fs pathDir uri entries
    { sb := w.garbageStat, entryMode := w.garbageStr, chunks := [.htmlFirst uri], ops := [] }
  rw [← hfile] at hchunks
  have hshape : chunks = .htmlFirst uri :: rows.flatMap (fun r =>
      [Chunk.htmlEntry r.1 r.2.1 r.2.2.1 r.2.2.2.1 r.2.2.2.2, Chunk.htmlLast]) := by
    simpa using hchunks
  have hlen : rows.length =
      (entries.filter (fun d => decide (d ≠ "." ∧ ¬ (d = ".." ∧ uri = "/")))).length := by
    have := congrArg List.length hnames
    simpa using this
  have hrender := renderChunks_rows uri rows
  rw [← hshape] at hrender
  have hcount : chunks.count Chunk.htmlLast = rows.length := by
    rw [hshape, List.count_cons_of_ne (by simp), count_footers]
  refine ⟨entries, rows, hopen, hlen, hshape, hrender, hcount, ?_, ?_, ?_, ?_, ?_, ?_⟩
  · intro hrows
    rw [hrender, hrows, List.flatMap_nil, List.append_nil]
    rfl
  · intro huri hdots
    apply List.eq_nil_of_length_eq_zero
    rw [hlen, List.length_eq_zero, List.filter_eq_nil_iff]
    intro d hd
    rcases hdots d hd with h | h
    · simp [h]
    · simp [h, huri]
  · intro hne
    obtain ⟨init, last, hsplit⟩ : ∃ init last, rows = init ++ [last] :=
      ⟨rows.dropLast, rows.getLast hne, (List.dropLast_append_getLast hne).symm⟩
    rw [hrender, hsplit]
    refine ⟨(Chunk.render (.htmlFirst uri)).data ++ init.flatMap (fun r =>
        (Chunk.render (.htmlEntry r.1 r.2.1 r.2.2.1 r.2.2.2.1 r.2.2.2.2)).data ++
          (Chunk.render .htmlLast).data) ++
        (Chunk.render (.htmlEntry last.1 last.2.1 last.2.2.1 last.2.2.2.1 last.2.2.2.2)).data,
      ?_⟩
    simp only [List.flatMap_append, List.flatMap_cons, List.flatMap_nil, List.append_nil,
      List.append_assoc]
    rfl
  · rw [hcount]
  · decide
  · set_option maxRecDepth 100000 in decide

/-- Claim C16 at the listing of "content/open/" for the URI "/open/", which has the two
rows x and Parent Directory and two footers, and so does not end with the only
footer. -/
theorem listing_footer_after_each_row_witness :
    (∃ chunks, (listing_directories sampleEnv sampleLockedWorld "content/open/" "/open/").1 =
      .file chunks ∧ chunks.count Chunk.htmlLast = 2) ∧
    ∃ (rows : List (String × String × String × Nat × String)),
      rows.length = 2 ∧
      (listing_directories sampleEnv sampleLockedWorld "content/open/" "/open/").1 =
        .file (.htmlFirst "/open/" :: rows.flatMap (fun r =>
          [Chunk.htmlEntry r.1 r.2.1 r.2.2.1 r.2.2.2.1 r.2.2.2.2, Chunk.htmlLast])) := by
  have hl : (listing_directories sampleEnv sampleLockedWorld "content/open/" "/open/").1 =
      .file [.htmlFirst "/open/", .htmlEntry "x" "x" "7" 3 "file", .htmlLast,
        .htmlEntry "../" "Parent Directory" "2" 0 "directory", .htmlLast] := by
    decide
  obtain ⟨entries, rows, hopen, hlen, hshape, _, hcount, _⟩ :=
    listing_footer_after_each_row sampleEnv sampleLockedWorld "content/open/" "/open/" _ hl
  have hentries : entries = [".", "x", ".."] := by
    have h2 : sampleLockedWorld.fs.opendir "content/open/" = some [".", "x", ".."] := by decide
    rw [h2] at hopen
    simpa using hopen.symm
  refine ⟨⟨_, hl, by decide⟩, rows, ?_, ?_⟩
  · rw [hlen, hentries]
    decide
  · rw [hl, hshape]

end TinyHttp
